import Mathlib

/-
Verification development for the Markdown-to-WeChat HTML converter
(src/skills/md2wechat/libs/converter.py).  The Python source is embedded
shallowly: strings are `List Char`, pure functions become Lean functions,
and the `re` substitutions are implemented as explicit left-to-right
scanners matching Python's leftmost / lazy semantics for the concrete
patterns used by the source.
-/

namespace Md2WeChat

/-- Strings are modelled as lists of characters. -/
abbrev Str := List Char

/-- Coerce a Lean string literal to the `List Char` representation. -/
def str (s : String) : Str := s.data

/-- The backtick character (written via its code point). -/
def btick : Char := Char.ofNat 96

/-- Opening curly brace character. -/
def lbrace : Char := Char.ofNat 123

/-- Closing curly brace character. -/
def rbrace : Char := Char.ofNat 125

/-- Python `str.isspace` for the ASCII whitespace characters that occur in
documents; models the whitespace class used by `str.strip()` and `\s`. -/
def isPySpace (c : Char) : Bool :=
  c = ' ' || c = '\t' || c = '\n' || c = '\r' || c = '\x0b' || c = '\x0c'

/-- Python `str.lstrip()`. -/
def pyLStrip (l : Str) : Str := l.dropWhile isPySpace

/-- Python `str.rstrip()`. -/
def pyRStrip (l : Str) : Str := (l.reverse.dropWhile isPySpace).reverse

/-- Python `str.strip()`. -/
def pyStrip (l : Str) : Str := pyRStrip (pyLStrip l)

/-- Python `str.strip(c)` for one specific character `c`. -/
def pyStripChar (c : Char) (l : Str) : Str :=
  ((l.dropWhile (· = c)).reverse.dropWhile (· = c)).reverse

/-- Python `str.split(sep)` for a single-character separator: keeps empty
parts, yields one more part than the number of separators. -/
def pySplit (sep : Char) : Str → List Str
  | [] => [[]]
  | c :: rest =>
    if c = sep then [] :: pySplit sep rest
    else
      match pySplit sep rest with
      | [] => [[c]]
      | p :: ps => (c :: p) :: ps

/-- Python `sep.join(parts)` for the parts produced by `pySplit`. -/
def pyJoin (sep : Str) (parts : List Str) : Str := List.intercalate sep parts

/-- Membership test `c in line` on Python strings. -/
def strContains (l : Str) (c : Char) : Bool := l.contains c

/-- Worker for `pyReplace` with a non-empty pattern `p :: ps`; the fuel,
instantiated with the input length, dominates the number of consumed
characters, so the exhaustion branch is never reached. -/
def replaceGo (p : Char) (ps : Str) (repl : Str) : Nat → Str → Str
  | _, [] => []
  | 0, l => l
  | fuel + 1, c :: rest =>
    if (p :: ps).isPrefixOf (c :: rest) then
      repl ++ replaceGo p ps repl fuel (rest.drop ps.length)
    else c :: replaceGo p ps repl fuel rest

/-- Python `str.replace(pat, repl)`: non-overlapping, left to right. -/
def pyReplace (pat repl l : Str) : Str :=
  match pat with
  | [] => l
  | p :: ps => replaceGo p ps repl l.length l

/-- A front-matter value: a scalar string or a list of strings
(the minimal YAML-list emulation of the source). -/
inductive FMVal where
  | scalar (v : Str)
  | vlist (vs : List Str)
deriving DecidableEq, Repr

/-- Insert with Python-`dict` overwrite semantics into an association list. -/
def fmInsert (k : Str) (v : FMVal) : List (Str × FMVal) → List (Str × FMVal)
  | [] => [(k, v)]
  | (k', v') :: rest => if k' = k then (k, v) :: rest else (k', v') :: fmInsert k v rest

/-- Python `dict.get(key, default)` returning `none` for a missing key. -/
def fmGet (fm : List (Str × FMVal)) (k : Str) : Option FMVal :=
  (fm.find? (fun p => p.1 = k)).map (·.2)

/-- Models the per-line loop of `MarkdownParser._parse_front_matter`
(converter.py lines 252-281): split each line on the first `:`, trim and
de-quote the value, and collect subsequent `- item` lines as a list value
when the scalar value is empty. -/
def parseFMLinesGo : Nat → List Str → List (Str × FMVal) → List (Str × FMVal)
  | _, [], acc => acc
  | 0, _, acc => acc
  | fuel + 1, l :: rest, acc =>
    let line := pyStrip l
    if line = [] then parseFMLinesGo fuel rest acc
    else if strContains line ':' then
      let key := pyStrip (line.takeWhile (· ≠ ':'))
      let rawVal := (line.dropWhile (· ≠ ':')).drop 1
      let value := pyStripChar '\'' (pyStripChar '"' (pyStrip rawVal))
      if value = [] ∧ rest ≠ [] then
        let items := rest.takeWhile (fun x => (str "-").isPrefixOf (pyStrip x))
        if items ≠ [] then
          parseFMLinesGo fuel (rest.drop items.length)
            (fmInsert key (FMVal.vlist (items.map (fun x => pyStrip ((pyStrip x).drop 1)))) acc)
        else parseFMLinesGo fuel rest (fmInsert key (FMVal.scalar value) acc)
      else parseFMLinesGo fuel rest (fmInsert key (FMVal.scalar value) acc)
    else parseFMLinesGo fuel rest acc

/-- Entry point with fuel instantiated to the number of lines (each step
consumes at least one line, so exhaustion is unreachable). -/
def parseFMLines (lines : List Str) (acc : List (Str × FMVal)) : List (Str × FMVal) :=
  parseFMLinesGo lines.length lines acc

/-- Result of `MarkdownParser.__init__`: the parsed front matter and the body. -/
structure ParsedMd where
  front_matter : List (Str × FMVal)
  body : Str
deriving DecidableEq, Repr

/-- Models `MarkdownParser._parse_front_matter` (converter.py lines 231-283).
If the content does not start with `---`, or the first line's strip is not
`---`, or no later line strips to `---`, the whole input is the body and the
front matter is empty. -/
def parse_front_matter (content : Str) : ParsedMd :=
  if ¬ (str "---").isPrefixOf content then ⟨[], content⟩
  else
    let lines := pySplit '\n' content
    if pyStrip (lines.headD []) ≠ str "---" then ⟨[], content⟩
    else
      match (lines.drop 1).findIdx? (fun l => pyStrip l = str "---") with
      | none => ⟨[], content⟩
      | some off =>
        let endIdx := 1 + off
        let fmLines := (lines.drop 1).take (endIdx - 1)
        ⟨parseFMLines fmLines [], pyJoin (str "\n") (lines.drop (endIdx + 1))⟩

/-- Models `MarkdownParser.get_front_matter`: missing keys resolve to the
caller-supplied default. -/
def get_front_matter (p : ParsedMd) (k : Str) (dflt : FMVal) : FMVal :=
  (fmGet p.front_matter k).getD dflt

/-- The style configuration record (`StyleConfig` dataclass, converter.py
lines 20-69); the `name` field is omitted from rendering and kept for
fidelity. -/
structure StyleConfig where
  name : Str
  header_bg_color : Str
  header_text_color : Str
  header_font_size : Str
  card_bg_color : Str
  card_border_color : Str
  card_text_color : Str
  h2_h3_card_bg_color : Str
  h2_h3_card_border_color : Str
  h2_title_line_color : Str
  h2_title_text_color : Str
  h2_title_font_size : Str
  h3_title_bg_color : Str
  h3_title_border_color : Str
  h3_title_text_color : Str
  h3_title_font_size : Str
  code_bg_color : Str
  code_border_color : Str
  code_text_color : Str
  inline_code_bg_color : Str
  inline_code_text_color : Str
  paragraph_font_size : Str
  paragraph_line_height : Str
  paragraph_color : Str
  blockquote_bg_color : Str
  blockquote_border_color : Str
  blockquote_text_color : Str
  table_header_bg_color : Str
  table_border_color : Str
  link_color : Str
  meta_text_color : Str
  meta_font_size : Str
  source_text_color : Str
  source_font_size : Str
deriving DecidableEq, Repr

/-- The `academic_gray` style preset (converter.py lines 75-110). -/
def academicGray : StyleConfig where
  name := str "学术灰风格"
  header_bg_color := str "#2C3E50"
  header_text_color := str "#FFFFFF"
  header_font_size := str "22px"
  card_bg_color := str "#FFFFFF"
  card_border_color := str "#E0E0E0"
  card_text_color := str "#2C3E50"
  h2_h3_card_bg_color := str "#FAFAFA"
  h2_h3_card_border_color := str "#E8E8E8"
  h2_title_line_color := str "#34495E"
  h2_title_text_color := str "#2C3E50"
  h2_title_font_size := str "20px"
  h3_title_bg_color := str "#ECF0F1"
  h3_title_border_color := str "#34495E"
  h3_title_text_color := str "#34495E"
  h3_title_font_size := str "17px"
  code_bg_color := str "#F8F9FA"
  code_border_color := str "#E9ECEF"
  code_text_color := str "#2C3E50"
  inline_code_bg_color := str "#F1F3F5"
  inline_code_text_color := str "#C0392B"
  paragraph_font_size := str "16px"
  paragraph_line_height := str "1.8"
  paragraph_color := str "#2C3E50"
  blockquote_bg_color := str "#F8F9FA"
  blockquote_border_color := str "#BDC3C7"
  blockquote_text_color := str "#5D6D7E"
  table_header_bg_color := str "#ECF0F1"
  table_border_color := str "#BDC3C7"
  link_color := str "#2980B9"
  meta_text_color := str "#7F8C8D"
  meta_font_size := str "13px"
  source_text_color := str "#95A5A6"
  source_font_size := str "12px"

/-- The `festival` style preset (converter.py lines 111-146). -/
def festival : StyleConfig where
  name := str "节日快乐色彩系"
  header_bg_color := str "#E74C3C"
  header_text_color := str "#FFFFFF"
  header_font_size := str "22px"
  card_bg_color := str "#FFF8E1"
  card_border_color := str "#F39C12"
  card_text_color := str "#5D4037"
  h2_h3_card_bg_color := str "#FFFDE7"
  h2_h3_card_border_color := str "#F39C12"
  h2_title_line_color := str "#E74C3C"
  h2_title_text_color := str "#C0392B"
  h2_title_font_size := str "20px"
  h3_title_bg_color := str "#FFE082"
  h3_title_border_color := str "#E74C3C"
  h3_title_text_color := str "#C0392B"
  h3_title_font_size := str "17px"
  code_bg_color := str "#FFF8E1"
  code_border_color := str "#F39C12"
  code_text_color := str "#5D4037"
  inline_code_bg_color := str "#FFECB3"
  inline_code_text_color := str "#E65100"
  paragraph_font_size := str "16px"
  paragraph_line_height := str "1.8"
  paragraph_color := str "#4E342E"
  blockquote_bg_color := str "#FFF8E1"
  blockquote_border_color := str "#FFB74D"
  blockquote_text_color := str "#6D4C41"
  table_header_bg_color := str "#FFE082"
  table_border_color := str "#FFB74D"
  link_color := str "#D84315"
  meta_text_color := str "#8D6E63"
  meta_font_size := str "13px"
  source_text_color := str "#A1887F"
  source_font_size := str "12px"

/-- The `tech` style preset (converter.py lines 147-182). -/
def tech : StyleConfig where
  name := str "科技产品介绍色彩系"
  header_bg_color := str "#1565C0"
  header_text_color := str "#FFFFFF"
  header_font_size := str "22px"
  card_bg_color := str "#E3F2FD"
  card_border_color := str "#42A5F5"
  card_text_color := str "#0D47A1"
  h2_h3_card_bg_color := str "#E8F4FD"
  h2_h3_card_border_color := str "#42A5F5"
  h2_title_line_color := str "#1565C0"
  h2_title_text_color := str "#0D47A1"
  h2_title_font_size := str "20px"
  h3_title_bg_color := str "#BBDEFB"
  h3_title_border_color := str "#1565C0"
  h3_title_text_color := str "#0D47A1"
  h3_title_font_size := str "17px"
  code_bg_color := str "#E3F2FD"
  code_border_color := str "#64B5F6"
  code_text_color := str "#0D47A1"
  inline_code_bg_color := str "#BBDEFB"
  inline_code_text_color := str "#1565C0"
  paragraph_font_size := str "16px"
  paragraph_line_height := str "1.8"
  paragraph_color := str "#0D47A1"
  blockquote_bg_color := str "#E3F2FD"
  blockquote_border_color := str "#64B5F6"
  blockquote_text_color := str "#1565C0"
  table_header_bg_color := str "#BBDEFB"
  table_border_color := str "#64B5F6"
  link_color := str "#0277BD"
  meta_text_color := str "#546E7A"
  meta_font_size := str "13px"
  source_text_color := str "#78909C"
  source_font_size := str "12px"

/-- The `announcement` style preset (converter.py lines 183-218). -/
def announcement : StyleConfig where
  name := str "重大事情告知色彩系"
  header_bg_color := str "#C0392B"
  header_text_color := str "#FFFFFF"
  header_font_size := str "22px"
  card_bg_color := str "#FEF5E7"
  card_border_color := str "#E67E22"
  card_text_color := str "#922B21"
  h2_h3_card_bg_color := str "#FEF9E7"
  h2_h3_card_border_color := str "#E67E22"
  h2_title_line_color := str "#C0392B"
  h2_title_text_color := str "#922B21"
  h2_title_font_size := str "20px"
  h3_title_bg_color := str "#FAD7A0"
  h3_title_border_color := str "#C0392B"
  h3_title_text_color := str "#922B21"
  h3_title_font_size := str "17px"
  code_bg_color := str "#FEF5E7"
  code_border_color := str "#E67E22"
  code_text_color := str "#922B21"
  inline_code_bg_color := str "#FAD7A0"
  inline_code_text_color := str "#C0392B"
  paragraph_font_size := str "16px"
  paragraph_line_height := str "1.8"
  paragraph_color := str "#7B241C"
  blockquote_bg_color := str "#FEF5E7"
  blockquote_border_color := str "#E67E22"
  blockquote_text_color := str "#A04000"
  table_header_bg_color := str "#FAD7A0"
  table_border_color := str "#E67E22"
  link_color := str "#C0392B"
  meta_text_color := str "#A04000"
  meta_font_size := str "12px"
  source_text_color := str "#A1887F"
  source_font_size := str "12px"

/-- The `STYLES` registry (converter.py line 74), in declaration order. -/
def STYLES : List (Str × StyleConfig) :=
  [(str "academic_gray", academicGray), (str "festival", festival),
   (str "tech", tech), (str "announcement", announcement)]

/-- The registry's style names, `list(STYLES.keys())`. -/
def styleNames : List Str := STYLES.map (·.1)

/-- Python `repr` of the list of style names as interpolated into the error
message `f"... Available: {list(STYLES.keys())}"`. -/
def pyListRepr (names : List Str) : Str :=
  str "[" ++ pyJoin (str ", ") (names.map (fun n => str "'" ++ n ++ str "'")) ++ str "]"

/-- Models `MarkdownToWeChatConverter.__init__` (converter.py lines 411-424):
an unknown style name raises `ValueError` with a message listing the
available names; a known name yields the selected configuration. -/
def initConverter (style : Str) : Except Str StyleConfig :=
  match STYLES.find? (fun p => p.1 = style) with
  | some p => .ok p.2
  | none => .error (str "Unknown style: " ++ style ++ str ". Available: " ++ pyListRepr styleNames)

/-! ## Block lexer: `_convert_body` tokenization (converter.py lines 457-682) -/

/-- The nested list structure built by `_build_list_structure`: an ordered
sequence of entries `(text, children, childOrdered)`.  A plain entry
carries `nil` children and `childOrdered = none` (Python's
`(text, None, None)`); an entry with an attached deeper run carries the
non-empty nested structure and `childOrdered = some false` (Python's
`(text, nested, False)`).  Python's `None` and `[]` children are both
falsy at the single use site, so both map to `nil`. -/
inductive LEntries where
  | nil
  | cons (text : Str) (children : LEntries) (childOrdered : Option Bool) (rest : LEntries)
deriving DecidableEq

/-- Is the entry sequence empty (Python falsiness of the list)? -/
def LEntries.isNil : LEntries → Bool
  | .nil => true
  | .cons _ _ _ _ => false

/-- An entry triple as manipulated by the `result` list of
`_build_list_structure`. -/
instance : Inhabited LEntries := ⟨LEntries.nil⟩

abbrev LTriple := Str × LEntries × Option Bool

/-- Convert an in-order list of entry triples to the entry sequence. -/
def toLEntries : List LTriple → LEntries
  | [] => .nil
  | (t, ch, o) :: rest => .cons t ch o (toLEntries rest)

/-- Block tokens as produced by the line scanner of `_convert_body`, together
with the grouped `list` / `table` nodes produced by
`_group_list_and_table_items`. -/
inductive Tok where
  | paragraph (text : Str)
  | code (text : Str) (lang : Str)
  | image (src alt title : Str)
  | heading (text : Str) (level : Nat)
  | list_item (text : Str) (indent : Nat) (ordered : Bool)
  | table_row (cells : List Str)
  | table_separator (aligns : List Str)
  | blockquote (text : Str)
  | horizontal_rule
  | glist (entries : LEntries) (ordered : Bool)
  | gtable (rows : List (List Str × Bool)) (aligns : List Str)
deriving DecidableEq

/-- A section `{level, title, items}` of the scanned document. -/
structure Sec where
  level : Nat
  title : Str
  items : List Tok
deriving DecidableEq

/-- Does the tail `\s*#*\s*$` of the ATX-heading regex match this string? -/
def atxTailJunk (s : Str) : Bool :=
  ((s.dropWhile isPySpace).dropWhile (· = '#')).all isPySpace

/-- The lazy group `(.+?)` of the ATX regex: the shortest non-empty prefix
whose remainder matches `\s*#*\s*$`. -/
def atxBody : Str → Option Str
  | [] => none
  | c :: rest => if atxTailJunk rest then some [c] else (atxBody rest).map (c :: ·)

/-- Models `_ATX_H_RE.match(line)` for
`^\s{0,3}(#{1,6})\s+(.+?)\s*#*\s*$` (converter.py line 460), returning the
heading level and the raw `group(2)` text. -/
def matchATX (line : Str) : Option (Nat × Str) :=
  if (line.takeWhile isPySpace).length ≤ 3 then
    let r0 := line.dropWhile isPySpace
    let hl := (r0.takeWhile (· = '#')).length
    if 1 ≤ hl ∧ hl ≤ 6 then
      let R := r0.drop hl
      let W := R.takeWhile isPySpace
      let T := R.dropWhile isPySpace
      if W = [] then none
      else
        match atxBody T with
        | some g2 => some (hl, g2)
        | none => if 2 ≤ W.length then some (hl, [W.getLastD ' ']) else none
    else none
  else none

/-- Attempt `!\[([^\]]*)\]\((\S+?)\s+"([^"]+)"\)` at the head of the string
(the body of `_IMG_RE_1.search` at one position). -/
def img1At (l : Str) : Option (Str × Str × Str) :=
  match l with
  | '!' :: '[' :: r1 =>
    let alt := r1.takeWhile (· ≠ ']')
    match r1.drop alt.length with
    | ']' :: '(' :: r3 =>
      let src := r3.takeWhile (fun c => ¬ isPySpace c)
      if src = [] then none
      else
        let r4 := r3.drop src.length
        let ws := r4.takeWhile isPySpace
        if ws = [] then none
        else
          match r4.drop ws.length with
          | '"' :: r6 =>
            let title := r6.takeWhile (· ≠ '"')
            if title = [] then none
            else
              match r6.drop title.length with
              | '"' :: ')' :: _ => some (alt, src, title)
              | _ => none
          | _ => none
    | _ => none
  | _ => none

/-- Models `_IMG_RE_1.search(line)` (converter.py line 461): leftmost match. -/
def searchImg1 : Str → Option (Str × Str × Str)
  | [] => none
  | c :: rest =>
    match img1At (c :: rest) with
    | some r => some r
    | none => searchImg1 rest

/-- Attempt `!\[([^\]]*)\]\((\S+?)\)` at the head of the string: the lazy
`\S+?` grows until the first `)`, and may not contain whitespace. -/
def img2Src : Str → Option (Str × Str)
  | [] => none
  | c :: rest =>
    if isPySpace c then none
    else if rest.headD ' ' = ')' then some ([c], rest.drop 1)
    else (img2Src rest).map (fun p => (c :: p.1, p.2))

/-- Attempt `_IMG_RE_2` at the head of the string. -/
def img2At (l : Str) : Option (Str × Str) :=
  match l with
  | '!' :: '[' :: r1 =>
    let alt := r1.takeWhile (· ≠ ']')
    match r1.drop alt.length with
    | ']' :: '(' :: r3 =>
      match img2Src r3 with
      | some (src, _) => some (alt, src)
      | none => none
    | _ => none
  | _ => none

/-- Models `_IMG_RE_2.search(line)` (converter.py line 462): leftmost match. -/
def searchImg2 : Str → Option (Str × Str)
  | [] => none
  | c :: rest =>
    match img2At (c :: rest) with
    | some r => some r
    | none => searchImg2 rest

/-- The image recognition of `_convert_body` (converter.py lines 529-542):
only lines whose strip starts with `![` yield an image token; the titled
form is tried first. -/
def imageOfLine (line : Str) : Option (Str × Str × Str) :=
  if (str "![").isPrefixOf (pyStrip line) then
    match searchImg1 line with
    | some (alt, src, title) => some (src, alt, title)
    | none =>
      match searchImg2 line with
      | some (alt, src) => some (src, alt, [])
      | none => none
  else none

/-- Models `re.match(r'^(\s*)([-*+]|\d+\.)\s+(.+)$', line)`
(converter.py line 594), returning `(indent, marker, text)`. -/
def matchListItem (line : Str) : Option (Nat × Str × Str) :=
  let ws := line.takeWhile isPySpace
  let r0 := line.drop ws.length
  let marker : Option Str :=
    match r0 with
    | '-' :: _ => some [ '-' ]
    | '*' :: _ => some [ '*' ]
    | '+' :: _ => some [ '+' ]
    | _ =>
      let ds := r0.takeWhile (·.isDigit)
      if ds ≠ [] ∧ (r0.drop ds.length).headD ' ' = '.' then some (ds ++ [ '.' ]) else none
  match marker with
  | none => none
  | some m =>
    let r1 := r0.drop m.length
    let w := r1.takeWhile isPySpace
    let t := r1.drop w.length
    if w = [] then none
    else if t ≠ [] then some (ws.length, m, t)
    else if 2 ≤ w.length then some (ws.length, m, [w.getLastD ' '])
    else none

/-- Table-line test of `_convert_body` (converter.py line 610):
`'|' in line and line.strip().startswith('|') and line.strip().endswith('|')`. -/
def isTableLine (line : Str) : Bool :=
  let st := pyStrip line
  strContains line '|' && ('|' :: []).isPrefixOf st && st.reverse.headD ' ' = '|'

/-- The stripped cells `[cell.strip() for cell in stripped.split('|')[1:-1]]`. -/
def tableCells (line : Str) : List Str :=
  let parts := pySplit '|' (pyStrip line)
  ((parts.drop 1).take (parts.length - 2)).map pyStrip

/-- Separator test (converter.py line 614): every cell with non-blank strip
matches `^[\s\-:]+$` and contains a `-`; vacuously true when every cell is
blank. -/
def isSeparatorCells (cells : List Str) : Bool :=
  cells.all (fun cell =>
    if pyStrip cell ≠ [] then
      (cell ≠ [] && cell.all (fun c => isPySpace c || c = '-' || c = ':')) && strContains cell '-'
    else true)

/-- Alignment inference for a separator row (converter.py lines 618-626). -/
def alignOfCell (cell : Str) : Str :=
  let c := pyStrip cell
  if (str ":").isPrefixOf c ∧ c.reverse.headD ' ' = ':' then str "center"
  else if c.reverse.headD ' ' = ':' then str "right"
  else str "left"

/-- Models the horizontal-rule test
`re.match(r'^(\s*[-*_]\s*){3,}$', stripped_line)` (converter.py line 651). -/
def isHRule (s : Str) : Bool :=
  s ≠ [] && s.all (fun c => isPySpace c || c = '-' || c = '*' || c = '_')
    && 3 ≤ (s.filter (fun c => c = '-' || c = '*' || c = '_')).length

/-- Mutable state of the `_convert_body` scanning loop. -/
structure LexState where
  sections : List Sec
  cur : Option Sec
  in_code : Bool
  code_lang : Str
  buf_code : List Str
  preface : List Tok
  parabuf : List Str

/-- Initial scanner state. -/
def initLexState : LexState :=
  ⟨[], none, false, [], [], [], []⟩

/-- `flush_para_buffer` (converter.py lines 487-496). -/
def flushPara (st : LexState) : LexState :=
  if st.parabuf ≠ [] then
    let text := pyJoin (str "\n") st.parabuf
    if pyStrip text ≠ [] then
      match st.cur with
      | some sec => { st with cur := some { sec with items := sec.items ++ [Tok.paragraph text] }, parabuf := [] }
      | none => { st with preface := st.preface ++ [Tok.paragraph text], parabuf := [] }
    else { st with parabuf := [] }
  else st

/-- Append an item to the current section, or to the preface. -/
def pushItem (st : LexState) (t : Tok) : LexState :=
  match st.cur with
  | some sec => { st with cur := some { sec with items := sec.items ++ [t] } }
  | none => { st with preface := st.preface ++ [t] }

/-- One scanning step of the `_convert_body` loop for a single line
(converter.py lines 499-665), in the source's priority order: code fence,
code capture, image, ATX heading, list item, table row, blockquote,
horizontal rule, paragraph buffering. -/
def lexLine (st : LexState) (line : Str) : LexState :=
  if (str "```").isPrefixOf (pyLStrip line) then
    if ¬ st.in_code then
      { st with in_code := true, code_lang := pyStrip ((pyStrip line).drop 3), buf_code := [] }
    else
      let st' := flushPara st
      let st'' := pushItem st' (Tok.code (pyJoin (str "\n") st'.buf_code) st'.code_lang)
      { st'' with in_code := false, code_lang := [], buf_code := [] }
  else if st.in_code then
    { st with buf_code := st.buf_code ++ [line] }
  else
    match imageOfLine line with
    | some (src, alt, title) =>
      pushItem (flushPara st) (Tok.image src alt title)
    | none =>
      match matchATX line with
      | some (level, g2) =>
        let text := pyStrip g2
        let st' := flushPara st
        if level = 2 ∨ level = 3 then
          let st'' :=
            match st'.cur with
            | some sec => { st' with sections := st'.sections ++ [sec] }
            | none =>
              if st'.preface.isEmpty then st'
              else
                { st' with sections := st'.sections ++ [Sec.mk 0 [] st'.preface], preface := [] }
          { st'' with cur := some ⟨level, text, []⟩ }
        else pushItem st' (Tok.heading text level)
      | none =>
        match matchListItem line with
        | some (indent, marker, text) =>
          pushItem (flushPara st)
            (Tok.list_item text indent (marker ≠ str "-" ∧ marker ≠ str "*" ∧ marker ≠ str "+"))
        | none =>
          if isTableLine line then
            let cells := tableCells line
            let st' := flushPara st
            if isSeparatorCells cells then
              pushItem st' (Tok.table_separator (cells.map alignOfCell))
            else pushItem st' (Tok.table_row cells)
          else if (pyLStrip line).headD ' ' = '>' then
            pushItem (flushPara st) (Tok.blockquote (pyStrip ((pyLStrip line).drop 1)))
          else if isHRule (pyStrip line) then
            pushItem (flushPara st) Tok.horizontal_rule
          else if pyStrip line ≠ [] then
            { st with parabuf := st.parabuf ++ [line] }
          else st

/-- The second front-matter strip nested inside `_convert_body`
(converter.py lines 464-472). -/
def stripFrontMatterLines (lines : List Str) : List Str :=
  if 3 ≤ lines.length ∧ pyStrip (lines.headD []) = str "---" then
    match (lines.drop 1).findIdx? (fun l => pyStrip l = str "---") with
    | some off => lines.drop (1 + off + 1)
    | none => lines
  else lines

/-- Normalize line endings and split, as in `_convert_body`
(converter.py line 474). -/
def bodyLines (body : Str) : List Str :=
  stripFrontMatterLines
    (pySplit '\n' (pyReplace (str "\r") (str "\n") (pyReplace (str "\r\n") (str "\n") body)))

/-- Scan a list of body lines, threading the state. -/
def lexLines (st : LexState) : List Str → LexState
  | [] => st
  | l :: rest => lexLines (lexLine st l) rest

/-- End-of-input handling of `_convert_body` (converter.py lines 667-672):
flush the paragraph buffer, then close the current section, else push a
non-empty preface as the level-0 section.  An open code-fence buffer is
dropped here: no flush path exists for it. -/
def finishLex (st : LexState) : List Sec :=
  let st' := flushPara st
  match st'.cur with
  | some sec => st'.sections ++ [sec]
  | none => if st'.preface.isEmpty then st'.sections else st'.sections ++ [Sec.mk 0 [] st'.preface]

/-- The scanning phase of `_convert_body`: body text to ungrouped sections. -/
def scanBody (body : Str) : List Sec :=
  finishLex (lexLines initLexState (bodyLines body))

/-! ## Grouping: `_group_list_and_table_items` (converter.py lines 684-744) -/

/-- Collect the run of list items compatible with the first item's
indentation and kind (converter.py lines 698-709): the run ends at the first
non-list token, or one with smaller indent, or differing kind at equal
indent; returns the collected `(text, indent)` pairs and the remainder. -/
def takeListRun (base : Nat) (ord : Bool) : List Tok → List (Str × Nat) × List Tok
  | Tok.list_item t ind o :: rest =>
    if ind < base ∨ (ind = base ∧ o ≠ ord) then ([], Tok.list_item t ind o :: rest)
    else ((t, ind) :: (takeListRun base ord rest).1, (takeListRun base ord rest).2)
  | l => ([], l)

/-- Collect a run of consecutive table tokens (converter.py lines 721-733):
a separator overwrites the alignments and does not change the header flag;
the first row of the run is the header row, every later row a body row. -/
def takeTableRun (aligns : List Str) (isHeader : Bool) :
    List Tok → List (List Str × Bool) × List Str × List Tok
  | Tok.table_separator a :: rest => takeTableRun a isHeader rest
  | Tok.table_row cells :: rest =>
    ((cells, isHeader) :: (takeTableRun aligns false rest).1,
      (takeTableRun aligns false rest).2.1, (takeTableRun aligns false rest).2.2)
  | l => ([], aligns, l)

/-- Worker for `groupItems`; the fuel, instantiated with the number of
items, dominates the number of consumed tokens (every grouped run consumes
at least its first token). -/
def groupItemsGo (build : List (Str × Nat) → Nat → Bool → LEntries) :
    Nat → List Tok → List Tok
  | _, [] => []
  | 0, l => l
  | fuel + 1, Tok.list_item t ind o :: rest =>
    Tok.glist (build (takeListRun ind o (Tok.list_item t ind o :: rest)).1 ind o) o ::
      groupItemsGo build fuel (takeListRun ind o (Tok.list_item t ind o :: rest)).2
  | fuel + 1, Tok.table_row cells :: rest =>
    (if (takeTableRun [str "left"] true (Tok.table_row cells :: rest)).1.isEmpty then []
     else
       [Tok.gtable (takeTableRun [str "left"] true (Tok.table_row cells :: rest)).1
          (takeTableRun [str "left"] true (Tok.table_row cells :: rest)).2.1]) ++
      groupItemsGo build fuel (takeTableRun [str "left"] true (Tok.table_row cells :: rest)).2.2
  | fuel + 1, Tok.table_separator a :: rest =>
    (if (takeTableRun [str "left"] true (Tok.table_separator a :: rest)).1.isEmpty then []
     else
       [Tok.gtable (takeTableRun [str "left"] true (Tok.table_separator a :: rest)).1
          (takeTableRun [str "left"] true (Tok.table_separator a :: rest)).2.1]) ++
      groupItemsGo build fuel (takeTableRun [str "left"] true (Tok.table_separator a :: rest)).2.2
  | fuel + 1, t :: rest => t :: groupItemsGo build fuel rest

/-- Models `_group_list_and_table_items` (converter.py lines 684-744),
with the nested-list construction deferred to the `build` argument
(instantiated with `buildListStructure` below). -/
def groupItems (build : List (Str × Nat) → Nat → Bool → LEntries) (items : List Tok) :
    List Tok :=
  groupItemsGo build items.length items


/-- The largest indentation among `(text, indent)` pairs. -/
def maxIndent (items : List (Str × Nat)) : Nat :=
  items.foldr (fun p m => max p.2 m) 0

/-- `maxIndent` is monotone with respect to sublists. -/
theorem maxIndent_sublist {l₁ l₂ : List (Str × Nat)} (h : l₁.Sublist l₂) :
    maxIndent l₁ ≤ maxIndent l₂ := by
  induction h with
  | slnil => simp [maxIndent]
  | cons a _ ih =>
    simp only [maxIndent, List.foldr_cons] at ih ⊢
    exact le_trans ih (le_max_right _ _)
  | cons₂ a _ ih =>
    simp only [maxIndent, List.foldr_cons] at ih ⊢
    exact max_le_max le_rfl ih

/-- Models `_build_list_structure` (converter.py lines 746-781) with an
explicit accumulator for the `result` list (kept in reverse order): an item
deeper than the base indent collects the whole deeper run, recursively
builds it with the hardcoded `nested_ordered = False`, and overwrites the
previous sibling's `(children, childOrdered)` — dropping the nested run when
no previous sibling exists. -/
def buildAuxGo : Nat → List (Str × Nat) → Nat → List LTriple → List LTriple
  | _, [], _, acc => acc.reverse
  | 0, _, _, acc => acc.reverse
  | fuel + 1, (t, ind) :: rest, base, acc =>
    if ind > base then
      buildAuxGo fuel (rest.dropWhile (fun p => ind ≤ p.2)) base
        (match acc with
         | [] => []
         | (pt, _, _) :: accRest =>
           (pt,
            toLEntries (buildAuxGo fuel (rest.takeWhile (fun p => ind ≤ p.2)) ind
              [(t, LEntries.nil, none)]),
            some (false : Bool)) :: accRest)
    else buildAuxGo fuel rest base ((t, LEntries.nil, none) :: acc)

/-- `buildAux items base acc` runs the loop with fuel equal to the number
of items.  The recursive call on a deeper run is unrolled by one step: the
run's first element has indent equal to the new base, so its first
iteration always takes the plain-append branch; after that unrolling every
recursive call is on a strictly shorter list, so the fuel is sufficient. -/
def buildAux (items : List (Str × Nat)) (base : Nat) (acc : List LTriple) : List LTriple :=
  buildAuxGo items.length items base acc

/-- `_build_list_structure(items, base_indent, is_ordered)`; the
`is_ordered` parameter is unused by the source body and kept for fidelity. -/
def buildListStructure (items : List (Str × Nat)) (base : Nat) (_ord : Bool) : LEntries :=
  toLEntries (buildAux items base [])

/-- Grouping pass applied to a section's items (converter.py line 676). -/
def groupSec (s : Sec) : Sec :=
  { s with items := groupItems buildListStructure s.items }

/-- Scan and group: body text to grouped sections. -/
def bodySections (body : Str) : List Sec :=
  (scanBody body).map groupSec

/-! ## Inline formatting: `_inline_format` (converter.py lines 1054-1102) -/

/-- The Markdown punctuation characters restored by
`re.sub(r'\\([\#\*\_\[\]\(\)\`\\])', r'\1', text)`. -/
def mdEscChars : List Char := ['#', '*', '_', '[', ']', '(', ')', Char.ofNat 96, '\\']

/-- The backslash-unescape pass (converter.py line 1058). -/
def unescapeMd : Str → Str
  | [] => []
  | '\\' :: c :: rest =>
    if c ∈ mdEscChars then c :: unescapeMd rest else '\\' :: unescapeMd (c :: rest)
  | c :: rest => c :: unescapeMd rest

/-- Named entities recognised by the model of `html.unescape`. -/
def entityTable : List (Str × Char) :=
  [(str "amp;", '&'), (str "lt;", '<'), (str "gt;", '>'), (str "quot;", '"'),
   (str "apos;", '\''), (str "nbsp;", Char.ofNat 160)]

/-- Entity lookup after a `&`: returns the decoded character and the number
of characters consumed.  Models Python's `html.unescape` restricted to the
common named entities and `&#N;` / `&#xH;` numeric references; none of the
downstream theorems depend on the exact entity table, since escaping runs
after this pass. -/
def entityAfterAmp (rest : Str) : Option (Char × Nat) :=
  match entityTable.find? (fun p => p.1.isPrefixOf rest) with
  | some p => some (p.2, p.1.length)
  | none =>
    match rest with
    | '#' :: r2 =>
      match r2 with
      | 'x' :: r3 =>
        let ds := r3.takeWhile (fun c => c.isDigit || ('a' ≤ c ∧ c ≤ 'f') || ('A' ≤ c ∧ c ≤ 'F'))
        if ds ≠ [] ∧ (r3.drop ds.length).headD ' ' = ';' then
          some (Char.ofNat (ds.foldl (fun a c => a * 16 + c.toNat % 16 + (if c.isDigit then 0 else 9)) 0),
            2 + ds.length + 1)
        else none
      | _ =>
        let ds := r2.takeWhile (·.isDigit)
        if ds ≠ [] ∧ (r2.drop ds.length).headD ' ' = ';' then
          some (Char.ofNat (ds.foldl (fun a c => a * 10 + (c.toNat - '0'.toNat)) 0),
            1 + ds.length + 1)
        else none
    | _ => none

/-- Worker for `htmlUnescape`; the fuel, instantiated with the input
length, dominates the number of consumed characters. -/
def htmlUnescapeGo : Nat → Str → Str
  | _, [] => []
  | 0, l => l
  | fuel + 1, c :: rest =>
    if c = '&' then
      match entityAfterAmp rest with
      | some (d, n) => d :: htmlUnescapeGo fuel (rest.drop n)
      | none => '&' :: htmlUnescapeGo fuel rest
    else c :: htmlUnescapeGo fuel rest

/-- The `html.unescape(text)` pass (converter.py line 1060), on the modelled
entity subset. -/
def htmlUnescape (l : Str) : Str := htmlUnescapeGo l.length l

/-- `html.escape(text, quote=True)` on one character: `&`, `<`, `>`, `"`,
`'` become entities. -/
def escChar (c : Char) : Str :=
  if c = '&' then str "&amp;"
  else if c = '<' then str "&lt;"
  else if c = '>' then str "&gt;"
  else if c = '"' then str "&quot;"
  else if c = '\'' then str "&#x27;"
  else [c]

/-- `_escape_html` = `html.escape(text)` (converter.py lines 15-17). -/
def escape_html (l : Str) : Str := (l.map escChar).join

/-- The apostrophe restoration
`text.replace('&#x27;', "'").replace('&#39;', "'")` (converter.py line 1067). -/
def restoreApos (l : Str) : Str :=
  pyReplace (str "&#39;") (str "'") (pyReplace (str "&#x27;") (str "'") l)

/-- Lazy closing scan for the bold pattern `\*\*(.+?)\*\*`: the shortest
non-empty newline-free content followed by `**`. -/
def boldClose : Str → Option (Str × Str)
  | [] => none
  | c :: rest =>
    if c = '\n' then none
    else if (str "**").isPrefixOf rest then some ([c], rest.drop 2)
    else (boldClose rest).map (fun p => (c :: p.1, p.2))

/-- Leftmost match of `\*\*(.+?)\*\*`, returning `(pre, group, rest)`. -/
def matchBold : Str → Option (Str × Str × Str)
  | [] => none
  | c :: rest =>
    if c = '*' ∧ rest.headD ' ' = '*' then
      match boldClose (rest.drop 1) with
      | some (g, r) => some ([], g, r)
      | none => (matchBold rest).map (fun t => (c :: t.1, t.2))
    else (matchBold rest).map (fun t => (c :: t.1, t.2))

/-- Closing scan for the italic pattern: a `*` closes when the previous
content character is not `*` (the `(?<!\*)` lookbehind) and the next
character is not `*` (the `(?!\*)` lookahead); otherwise the `*` joins the
content. -/
def italClose (prev : Char) : Str → Option (Str × Str)
  | [] => none
  | c :: rest =>
    if c = '*' then
      if prev ≠ '*' ∧ rest.headD ' ' ≠ '*' then some ([], rest)
      else (italClose c rest).map (fun p => (c :: p.1, p.2))
    else if c = '\n' then none
    else (italClose c rest).map (fun p => (c :: p.1, p.2))

/-- First content character of an italic match, then the closing scan.
The call site guarantees the first character is not `*`. -/
def italCloseStart : Str → Option (Str × Str)
  | [] => none
  | c :: rest =>
    if c = '\n' then none
    else if c = '*' then none
    else (italClose c rest).map (fun p => (c :: p.1, p.2))

/-- Leftmost match of `(?<!\*)\*(?!\*)(.+?)(?<!\*)\*(?!\*)`
(converter.py line 1073); `prev` is the character before the scan position. -/
def matchItal (prev : Option Char) : Str → Option (Str × Str × Str)
  | [] => none
  | c :: rest =>
    if c = '*' then
      if prev ≠ some '*' ∧ rest.headD ' ' ≠ '*' then
        match italCloseStart rest with
        | some (g, r) => some ([], g, r)
        | none => (matchItal (some c) rest).map (fun t => (c :: t.1, t.2))
      else (matchItal (some c) rest).map (fun t => (c :: t.1, t.2))
    else (matchItal (some c) rest).map (fun t => (c :: t.1, t.2))

/-- Leftmost match of the inline-code pattern `` `([^`]+)` ``. -/
def matchCode : Str → Option (Str × Str × Str)
  | [] => none
  | c :: rest =>
    if c = btick then
      let g := rest.takeWhile (· ≠ btick)
      if g ≠ [] ∧ (rest.drop g.length).headD ' ' = btick then
        some ([], g, (rest.drop g.length).drop 1)
      else (matchCode rest).map (fun t => (c :: t.1, t.2))
    else (matchCode rest).map (fun t => (c :: t.1, t.2))

/-- Leftmost match of the link pattern `\[([^\]]+)\]\(([^)]+)\)`,
returning `(pre, text, url, rest)`. -/
def matchLink : Str → Option (Str × Str × Str × Str)
  | [] => none
  | c :: rest =>
    if c = '[' then
      let t := rest.takeWhile (· ≠ ']')
      let r2 := rest.drop t.length
      if t ≠ [] ∧ r2.headD ' ' = ']' ∧ (r2.drop 1).headD ' ' = '(' then
        let r3 := r2.drop 2
        let u := r3.takeWhile (· ≠ ')')
        if u ≠ [] ∧ (r3.drop u.length).headD ' ' = ')' then
          some ([], t, u, (r3.drop u.length).drop 1)
        else (matchLink rest).map (fun q => (c :: q.1, q.2))
      else (matchLink rest).map (fun q => (c :: q.1, q.2))
    else (matchLink rest).map (fun q => (c :: q.1, q.2))

/-- The literal `**{color:` closing the lazy group of the colored-bold
pattern `\*\*(.+?)\*\*\{color:([^}]+)\}`. -/
def cstrLit : Str := '*' :: '*' :: lbrace :: str "color:"

/-- Lazy scan for the colored-bold closer: grows the content until an
occurrence of `**{color:` is followed by a non-empty brace-free color and a
closing brace (Python's backtracking extends the lazy group past an
occurrence whose color part fails). -/
def cstrScan : Str → Option (Str × Str × Str)
  | [] => none
  | c :: rest =>
    if c = '\n' then none
    else if cstrLit.isPrefixOf rest then
      let r := rest.drop cstrLit.length
      let col := r.takeWhile (· ≠ rbrace)
      if col ≠ [] ∧ (r.drop col.length).headD ' ' = rbrace then
        some ([c], col, (r.drop col.length).drop 1)
      else (cstrScan rest).map (fun t => (c :: t.1, t.2))
    else (cstrScan rest).map (fun t => (c :: t.1, t.2))

/-- Leftmost match of `\*\*(.+?)\*\*\{color:([^}]+)\}`
(converter.py line 1099), returning `(pre, text, color, rest)`. -/
def matchCStrong : Str → Option (Str × Str × Str × Str)
  | [] => none
  | c :: rest =>
    if c = '*' ∧ rest.headD ' ' = '*' then
      match cstrScan (rest.drop 1) with
      | some (g, col, r) => some ([], g, col, r)
      | none => (matchCStrong rest).map (fun q => (c :: q.1, q.2))
    else (matchCStrong rest).map (fun q => (c :: q.1, q.2))

/-- Leftmost match of `\[([^\]]+)\]\{color:([^}]+)\}`
(converter.py line 1100), returning `(pre, text, color, rest)`. -/
def matchCSpan : Str → Option (Str × Str × Str × Str)
  | [] => none
  | c :: rest =>
    if c = '[' then
      let t := rest.takeWhile (· ≠ ']')
      let r2 := rest.drop t.length
      if t ≠ [] ∧ r2.headD ' ' = ']' ∧ (lbrace :: str "color:").isPrefixOf (r2.drop 1) then
        let r3 := (r2.drop 1).drop (lbrace :: str "color:").length
        let col := r3.takeWhile (· ≠ rbrace)
        if col ≠ [] ∧ (r3.drop col.length).headD ' ' = rbrace then
          some ([], t, col, (r3.drop col.length).drop 1)
        else (matchCSpan rest).map (fun q => (c :: q.1, q.2))
      else (matchCSpan rest).map (fun q => (c :: q.1, q.2))
    else (matchCSpan rest).map (fun q => (c :: q.1, q.2))

/-! ## Matcher decomposition lemmas -/

/-- A list with a non-default `headD` is a cons. -/
theorem headD_eq_cons {l : Str} {c d : Char} (h : l.headD d = c) (hne : c ≠ d) :
    l = c :: l.tail := by
  cases l with
  | nil => simp at h; exact absurd h.symm hne
  | cons a t => simp at h; simp [h]

/-- Dropping the length of the `takeWhile` segment yields the `dropWhile`. -/
theorem drop_len_takeWhile (p : Char → Bool) (l : Str) :
    l.drop (l.takeWhile p).length = l.dropWhile p := by
  induction l with
  | nil => simp
  | cons c rest ih =>
    by_cases h : p c
    · simp [List.takeWhile_cons, List.dropWhile_cons, h, ih]
    · simp [List.takeWhile_cons, List.dropWhile_cons, h]

/-- A successful `isPrefixOf` yields an append decomposition. -/
theorem isPrefixOf_append {p l : Str} (h : p.isPrefixOf l = true) :
    l = p ++ l.drop p.length := by
  obtain ⟨t, ht⟩ := List.isPrefixOf_iff_prefix.mp h
  rw [← ht, List.drop_left]

/-- Decomposition produced by a successful `boldClose`. -/
theorem boldClose_spec :
    ∀ {l g r : Str}, boldClose l = some (g, r) → l = g ++ '*' :: '*' :: r ∧ g ≠ [] := by
  intro l
  induction l with
  | nil => intro g r h; simp [boldClose] at h
  | cons c rest ih =>
    intro g r h
    rw [boldClose] at h
    split at h
    · simp at h
    · split at h
      · rename_i hpre
        injection h with h1
        injection h1 with hg hr
        subst hg; subst hr
        refine ⟨?_, by simp⟩
        have h2 := isPrefixOf_append hpre
        have h3 : (str "**") = ['*', '*'] := rfl
        rw [h3] at h2
        simpa using congrArg (c :: ·) h2
      · rcases Option.map_eq_some'.mp h with ⟨⟨g', r'⟩, hbc, hmap⟩
        obtain ⟨hdec, hne⟩ := ih hbc
        injection hmap with h1 h2
        subst h1; subst h2
        refine ⟨?_, by simp⟩
        simp only
        rw [hdec]
        simp

/-- Decomposition produced by a successful `matchBold`. -/
theorem matchBold_spec :
    ∀ {l p g r : Str}, matchBold l = some (p, g, r) →
      l = p ++ '*' :: '*' :: (g ++ '*' :: '*' :: r) ∧ g ≠ [] := by
  intro l
  induction l with
  | nil => intro p g r h; simp [matchBold] at h
  | cons c rest ih =>
    intro p g r h
    rw [matchBold] at h
    split at h
    · rename_i hcond
      obtain ⟨hc, hh⟩ := hcond
      subst hc
      obtain ⟨rt, hrt⟩ : ∃ rt, rest = '*' :: rt := ⟨rest.tail, headD_eq_cons hh (by decide)⟩
      subst hrt
      cases hbc : boldClose (List.drop 1 ('*' :: rt)) with
      | some pr =>
        obtain ⟨g', r'⟩ := pr
        rw [hbc] at h
        injection h with h1
        injection h1 with hp h2
        injection h2 with hg hr
        subst hp; subst hg; subst hr
        obtain ⟨hdec, hne⟩ := boldClose_spec hbc
        simp only [List.drop_succ_cons, List.drop_zero] at hdec
        refine ⟨?_, hne⟩
        rw [hdec]
        simp
      | none =>
        rw [hbc] at h
        rcases Option.map_eq_some'.mp h with ⟨⟨p', g', r'⟩, hmb, hmap⟩
        obtain ⟨hdec, hne⟩ := ih hmb
        injection hmap with h1 h2
        subst h1
        simp only at h2
        injection h2 with hg hr
        subst hg; subst hr
        refine ⟨?_, hne⟩
        simp only
        rw [hdec]
        simp
    · rcases Option.map_eq_some'.mp h with ⟨⟨p', g', r'⟩, hmb, hmap⟩
      obtain ⟨hdec, hne⟩ := ih hmb
      injection hmap with h1 h2
      subst h1
      simp only at h2
      injection h2 with hg hr
      subst hg; subst hr
      refine ⟨?_, hne⟩
      simp only
      rw [hdec]
      simp

/-- Splitting a list at the end of a `takeWhile` segment whose following
character is known. -/
theorem split_at_takeWhile (p : Char → Bool) (l : Str) {c : Char}
    (hh : (l.drop (l.takeWhile p).length).headD ' ' = c) (hc : c ≠ ' ') :
    l = l.takeWhile p ++ c :: (l.drop (l.takeWhile p).length).drop 1 := by
  have hd := drop_len_takeWhile p l
  rw [hd] at hh ⊢
  rw [List.drop_one]
  have h1 : l.dropWhile p = c :: (l.dropWhile p).tail := headD_eq_cons hh hc
  conv_lhs => rw [← List.takeWhile_append_dropWhile p l, h1]

/-- Decomposition produced by a successful `italClose`. -/
theorem italClose_spec :
    ∀ {l : Str} {prev : Char} {g r : Str}, italClose prev l = some (g, r) →
      l = g ++ '*' :: r := by
  intro l
  induction l with
  | nil => intro prev g r h; simp [italClose] at h
  | cons c rest ih =>
    intro prev g r h
    rw [italClose] at h
    split at h
    · rename_i hc
      subst hc
      split at h
      · injection h with h1
        injection h1 with hg hr
        subst hg; subst hr
        simp
      · rcases Option.map_eq_some'.mp h with ⟨⟨g', r'⟩, hic, hmap⟩
        have hdec := ih hic
        injection hmap with h1 h2
        subst h1; subst h2
        simp only
        rw [hdec]
        simp
    · split at h
      · simp at h
      · rcases Option.map_eq_some'.mp h with ⟨⟨g', r'⟩, hic, hmap⟩
        have hdec := ih hic
        injection hmap with h1 h2
        subst h1; subst h2
        simp only
        rw [hdec]
        simp

/-- Decomposition produced by a successful `italCloseStart`. -/
theorem italCloseStart_spec {l g r : Str} (h : italCloseStart l = some (g, r)) :
    l = g ++ '*' :: r ∧ g ≠ [] := by
  cases l with
  | nil => simp [italCloseStart] at h
  | cons c rest =>
    rw [italCloseStart] at h
    split at h
    · simp at h
    · split at h
      · simp at h
      · rcases Option.map_eq_some'.mp h with ⟨⟨g', r'⟩, hic, hmap⟩
        have hdec := italClose_spec hic
        injection hmap with h1 h2
        subst h1; subst h2
        refine ⟨?_, by simp⟩
        simp only
        rw [hdec]
        simp

/-- Decomposition produced by a successful `matchItal`. -/
theorem matchItal_spec :
    ∀ {l : Str} {prev : Option Char} {p g r : Str}, matchItal prev l = some (p, g, r) →
      l = p ++ '*' :: (g ++ '*' :: r) ∧ g ≠ [] := by
  intro l
  induction l with
  | nil => intro prev p g r h; simp [matchItal] at h
  | cons c rest ih =>
    intro prev p g r h
    rw [matchItal] at h
    split at h
    · rename_i hc
      subst hc
      split at h
      · cases his : italCloseStart rest with
        | some pr =>
          obtain ⟨g', r'⟩ := pr
          rw [his] at h
          injection h with h1
          injection h1 with hp h2
          injection h2 with hg hr
          subst hp; subst hg; subst hr
          obtain ⟨hdec, hne⟩ := italCloseStart_spec his
          refine ⟨?_, hne⟩
          rw [hdec]
          simp
        | none =>
          rw [his] at h
          rcases Option.map_eq_some'.mp h with ⟨⟨p', g', r'⟩, hmi, hmap⟩
          obtain ⟨hdec, hne⟩ := ih hmi
          injection hmap with h1 h2
          subst h1
          simp only at h2
          injection h2 with hg hr
          subst hg; subst hr
          refine ⟨?_, hne⟩
          simp only
          rw [hdec]
          simp
      · rcases Option.map_eq_some'.mp h with ⟨⟨p', g', r'⟩, hmi, hmap⟩
        obtain ⟨hdec, hne⟩ := ih hmi
        injection hmap with h1 h2
        subst h1
        simp only at h2
        injection h2 with hg hr
        subst hg; subst hr
        refine ⟨?_, hne⟩
        simp only
        rw [hdec]
        simp
    · rcases Option.map_eq_some'.mp h with ⟨⟨p', g', r'⟩, hmi, hmap⟩
      obtain ⟨hdec, hne⟩ := ih hmi
      injection hmap with h1 h2
      subst h1
      simp only at h2
      injection h2 with hg hr
      subst hg; subst hr
      refine ⟨?_, hne⟩
      simp only
      rw [hdec]
      simp

/-- Decomposition produced by a successful `matchCode`. -/
theorem matchCode_spec :
    ∀ {l p g r : Str}, matchCode l = some (p, g, r) →
      l = p ++ btick :: (g ++ btick :: r) ∧ g ≠ [] := by
  intro l
  induction l with
  | nil => intro p g r h; simp [matchCode] at h
  | cons c rest ih =>
    intro p g r h
    rw [matchCode] at h
    split at h
    · rename_i hc
      subst hc
      dsimp only at h
      split at h
      · rename_i hcond
        obtain ⟨hg, hh⟩ := hcond
        injection h with h1
        injection h1 with hp h2
        injection h2 with hgg hr
        subst hp; subst hgg; subst hr
        refine ⟨?_, hg⟩
        have := split_at_takeWhile (· ≠ btick) rest hh (by decide)
        conv_lhs => rw [this]
        simp
      · rcases Option.map_eq_some'.mp h with ⟨⟨p', g', r'⟩, hmc, hmap⟩
        obtain ⟨hdec, hne⟩ := ih hmc
        injection hmap with h1 h2
        subst h1
        simp only at h2
        injection h2 with hg hr
        subst hg; subst hr
        refine ⟨?_, hne⟩
        simp only
        rw [hdec]
        simp
    · rcases Option.map_eq_some'.mp h with ⟨⟨p', g', r'⟩, hmc, hmap⟩
      obtain ⟨hdec, hne⟩ := ih hmc
      injection hmap with h1 h2
      subst h1
      simp only at h2
      injection h2 with hg hr
      subst hg; subst hr
      refine ⟨?_, hne⟩
      simp only
      rw [hdec]
      simp

/-- Decomposition produced by a successful `matchLink`. -/
theorem matchLink_spec :
    ∀ {l p t u r : Str}, matchLink l = some (p, t, u, r) →
      l = p ++ '[' :: (t ++ ']' :: '(' :: (u ++ ')' :: r)) ∧ t ≠ [] ∧ u ≠ [] := by
  intro l
  induction l with
  | nil => intro p t u r h; simp [matchLink] at h
  | cons c rest ih =>
    intro p t u r h
    rw [matchLink] at h
    split at h
    · rename_i hc
      subst hc
      dsimp only at h
      split at h
      · rename_i hcond1
        obtain ⟨ht, hh1, hh2⟩ := hcond1
        split at h
        · rename_i hcond2
          obtain ⟨hu, hh3⟩ := hcond2
          injection h with h1
          injection h1 with hp h2
          injection h2 with htt h3
          injection h3 with huu hr
          subst hp; subst htt; subst huu; subst hr
          refine ⟨?_, ht, hu⟩
          have hA := split_at_takeWhile (· ≠ ']') rest hh1 (by decide)
          have hB : (rest.drop (rest.takeWhile (· ≠ ']')).length).drop 1 =
              '(' :: (rest.drop (rest.takeWhile (· ≠ ']')).length).drop 2 := by
            rw [headD_eq_cons hh2 (by decide), List.tail_drop]
          have hC := split_at_takeWhile (· ≠ ')')
            ((rest.drop (rest.takeWhile (· ≠ ']')).length).drop 2) hh3 (by decide)
          conv_lhs => rw [hA, hB, hC]
          simp
        · rcases Option.map_eq_some'.mp h with ⟨⟨p', t', u', r'⟩, hml, hmap⟩
          obtain ⟨hdec, hne1, hne2⟩ := ih hml
          injection hmap with h1 h2
          subst h1
          simp only at h2
          injection h2 with htt h3
          injection h3 with huu hr
          subst htt; subst huu; subst hr
          refine ⟨?_, hne1, hne2⟩
          simp only
          rw [hdec]
          simp
      · rcases Option.map_eq_some'.mp h with ⟨⟨p', t', u', r'⟩, hml, hmap⟩
        obtain ⟨hdec, hne1, hne2⟩ := ih hml
        injection hmap with h1 h2
        subst h1
        simp only at h2
        injection h2 with htt h3
        injection h3 with huu hr
        subst htt; subst huu; subst hr
        refine ⟨?_, hne1, hne2⟩
        simp only
        rw [hdec]
        simp
    · rcases Option.map_eq_some'.mp h with ⟨⟨p', t', u', r'⟩, hml, hmap⟩
      obtain ⟨hdec, hne1, hne2⟩ := ih hml
      injection hmap with h1 h2
      subst h1
      simp only at h2
      injection h2 with htt h3
      injection h3 with huu hr
      subst htt; subst huu; subst hr
      refine ⟨?_, hne1, hne2⟩
      simp only
      rw [hdec]
      simp

/-- Decomposition produced by a successful `cstrScan`. -/
theorem cstrScan_spec :
    ∀ {l g col r : Str}, cstrScan l = some (g, col, r) →
      l = g ++ cstrLit ++ col ++ rbrace :: r ∧ g ≠ [] ∧ col ≠ [] := by
  intro l
  induction l with
  | nil => intro g col r h; simp [cstrScan] at h
  | cons c rest ih =>
    intro g col r h
    rw [cstrScan] at h
    split at h
    · simp at h
    · split at h
      · rename_i hpre
        dsimp only at h
        split at h
        · rename_i hcond
          obtain ⟨hcol, hh⟩ := hcond
          injection h with h1
          injection h1 with hg h2
          injection h2 with hcc hr
          subst hg; subst hcc; subst hr
          refine ⟨?_, by simp, hcol⟩
          have hP := isPrefixOf_append hpre
          have hC := split_at_takeWhile (· ≠ rbrace) (rest.drop cstrLit.length) hh (by decide)
          conv_lhs => rw [hP, hC]
          simp
        · rcases Option.map_eq_some'.mp h with ⟨⟨g', col', r'⟩, hcs, hmap⟩
          obtain ⟨hdec, hne1, hne2⟩ := ih hcs
          injection hmap with h1 h2
          subst h1
          simp only at h2
          injection h2 with hcc hr
          subst hcc; subst hr
          refine ⟨?_, by simp, hne2⟩
          simp only
          rw [hdec]
          simp
      · rcases Option.map_eq_some'.mp h with ⟨⟨g', col', r'⟩, hcs, hmap⟩
        obtain ⟨hdec, hne1, hne2⟩ := ih hcs
        injection hmap with h1 h2
        subst h1
        simp only at h2
        injection h2 with hcc hr
        subst hcc; subst hr
        refine ⟨?_, by simp, hne2⟩
        simp only
        rw [hdec]
        simp

/-- Decomposition produced by a successful `matchCStrong`. -/
theorem matchCStrong_spec :
    ∀ {l p g col r : Str}, matchCStrong l = some (p, g, col, r) →
      l = p ++ '*' :: '*' :: (g ++ cstrLit ++ col ++ rbrace :: r) ∧ g ≠ [] ∧ col ≠ [] := by
  intro l
  induction l with
  | nil => intro p g col r h; simp [matchCStrong] at h
  | cons c rest ih =>
    intro p g col r h
    rw [matchCStrong] at h
    split at h
    · rename_i hcond
      obtain ⟨hc, hh⟩ := hcond
      subst hc
      obtain ⟨rt, hrt⟩ : ∃ rt, rest = '*' :: rt := ⟨rest.tail, headD_eq_cons hh (by decide)⟩
      subst hrt
      cases hcs : cstrScan (List.drop 1 ('*' :: rt)) with
      | some tr =>
        obtain ⟨g', col', r'⟩ := tr
        rw [hcs] at h
        injection h with h1
        injection h1 with hp h2
        injection h2 with hg h3
        injection h3 with hcc hr
        subst hp; subst hg; subst hcc; subst hr
        obtain ⟨hdec, hne1, hne2⟩ := cstrScan_spec hcs
        simp only [List.drop_succ_cons, List.drop_zero] at hdec
        refine ⟨?_, hne1, hne2⟩
        rw [hdec]
        simp
      | none =>
        rw [hcs] at h
        rcases Option.map_eq_some'.mp h with ⟨⟨p', g', col', r'⟩, hms, hmap⟩
        obtain ⟨hdec, hne1, hne2⟩ := ih hms
        injection hmap with h1 h2
        subst h1
        simp only at h2
        injection h2 with hg h3
        injection h3 with hcc hr
        subst hg; subst hcc; subst hr
        refine ⟨?_, hne1, hne2⟩
        simp only
        rw [hdec]
        simp
    · rcases Option.map_eq_some'.mp h with ⟨⟨p', g', col', r'⟩, hms, hmap⟩
      obtain ⟨hdec, hne1, hne2⟩ := ih hms
      injection hmap with h1 h2
      subst h1
      simp only at h2
      injection h2 with hg h3
      injection h3 with hcc hr
      subst hg; subst hcc; subst hr
      refine ⟨?_, hne1, hne2⟩
      simp only
      rw [hdec]
      simp

/-- Decomposition produced by a successful `matchCSpan`. -/
theorem matchCSpan_spec :
    ∀ {l p t col r : Str}, matchCSpan l = some (p, t, col, r) →
      l = p ++ '[' :: (t ++ ']' :: (lbrace :: str "color:") ++ col ++ rbrace :: r) ∧
        t ≠ [] ∧ col ≠ [] := by
  intro l
  induction l with
  | nil => intro p t col r h; simp [matchCSpan] at h
  | cons c rest ih =>
    intro p t col r h
    rw [matchCSpan] at h
    split at h
    · rename_i hc
      subst hc
      dsimp only at h
      split at h
      · rename_i hcond1
        obtain ⟨ht, hh1, hpre⟩ := hcond1
        split at h
        · rename_i hcond2
          obtain ⟨hcol, hh3⟩ := hcond2
          injection h with h1
          injection h1 with hp h2
          injection h2 with htt h3
          injection h3 with hcc hr
          subst hp; subst htt; subst hcc; subst hr
          refine ⟨?_, ht, hcol⟩
          have hA := split_at_takeWhile (· ≠ ']') rest hh1 (by decide)
          have hB := isPrefixOf_append hpre
          have hC := split_at_takeWhile (· ≠ rbrace)
            (((rest.drop (rest.takeWhile (· ≠ ']')).length).drop 1).drop
              (lbrace :: str "color:").length) hh3 (by decide)
          conv_lhs => rw [hA, hB, hC]
          simp
        · rcases Option.map_eq_some'.mp h with ⟨⟨p', t', col', r'⟩, hml, hmap⟩
          obtain ⟨hdec, hne1, hne2⟩ := ih hml
          injection hmap with h1 h2
          subst h1
          simp only at h2
          injection h2 with htt h3
          injection h3 with hcc hr
          subst htt; subst hcc; subst hr
          refine ⟨?_, hne1, hne2⟩
          simp only
          rw [hdec]
          simp
      · rcases Option.map_eq_some'.mp h with ⟨⟨p', t', col', r'⟩, hml, hmap⟩
        obtain ⟨hdec, hne1, hne2⟩ := ih hml
        injection hmap with h1 h2
        subst h1
        simp only at h2
        injection h2 with htt h3
        injection h3 with hcc hr
        subst htt; subst hcc; subst hr
        refine ⟨?_, hne1, hne2⟩
        simp only
        rw [hdec]
        simp
    · rcases Option.map_eq_some'.mp h with ⟨⟨p', t', col', r'⟩, hml, hmap⟩
      obtain ⟨hdec, hne1, hne2⟩ := ih hml
      injection hmap with h1 h2
      subst h1
      simp only at h2
      injection h2 with htt h3
      injection h3 with hcc hr
      subst htt; subst hcc; subst hr
      refine ⟨?_, hne1, hne2⟩
      simp only
      rw [hdec]
      simp

/-- The rest of a successful `matchBold` is strictly shorter than the input. -/
theorem matchBold_rest_lt {l p g r : Str} (h : matchBold l = some (p, g, r)) :
    r.length < l.length := by
  obtain ⟨hdec, _⟩ := matchBold_spec h
  subst hdec
  simp [List.length_append]
  omega

/-- The rest of a successful `matchItal` is strictly shorter than the input. -/
theorem matchItal_rest_lt {l : Str} {prev : Option Char} {p g r : Str}
    (h : matchItal prev l = some (p, g, r)) : r.length < l.length := by
  obtain ⟨hdec, _⟩ := matchItal_spec h
  subst hdec
  simp [List.length_append]
  omega

/-- The rest of a successful `matchCode` is strictly shorter than the input. -/
theorem matchCode_rest_lt {l p g r : Str} (h : matchCode l = some (p, g, r)) :
    r.length < l.length := by
  obtain ⟨hdec, _⟩ := matchCode_spec h
  subst hdec
  simp [List.length_append]
  omega

/-- The rest of a successful `matchLink` is strictly shorter than the input. -/
theorem matchLink_rest_lt {l p t u r : Str} (h : matchLink l = some (p, t, u, r)) :
    r.length < l.length := by
  obtain ⟨hdec, _, _⟩ := matchLink_spec h
  subst hdec
  simp [List.length_append]
  omega

/-- The rest of a successful `matchCStrong` is strictly shorter than the input. -/
theorem matchCStrong_rest_lt {l p g col r : Str} (h : matchCStrong l = some (p, g, col, r)) :
    r.length < l.length := by
  obtain ⟨hdec, _, _⟩ := matchCStrong_spec h
  subst hdec
  simp [List.length_append]
  omega

/-- The rest of a successful `matchCSpan` is strictly shorter than the input. -/
theorem matchCSpan_rest_lt {l p t col r : Str} (h : matchCSpan l = some (p, t, col, r)) :
    r.length < l.length := by
  obtain ⟨hdec, _, _⟩ := matchCSpan_spec h
  subst hdec
  simp [List.length_append]
  omega

/-- Worker for `subBold`; the fuel, instantiated with the input length,
dominates the number of replacements (each match consumes characters). -/
def subBoldGo : Nat → Str → Str
  | 0, l => l
  | fuel + 1, l =>
    match matchBold l with
    | none => l
    | some (p, g, r) => p ++ str "<strong>" ++ g ++ str "</strong>" ++ subBoldGo fuel r

/-- `re.sub(r'\*\*(.+?)\*\*', r'<strong>\1</strong>', text)`
(converter.py line 1070). -/
def subBold (l : Str) : Str := subBoldGo l.length l

/-- Worker for `subItal`. -/
def subItalGo : Nat → Str → Str
  | 0, l => l
  | fuel + 1, l =>
    match matchItal none l with
    | none => l
    | some (p, g, r) => p ++ str "<em>" ++ g ++ str "</em>" ++ subItalGo fuel r

/-- `re.sub(r'(?<!\*)\*(?!\*)(.+?)(?<!\*)\*(?!\*)', r'<em>\1</em>', text)`
(converter.py line 1073). -/
def subItal (l : Str) : Str := subItalGo l.length l

/-- The opening `<code ...>` tag built by `code_replace`
(converter.py lines 1080-1082). -/
def codeOpenTag (cfg : StyleConfig) : Str :=
  str "<code style=\"background-color:" ++ cfg.inline_code_bg_color ++
    str ";padding:2px 6px;border-radius:3px;font-family:SF Mono,Monaco,monospace;font-size:0.9em;color:" ++
    cfg.inline_code_text_color ++ str ";font-weight:500;\">"

/-- Worker for `subCode`. -/
def subCodeGo (cfg : StyleConfig) : Nat → Str → Str
  | 0, l => l
  | fuel + 1, l =>
    match matchCode l with
    | none => l
    | some (p, g, r) => p ++ codeOpenTag cfg ++ g ++ str "</code>" ++ subCodeGo cfg fuel r

/-- `re.sub(r'`([^`]+)`', code_replace, text)` (converter.py line 1083). -/
def subCode (cfg : StyleConfig) (l : Str) : Str := subCodeGo cfg l.length l

/-- The `<a ...>text</a>` replacement of `link_replace`
(converter.py lines 1089-1095). -/
def aTag (cfg : StyleConfig) (t u : Str) : Str :=
  str "<a href=\"" ++ u ++ str "\" style=\"color:" ++ cfg.link_color ++
    str ";text-decoration:none;font-weight:500;border-bottom:1px solid " ++ cfg.link_color ++
    str ";\">" ++ t ++ str "</a>"

/-- `re.sub(r'\[([^\]]+)\]\(([^)]+)\)', link_replace, text)`
(converter.py line 1096): anchor links (`#`-prefixed urls) are replaced by
their bare text. -/
def subLinkGo (cfg : StyleConfig) : Nat → Str → Str
  | 0, l => l
  | fuel + 1, l =>
    match matchLink l with
    | none => l
    | some (p, t, u, r) =>
      p ++ (if (str "#").isPrefixOf u then t else aTag cfg t u) ++ subLinkGo cfg fuel r

/-- Entry point for the link substitution with fuel set to the length. -/
def subLink (cfg : StyleConfig) (l : Str) : Str := subLinkGo cfg l.length l

/-- `re.sub(r'\*\*(.+?)\*\*\{color:([^}]+)\}', ...)` (converter.py line 1099). -/
def subCStrongGo : Nat → Str → Str
  | 0, l => l
  | fuel + 1, l =>
    match matchCStrong l with
    | none => l
    | some (p, g, col, r) =>
      p ++ str "<strong style=\"color:" ++ col ++ str ";\">" ++ g ++ str "</strong>" ++
        subCStrongGo fuel r

/-- Entry point for the colored-bold substitution. -/
def subCStrong (l : Str) : Str := subCStrongGo l.length l

/-- `re.sub(r'\[([^\]]+)\]\{color:([^}]+)\}', ...)` (converter.py line 1100). -/
def subCSpanGo : Nat → Str → Str
  | 0, l => l
  | fuel + 1, l =>
    match matchCSpan l with
    | none => l
    | some (p, t, col, r) =>
      p ++ str "<span style=\"color:" ++ col ++ str ";\">" ++ t ++ str "</span>" ++
        subCSpanGo fuel r

/-- Entry point for the colored-span substitution. -/
def subCSpan (l : Str) : Str := subCSpanGo l.length l

/-- Models `MarkdownToWeChatConverter._inline_format`
(converter.py lines 1054-1102): backslash unescape, entity unescape, HTML
escape, apostrophe restoration, then bold, italic, inline code, links and
the two color extensions, in the source's order. -/
def inline_format (cfg : StyleConfig) (text : Str) : Str :=
  subCSpan (subCStrong (subLink cfg (subCode cfg (subItal (subBold
    (restoreApos (escape_html (htmlUnescape (unescapeMd text)))))))))

/-! ## Renderers (converter.py lines 290-405 and 783-1052) -/

/-- Decimal representation of a natural number. -/
def natToStr (n : Nat) : Str := (toString n).data

/-- Python `str.lower()` (ASCII case folding suffices for the keyword set). -/
def pyLower (l : Str) : Str := l.map Char.toLower

/-- Boolean substring test, Python `kw in title`. -/
def isInfixB (pat : Str) : Str → Bool
  | [] => pat.isEmpty
  | c :: rest => pat.isPrefixOf (c :: rest) || isInfixB pat rest

/-- Drop trailing lines whose strip is empty
(`while lines and not lines[-1].strip(): lines.pop()`). -/
def dropTrailingBlank (lines : List Str) : List Str :=
  ((lines.reverse).dropWhile (fun l => (pyStrip l).isEmpty)).reverse

/-- The minimum indentation over non-blank lines, 0 when there are none
(converter.py lines 306-314). -/
def minIndentOf (lines : List Str) : Nat :=
  let inds := (lines.filter (fun l => ¬ (pyStrip l).isEmpty)).map
    (fun l => l.length - (pyLStrip l).length)
  match inds with
  | [] => 0
  | i :: rest => rest.foldl min i

/-- One processed code line: strip the common indent, escape, preserve
space runs, and prefix the line-number span (converter.py lines 324-343). -/
def codeLine (minIndent : Nat) (i : Nat) (line : Str) : Str :=
  let content := if minIndent ≤ line.length then line.drop minIndent else line
  let content := escape_html content
  let content := pyReplace (str "    ") (str "&nbsp;&nbsp;&nbsp;&nbsp;") content
  let content := pyReplace (str "  ") (str "&nbsp;&nbsp;") content
  str "<span style=\"color:#868E96;display:inline-block;width:2.5em;text-align:right;margin-right:0.8em;font-size:12px;\">" ++
    natToStr i ++ str "</span>" ++ content

/-- Number the lines starting from 1 and process each. -/
def codeLines (minIndent : Nat) (i : Nat) : List Str → List Str
  | [] => []
  | l :: rest => codeLine minIndent i l :: codeLines minIndent (i + 1) rest

/-- Models `CodeBlockFormatter.format_code_block` (converter.py lines
296-355) with the default `show_line_numbers=True` used by the renderer. -/
def format_code_block (cfg : StyleConfig) (code : Str) (_lang : Str) : Str :=
  let lines := dropTrailingBlank (pySplit '\n' code)
  if lines.isEmpty then []
  else
    let mi := minIndentOf lines
    let codeText := pyJoin (str "<br>\n") (codeLines mi 1 lines)
    str "<table width=\"100%\" cellpadding=\"0\" cellspacing=\"0\" border=\"0\" style=\"margin:16px 0;\">" ++
      str "<tr><td style=\"background-color:" ++ cfg.code_bg_color ++
      str ";border:1px solid " ++ cfg.code_border_color ++
      str ";padding:16px;border-radius:8px;\">" ++
      str "<pre style=\"margin:0;padding:0;font-family:SF Mono,Monaco,monospace,Consolas,Courier New;font-size:13px;line-height:1.7;color:" ++
      cfg.code_text_color ++
      str ";white-space:pre-wrap;word-wrap:break-word;\">" ++ codeText ++
      str "</pre></td></tr></table>"

/-- Models `ImageProcessor.process_image` (converter.py lines 364-378): the
`src` is interpolated unescaped, `alt`/`title` are escaped; the image
number parameter is unused by the source body. -/
def process_image (src alt title : Str) (_imageNumber : Nat) : Str :=
  let altAttr := if alt.isEmpty then [] else str " alt=\"" ++ escape_html alt ++ str "\""
  let titleAttr := if title.isEmpty then [] else str " title=\"" ++ escape_html title ++ str "\""
  str "<table width=\"100%\" cellpadding=\"0\" cellspacing=\"0\" border=\"0\" style=\"margin:16px 0;\">" ++
    str "<tr><td align=\"center\">" ++
    str "<img src=\"" ++ src ++ str "\"" ++ altAttr ++ titleAttr ++
    str " width=\"100%\" style=\"display:block;\" />" ++
    str "</td></tr></table>"

/-- Models `_convert_heading` (converter.py lines 900-935); the
`is_reference` parameter of the source is unused by its body. -/
def convert_heading (cfg : StyleConfig) (text : Str) (level : Nat) : Str :=
  let t := inline_format cfg text
  if level = 1 then
    str "<table width=\"100%\" cellpadding=\"0\" cellspacing=\"0\" border=\"0\" style=\"margin:28px 0 20px;\">" ++
      str "<tr><td align=\"center\">" ++
      str "<h1 style=\"font-size:26px;font-weight:bold;color:" ++ cfg.h2_title_text_color ++
      str ";margin:0;padding:0;line-height:1.4;\">" ++ t ++ str "</h1>" ++
      str "</td></tr></table>"
  else if level = 2 then
    str "<table width=\"100%\" cellpadding=\"0\" cellspacing=\"0\" border=\"0\" style=\"margin:24px 0 16px;\">" ++
      str "<tr><td align=\"center\" style=\"border-bottom:2px solid " ++ cfg.h2_title_line_color ++
      str ";padding-bottom:8px;\">" ++
      str "<span style=\"background:" ++ cfg.h2_title_line_color ++
      str ";color:#FFFFFF;padding:6px 20px;font-size:" ++ cfg.h2_title_font_size ++
      str ";font-weight:bold;\">" ++ t ++ str "</span>" ++
      str "</td></tr></table>"
  else if level = 3 then
    str "<table width=\"100%\" cellpadding=\"8\" cellspacing=\"0\" border=\"0\" bgcolor=\"" ++
      pyReplace (str "#") [] cfg.h3_title_bg_color ++ str "\" style=\"margin:18px 0 12px;\">" ++
      str "<tr><td style=\"border-left:4px solid " ++ cfg.h3_title_border_color ++
      str ";font-size:" ++ cfg.h3_title_font_size ++ str ";font-weight:bold;color:" ++
      cfg.h3_title_text_color ++ str ";\">" ++ t ++
      str "</td></tr></table>"
  else
    let size := max 14 (18 - (level - 4) * 2)
    str "<h" ++ natToStr level ++ str " style=\"font-size:" ++ natToStr size ++
      str "px;font-weight:bold;margin:14px 0 8px;color:" ++ cfg.h3_title_text_color ++
      str ";\">" ++ t ++ str "</h" ++ natToStr level ++ str ">"

/-- Models `_convert_paragraph` (converter.py lines 937-951). -/
def convert_paragraph (cfg : StyleConfig) (text : Str) (isRef : Bool) : Str :=
  let t := pyReplace (str "\n") (str "<br>") (inline_format cfg text)
  let style := str "margin:16px 0;line-height:" ++ cfg.paragraph_line_height ++
    str ";font-size:" ++ cfg.paragraph_font_size ++ str ";color:" ++ cfg.paragraph_color ++
    str ";letter-spacing:0.3px;text-align:justify;" ++
    (if isRef then str "font-size:0.85em;color:#888888;" else [])
  str "<p style=\"" ++ style ++ str "\">" ++ t ++ str "</p>"

/-- Models `_convert_horizontal_rule` (converter.py lines 953-961). -/
def convert_horizontal_rule (cfg : StyleConfig) : Str :=
  str "<table width=\"100%\" cellpadding=\"0\" cellspacing=\"0\" border=\"0\" style=\"margin:28px 0;\">" ++
    str "<tr><td style=\"border-top:1px solid " ++ cfg.table_border_color ++
    str ";height:0;font-size:0;line-height:0;\"></td></tr>" ++
    str "</table>"

/-- Models `_convert_blockquote` (converter.py lines 963-977). -/
def convert_blockquote (cfg : StyleConfig) (text : Str) (_isRef : Bool) : Str :=
  let t := inline_format cfg text
  str "<table width=\"100%\" cellpadding=\"0\" cellspacing=\"0\" border=\"0\" style=\"margin:16px 0;\">" ++
    str "<tr><td style=\"background-color:" ++ cfg.blockquote_bg_color ++
    str ";padding:16px 20px;border-left:4px solid " ++ cfg.blockquote_border_color ++
    str ";border-radius:0 8px 8px 0;\">" ++
    str "<p style=\"color:" ++ cfg.blockquote_text_color ++
    str ";font-size:15px;line-height:1.8;margin:0;font-style:italic;\">" ++ t ++
    str "</p></td></tr></table>"

/-- The `<ul>`/`<ol>` wrapper of `_convert_list` (converter.py lines
981-998). -/
def listTagWrap (cfg : StyleConfig) (isOrdered isRef : Bool) (inner : Str) : Str :=
  let tag := if isOrdered then str "ol" else str "ul"
  let style := str "margin:16px 0;padding-left:28px;color:" ++ cfg.paragraph_color ++ str ";" ++
    (if isRef then str "font-size:0.85em;color:#888888;" else [])
  str "<" ++ tag ++ str " style=\"" ++ style ++ str "\">" ++ inner ++ str "</" ++ tag ++ str ">"

/-- Renders the `<li>` items of `_convert_list` in order: a falsy
(`nil`) children field renders a plain item, otherwise the nested
structure is rendered inside the item with its stored ordered kind. -/
def listItemsGo (cfg : StyleConfig) (isRef : Bool) : LEntries → Str
  | .nil => []
  | .cons t ch chOrd rest =>
    let itemText := inline_format cfg t
    let inner :=
      if ch.isNil then itemText
      else
        itemText ++ listTagWrap cfg (chOrd.getD false) isRef (listItemsGo cfg isRef ch)
    str "<li style=\"margin:10px 0;line-height:1.8;font-size:15px;\">" ++ inner ++ str "</li>" ++
      listItemsGo cfg isRef rest

/-- Models `_convert_list` (converter.py lines 979-998). -/
def convert_list (cfg : StyleConfig) (entries : LEntries) (isOrdered : Bool)
    (isRef : Bool) : Str :=
  listTagWrap cfg isOrdered isRef (listItemsGo cfg isRef entries)

/-- One rendered table cell (converter.py lines 1018-1030). -/
def tableCellHtml (cfg : StyleConfig) (aligns : List Str) (isHeader : Bool) (rowBg : Str)
    (colIdx : Nat) (cell : Str) : Str :=
  let align := aligns.getD colIdx (str "left")
  let cellText := inline_format cfg cell
  let alignStyle := str "text-align:" ++ align ++ str ";"
  let padding := str "padding:12px 16px;"
  let border := str "border:1px solid " ++ cfg.table_border_color ++ str ";"
  if isHeader then
    str "<th style=\"" ++ padding ++ border ++ alignStyle ++ str "background-color:" ++
      cfg.table_header_bg_color ++ str ";font-weight:bold;color:" ++ cfg.paragraph_color ++
      str ";font-size:15px;\">" ++ cellText ++ str "</th>"
  else
    str "<td style=\"" ++ padding ++ border ++ alignStyle ++ str "background-color:" ++
      rowBg ++ str ";color:" ++ cfg.paragraph_color ++
      str ";font-size:14px;line-height:1.6;\">" ++ cellText ++ str "</td>"

/-- The cells of one row, numbered from column 0. -/
def tableRowCells (cfg : StyleConfig) (aligns : List Str) (isHeader : Bool) (rowBg : Str)
    (colIdx : Nat) : List Str → Str
  | [] => []
  | cell :: rest =>
    tableCellHtml cfg aligns isHeader rowBg colIdx cell ++
      tableRowCells cfg aligns isHeader rowBg (colIdx + 1) rest

/-- The row loop of `_convert_table` (converter.py lines 1014-1036):
returns `(header_html, body_html)`; a later header row overwrites the
stored header, body rows append. -/
def tableRowsHtml (cfg : StyleConfig) (aligns : List Str) :
    List (List Str × Bool) → Nat → Str × Str
  | [], _ => ([], [])
  | (cells, isHeader) :: rest, idx =>
    let rowBg := if idx % 2 = 0 then str "#FFFFFF" else str "#F8F9FA"
    let rowHtml := str "<tr>" ++ tableRowCells cfg aligns isHeader rowBg 0 cells ++ str "</tr>"
    let (hh, bh) := tableRowsHtml cfg aligns rest (idx + 1)
    if isHeader then (if hh.isEmpty then rowHtml else hh, bh)
    else (hh, rowHtml ++ bh)

/-- Models `_convert_table` (converter.py lines 1000-1052); the
`is_reference` parameter of the source is unused by its body. -/
def convert_table (cfg : StyleConfig) (rows : List (List Str × Bool)) (aligns : List Str)
    (_isRef : Bool) : Str :=
  if rows.isEmpty then []
  else
    let (headerHtml, bodyHtml) := tableRowsHtml cfg aligns rows 0
    let tableContent :=
      str "<table style=\"width:100%;border-collapse:collapse;margin:20px 0;font-size:14px;\">" ++
        (if headerHtml.isEmpty then [] else str "<thead>" ++ headerHtml ++ str "</thead>") ++
        (if bodyHtml.isEmpty then [] else str "<tbody>" ++ bodyHtml ++ str "</tbody>") ++
        str "</table>"
    str "<table width=\"100%\" cellpadding=\"0\" cellspacing=\"0\" border=\"0\" style=\"margin:20px 0;\">" ++
      str "<tr><td style=\"border-radius:8px;overflow:hidden;border:1px solid " ++
      cfg.table_border_color ++ str ";\">" ++ tableContent ++
      str "</td></tr></table>"

/-- The reference-section keyword list (converter.py line 790). -/
def refKeywords : List Str :=
  [str "参考文献", str "references", str "参考", str "bibliography"]

/-- One card item of `_convert_section` (converter.py lines 802-846):
`some html` when the item is rendered (setting `has_content`), `none` when
it is skipped. -/
def cardItemHtml (cfg : StyleConfig) (isRef : Bool) : Tok → Option Str
  | Tok.heading text lvl => some (convert_heading cfg text lvl)
  | Tok.paragraph text =>
    if (pyStrip text).isEmpty then none else some (convert_paragraph cfg text isRef)
  | Tok.code c lang => some (format_code_block cfg c lang)
  | Tok.image src alt title => some (process_image src alt title 0)
  | Tok.glist entries ordered =>
    if entries.isNil then none else some (convert_list cfg entries ordered isRef)
  | Tok.gtable rows aligns =>
    if rows.isEmpty then none else some (convert_table cfg rows aligns isRef)
  | Tok.horizontal_rule => some (convert_horizontal_rule cfg)
  | Tok.blockquote text => some (convert_blockquote cfg text isRef)
  | _ => none

/-- One item of the non-card branch of `_convert_section`
(converter.py lines 866-896); `heading` items are not handled there and
render as nothing. -/
def nonCardItemHtml (cfg : StyleConfig) (isRef : Bool) : Tok → Str
  | Tok.paragraph text => convert_paragraph cfg text isRef
  | Tok.code c lang => format_code_block cfg c lang
  | Tok.image src alt title => process_image src alt title 0
  | Tok.glist entries ordered => convert_list cfg entries ordered isRef
  | Tok.gtable rows aligns => convert_table cfg rows aligns isRef
  | Tok.horizontal_rule => convert_horizontal_rule cfg
  | Tok.blockquote text => convert_blockquote cfg text isRef
  | _ => []

/-- The card wrapper table of `_convert_section`
(converter.py lines 848-865). -/
def cardWrap (cfg : StyleConfig) (isRef : Bool) (cardHtml : Str) : Str :=
  let cardBg := pyReplace (str "#") [] cfg.h2_h3_card_bg_color
  str "<table width=\"100%\" cellpadding=\"12\" cellspacing=\"0\" border=\"0\" bgcolor=\"" ++
    cardBg ++ str "\">" ++
    str "<tr><td style=\"border:1px solid " ++ cfg.h2_h3_card_border_color ++
    (if isRef then str ";line-height:1.9;font-size:0.85em;color:#888888;\">"
     else str ";line-height:1.9;\">") ++
    cardHtml ++ str "</td></tr></table>"

/-- Models `_convert_section` (converter.py lines 783-898). -/
def sectionHtml (cfg : StyleConfig) (s : Sec) : Str :=
  let isRef := ¬ s.title.isEmpty &&
    refKeywords.any (fun kw => isInfixB kw (pyLower s.title))
  let titleHtml :=
    if ¬ s.title.isEmpty ∧ 0 < s.level then convert_heading cfg s.title s.level else []
  if (s.level = 2 ∨ s.level = 3) ∧ ¬ s.items.isEmpty then
    let card := s.items.filterMap (cardItemHtml cfg isRef)
    titleHtml ++ (if card.isEmpty then [] else cardWrap cfg isRef card.join)
  else
    titleHtml ++ (s.items.map (nonCardItemHtml cfg isRef)).join

/-- Models `_convert_body` end to end (converter.py lines 457-682): scan,
group, and render every section. -/
def convert_body (cfg : StyleConfig) (body : Str) : Str :=
  ((bodySections body).map (sectionHtml cfg)).join

/-- Models `_generate_html` (converter.py lines 1104-1155). -/
def generate_html (cfg : StyleConfig) (title date : Str) (tags : List Str)
    (bodyHtml : Str) (source : Str) : Str :=
  let headerPart :=
    if title.isEmpty then []
    else
      str "<table width=\"100%\" cellpadding=\"20\" cellspacing=\"0\" border=\"0\" " ++
        str "style=\"margin-bottom:16px;background-color:" ++ cfg.header_bg_color ++ str ";\">" ++
        str "<tr><td style=\"color:" ++ cfg.header_text_color ++
        str ";font-size:" ++ cfg.header_font_size ++ str ";font-weight:bold;\">" ++
        escape_html title ++
        str "</td></tr></table>"
  let metaPart :=
    if date.isEmpty ∧ tags.isEmpty then []
    else
      let metaParts :=
        (if date.isEmpty then [] else [escape_html date]) ++
        (if tags.isEmpty then []
         else [pyJoin (str " ") (tags.map (fun t => str "#" ++ escape_html t))])
      if metaParts.isEmpty then []
      else
        str "<table width=\"100%\" cellpadding=\"0\" cellspacing=\"0\" border=\"0\" style=\"margin-bottom:16px;\">" ++
          str "<tr><td style=\"color:" ++ cfg.meta_text_color ++ str ";font-size:" ++
          cfg.meta_font_size ++ str ";padding:0 4px;\">" ++
          pyJoin (str " | ") metaParts ++
          str "</td></tr></table>"
  let sourcePart :=
    if source.isEmpty then []
    else
      str "<table width=\"100%\" cellpadding=\"16\" cellspacing=\"0\" border=\"0\" style=\"margin-top:24px;\">" ++
        str "<tr><td align=\"center\" style=\"border-top:1px solid #eeeeee;color:" ++
        cfg.source_text_color ++ str ";font-size:" ++ cfg.source_font_size ++ str ";\">" ++
        str "来源: <a href=\"" ++ escape_html source ++ str "\" style=\"color:" ++
        cfg.source_text_color ++ str ";\">" ++
        escape_html source ++ str "</a>" ++
        str "</td></tr></table>"
  headerPart ++ metaPart ++ bodyHtml ++ sourcePart

/-- A front-matter value as interpolated into the document (scalars as-is;
a list value would be interpolated by Python's `repr`). -/
def fmStr : Option FMVal → Str → Str
  | some (FMVal.scalar v), _ => v
  | some (FMVal.vlist vs), _ => pyListRepr vs
  | none, d => d

/-- The `tags` normalisation of `convert` (converter.py lines 443-445):
a scalar string becomes a one-element list. -/
def fmTags : Option FMVal → List Str
  | some (FMVal.scalar s) => [s]
  | some (FMVal.vlist vs) => vs
  | none => []

/-- Models `MarkdownToWeChatConverter.convert` (converter.py lines
427-455): parse front matter, resolve `title`/`date`/`tags`/`permalink`,
render the body, and assemble the document with `source or permalink` as
the footer attribution. -/
def convert (cfg : StyleConfig) (mdContent : Str) (title : Str) (source : Str) : Str :=
  let parser := parse_front_matter mdContent
  let mdTitle := fmStr (fmGet parser.front_matter (str "title")) title
  let mdDate := fmStr (fmGet parser.front_matter (str "date")) []
  let tags := fmTags (fmGet parser.front_matter (str "tags"))
  let permalink := fmStr (fmGet parser.front_matter (str "permalink")) []
  let htmlBody := convert_body cfg parser.body
  generate_html cfg mdTitle mdDate tags htmlBody
    (if source.isEmpty then permalink else source)

/-! ## Claim C6: graceful front-matter extraction -/

/-- C6: for every input text, front-matter extraction never fails: if the
document does not start with a line `---` (either the raw text does not
start with `---`, or the first line does not strip to `---`), or no
subsequent line equal to `---` is found, then the parsed front matter is
empty and the body equals the entire input unchanged. -/
theorem C6_front_matter_graceful (content : Str)
    (h : (¬ ((str "---").isPrefixOf content ∧
            pyStrip ((pySplit '\n' content).headD []) = str "---")) ∨
         ((pySplit '\n' content).drop 1).findIdx? (fun l => pyStrip l = str "---") = none) :
    parse_front_matter content = ⟨[], content⟩ := by
  rw [parse_front_matter]
  split
  · rfl
  · rename_i h1
    dsimp only
    split
    · rfl
    · rename_i h2
      have h3 : ((pySplit '\n' content).drop 1).findIdx?
          (fun l => pyStrip l = str "---") = none := by
        rcases h with h | h
        · exact absurd ⟨by simpa using h1, by simpa using h2⟩ h
        · exact h
      rw [h3]

/-- Witness for C6 on a concrete document with no front matter. -/
theorem C6_witness :
    parse_front_matter (str "hello\nworld") = ⟨[], str "hello\nworld"⟩ :=
  C6_front_matter_graceful _ (Or.inl (by decide))

/-! ## Claim C7: style-name validation at construction -/

/-- C7: constructing the converter fails exactly when the requested style
name is not one of the registry's names; on failure the error message
contains every available style name as a substring, and on a registered
name construction succeeds with that style's configuration. -/
theorem C7_invalid_style (s : Str) :
    ((∃ c, initConverter s = Except.ok c) ↔ s ∈ styleNames) ∧
    (∀ e, initConverter s = Except.error e → ∀ n ∈ styleNames, n <:+: e) := by
  constructor
  · constructor
    · rintro ⟨c, hc⟩
      unfold initConverter at hc
      cases hf : STYLES.find? (fun p => p.1 = s) with
      | none => rw [hf] at hc; simp at hc
      | some p =>
        have hp := List.find?_some hf
        have hm := List.mem_of_find?_eq_some hf
        simp at hp
        rw [← hp]
        exact List.mem_map_of_mem (·.1) hm
    · intro hs
      unfold initConverter
      cases hf : STYLES.find? (fun p => p.1 = s) with
      | none =>
        rw [List.find?_eq_none] at hf
        obtain ⟨p, hp, hps⟩ := List.mem_map.mp hs
        exact absurd (by simpa using hps) (by simpa using hf p hp)
      | some p => exact ⟨p.2, rfl⟩
  · intro e he n hn
    unfold initConverter at he
    cases hf : STYLES.find? (fun p => p.1 = s) with
    | some p => rw [hf] at he; simp at he
    | none =>
      rw [hf] at he
      simp only [Except.error.injEq] at he
      subst he
      have h1 : n <:+: pyListRepr styleNames := by
        fin_cases hn <;> decide
      calc n <:+: pyListRepr styleNames := h1
      _ <:+: (str "Unknown style: " ++ s ++ str ". Available: ") ++ pyListRepr styleNames :=
        (List.suffix_append _ _).isInfix
      _ = str "Unknown style: " ++ s ++ str ". Available: " ++ pyListRepr styleNames := by
        simp

/-- Witness for C7: a registered name succeeds, and for a bogus name every
registry name appears in the error message. -/
theorem C7_witness :
    (∃ c, initConverter (str "academic_gray") = Except.ok c) ∧
    (str "tech") <:+: (str "Unknown style: zzz. Available: " ++ pyListRepr styleNames) := by
  constructor
  · exact (C7_invalid_style (str "academic_gray")).1.mpr (by decide)
  · have := (C7_invalid_style (str "zzz")).2
      (str "Unknown style: " ++ str "zzz" ++ str ". Available: " ++ pyListRepr styleNames)
      (by rfl) (str "tech") (by decide)
    simpa using this

/-! ## Claim C1: caller source versus front-matter permalink -/

set_option maxRecDepth 100000 in
/-- C1 counterexample: with a front-matter `permalink` present and a
non-empty caller `source`, the rendered document carries the caller's
source and the permalink appears nowhere — the permalink is not the value
rendered in the source footer, contradicting the claim. -/
theorem C1_counterexample :
    isInfixB (str "https://s.example")
      (convert academicGray (str "---\npermalink: https://p.example\n---\nhello") []
        (str "https://s.example")) = true ∧
    isInfixB (str "https://p.example")
      (convert academicGray (str "---\npermalink: https://p.example\n---\nhello") []
        (str "https://s.example")) = false := by
  constructor
  · decide
  · decide

/-- C1 amended: the precedence is the reverse of the claim — the caller's
`source` takes priority, and the front-matter `permalink` is used only
when the caller's `source` is empty.  With a non-empty `source` the
document is assembled from the title, date, tags and body alone, with
`source` itself as the footer attribution; the permalink plays no role. -/
theorem C1_amended (cfg : StyleConfig) (md title source : Str) (hs : source ≠ []) :
    convert cfg md title source =
      generate_html cfg
        (fmStr (fmGet (parse_front_matter md).front_matter (str "title")) title)
        (fmStr (fmGet (parse_front_matter md).front_matter (str "date")) [])
        (fmTags (fmGet (parse_front_matter md).front_matter (str "tags")))
        (convert_body cfg (parse_front_matter md).body)
        source := by
  unfold convert
  have h1 : source.isEmpty = false := by
    cases source with
    | nil => exact absurd rfl hs
    | cons c t => rfl
  simp [h1]

/-- Witness for C1 amended at a concrete document. -/
theorem C1_amended_witness :
    convert academicGray (str "---\npermalink: https://p.example\n---\nhello") []
        (str "https://s.example") =
      generate_html academicGray
        (fmStr (fmGet (parse_front_matter
          (str "---\npermalink: https://p.example\n---\nhello")).front_matter (str "title")) [])
        (fmStr (fmGet (parse_front_matter
          (str "---\npermalink: https://p.example\n---\nhello")).front_matter (str "date")) [])
        (fmTags (fmGet (parse_front_matter
          (str "---\npermalink: https://p.example\n---\nhello")).front_matter (str "tags")))
        (convert_body academicGray (parse_front_matter
          (str "---\npermalink: https://p.example\n---\nhello")).body)
        (str "https://s.example") :=
  C1_amended academicGray _ [] (str "https://s.example") (by decide)

/-! ## Claim C2: header marking in grouped table runs -/

/-- Unfolding `takeTableRun` at a leading table row. -/
theorem takeTableRun_row (a : List Str) (h : Bool) (cells : List Str) (tl : List Tok) :
    takeTableRun a h (Tok.table_row cells :: tl) =
      ((cells, h) :: (takeTableRun a false tl).1,
        (takeTableRun a false tl).2.1, (takeTableRun a false tl).2.2) := by
  cases hh : takeTableRun a false tl with
  | mk rows p =>
    cases p with
    | mk al r => simp [takeTableRun, hh]

/-- Every row collected with the header flag already cleared is a body row. -/
theorem takeTableRun_rows_false :
    ∀ (l : List Tok) (a : List Str), ∀ p ∈ (takeTableRun a false l).1, p.2 = false := by
  intro l
  induction l with
  | nil => intro a p hp; simp [takeTableRun] at hp
  | cons hd tl ih =>
    intro a p hp
    cases hd
    case table_row cells =>
      simp only [takeTableRun, List.mem_cons] at hp
      rcases hp with hp | hp
      · simp [hp]
      · exact ih a p hp
    case table_separator al =>
      simp only [takeTableRun] at hp
      exact ih al p hp
    all_goals simp [takeTableRun] at hp

/-- In a run collected with the header flag set, the first row is the
header and all later rows are body rows. -/
theorem takeTableRun_rows_true_shape :
    ∀ (l : List Tok) (a : List Str),
      (∀ p ∈ ((takeTableRun a true l).1).take 1, p.2 = true) ∧
      (∀ p ∈ ((takeTableRun a true l).1).tail, p.2 = false) := by
  intro l
  induction l with
  | nil => intro a; simp [takeTableRun]
  | cons hd tl ih =>
    intro a
    cases hd
    case table_row cells =>
      constructor
      · intro p hp
        simp only [takeTableRun, List.take_succ_cons, List.take_zero, List.mem_singleton] at hp
        simp [hp]
      · intro p hp
        simp only [takeTableRun, List.tail_cons] at hp
        exact takeTableRun_rows_false tl a p hp
    case table_separator al => exact ih al
    all_goals simp [takeTableRun]

/-- The remainder of `takeTableRun` consists of tokens of the input. -/
theorem takeTableRun_rest_sub :
    ∀ (l : List Tok) (a : List Str) (h : Bool), ∀ x ∈ (takeTableRun a h l).2.2, x ∈ l := by
  intro l
  induction l with
  | nil => intro a h x hx; simp [takeTableRun] at hx
  | cons hd tl ih =>
    intro a h x hx
    cases hd
    case table_row cells =>
      simp only [takeTableRun] at hx
      exact List.mem_cons_of_mem _ (ih a false x hx)
    case table_separator al =>
      simp only [takeTableRun] at hx
      exact List.mem_cons_of_mem _ (ih al h x hx)
    all_goals
      simp only [takeTableRun] at hx
      exact hx

/-- The remainder of `takeListRun` consists of tokens of the input. -/
theorem takeListRun_rest_sub :
    ∀ (l : List Tok) (b : Nat) (o : Bool), ∀ x ∈ (takeListRun b o l).2, x ∈ l := by
  intro l
  induction l with
  | nil => intro b o x hx; simp [takeListRun] at hx
  | cons hd tl ih =>
    intro b o x hx
    cases hd
    case list_item t ind oo =>
      rw [takeListRun] at hx
      split at hx
      · exact hx
      · exact List.mem_cons_of_mem _ (ih b o x hx)
    all_goals
      simp only [takeListRun] at hx
      exact hx

/-- Header marking of every grouped table node, at any fuel, over inputs
free of pre-grouped table nodes. -/
theorem groupItemsGo_gtable (build : List (Str × Nat) → Nat → Bool → LEntries) :
    ∀ (fuel : Nat) (items : List Tok) (rows : List (List Str × Bool)) (aligns : List Str),
      (∀ r a, Tok.gtable r a ∉ items) →
      Tok.gtable rows aligns ∈ groupItemsGo build fuel items →
      (∀ p ∈ rows.take 1, p.2 = true) ∧ (∀ p ∈ rows.tail, p.2 = false) := by
  intro fuel
  induction fuel with
  | zero =>
    intro items rows aligns hclean hmem
    cases items with
    | nil => simp [groupItemsGo] at hmem
    | cons hd tl =>
      simp only [groupItemsGo] at hmem
      exact absurd hmem (hclean rows aligns)
  | succ fuel ih =>
    intro items rows aligns hclean hmem
    cases items with
    | nil => simp [groupItemsGo] at hmem
    | cons hd tl =>
      cases hd with
      | list_item t ind o =>
        simp only [groupItemsGo, List.mem_cons] at hmem
        rcases hmem with hmem | hmem
        · simp at hmem
        · refine ih _ rows aligns ?_ hmem
          intro r a hr
          exact hclean r a
            (takeListRun_rest_sub (Tok.list_item t ind o :: tl) ind o _ hr)
      | table_row cells =>
        simp only [groupItemsGo, List.mem_append] at hmem
        rcases hmem with hmem | hmem
        · split at hmem
          · simp at hmem
          · simp only [List.mem_singleton, Tok.gtable.injEq] at hmem
            obtain ⟨hrows, _⟩ := hmem
            subst hrows
            exact takeTableRun_rows_true_shape (Tok.table_row cells :: tl) [str "left"]
        · refine ih _ rows aligns ?_ hmem
          intro r a hr
          exact hclean r a
            (takeTableRun_rest_sub (Tok.table_row cells :: tl) [str "left"] true _ hr)
      | table_separator al =>
        simp only [groupItemsGo, List.mem_append] at hmem
        rcases hmem with hmem | hmem
        · split at hmem
          · simp at hmem
          · simp only [List.mem_singleton, Tok.gtable.injEq] at hmem
            obtain ⟨hrows, _⟩ := hmem
            subst hrows
            exact takeTableRun_rows_true_shape (Tok.table_separator al :: tl) [str "left"]
        · refine ih _ rows aligns ?_ hmem
          intro r a hr
          exact hclean r a
            (takeTableRun_rest_sub (Tok.table_separator al :: tl) [str "left"] true _ hr)
      | paragraph text =>
        simp only [groupItemsGo, List.mem_cons] at hmem
        rcases hmem with hmem | hmem
        · simp at hmem
        · exact ih _ rows aligns (fun r a hr => hclean r a (List.mem_cons_of_mem _ hr)) hmem
      | code c lang =>
        simp only [groupItemsGo, List.mem_cons] at hmem
        rcases hmem with hmem | hmem
        · simp at hmem
        · exact ih _ rows aligns (fun r a hr => hclean r a (List.mem_cons_of_mem _ hr)) hmem
      | image src alt title =>
        simp only [groupItemsGo, List.mem_cons] at hmem
        rcases hmem with hmem | hmem
        · simp at hmem
        · exact ih _ rows aligns (fun r a hr => hclean r a (List.mem_cons_of_mem _ hr)) hmem
      | heading text lvl =>
        simp only [groupItemsGo, List.mem_cons] at hmem
        rcases hmem with hmem | hmem
        · simp at hmem
        · exact ih _ rows aligns (fun r a hr => hclean r a (List.mem_cons_of_mem _ hr)) hmem
      | blockquote text =>
        simp only [groupItemsGo, List.mem_cons] at hmem
        rcases hmem with hmem | hmem
        · simp at hmem
        · exact ih _ rows aligns (fun r a hr => hclean r a (List.mem_cons_of_mem _ hr)) hmem
      | horizontal_rule =>
        simp only [groupItemsGo, List.mem_cons] at hmem
        rcases hmem with hmem | hmem
        · simp at hmem
        · exact ih _ rows aligns (fun r a hr => hclean r a (List.mem_cons_of_mem _ hr)) hmem
      | glist entries o =>
        simp only [groupItemsGo, List.mem_cons] at hmem
        rcases hmem with hmem | hmem
        · simp at hmem
        · exact ih _ rows aligns (fun r a hr => hclean r a (List.mem_cons_of_mem _ hr)) hmem
      | gtable r a =>
        exact absurd (List.mem_cons_self _ _) (hclean r a)

/-- C2 counterexample: in the run `row a, row b, separator, row c`, the
row `b` occurs before the first separator but is marked as a body row —
only the very first row of the run is the header, contradicting the
claim. -/
theorem C2_counterexample :
    groupItems buildListStructure
      [Tok.table_row [str "a"], Tok.table_row [str "b"],
       Tok.table_separator [str "left"], Tok.table_row [str "c"]] =
    [Tok.gtable [([str "a"], true), ([str "b"], false), ([str "c"], false)] [str "left"]] := by
  decide

/-- C2 amended: in every run of consecutive table tokens grouped into one
Table node, exactly the first `TableRow` of the run is marked as the
header row, regardless of where the separators occur (a separator only
overwrites the stored alignments); all later rows are body rows. -/
theorem C2_amended (items : List Tok) (rows : List (List Str × Bool)) (aligns : List Str)
    (hclean : ∀ r a, Tok.gtable r a ∉ items)
    (hmem : Tok.gtable rows aligns ∈ groupItems buildListStructure items) :
    (∀ p ∈ rows.take 1, p.2 = true) ∧ (∀ p ∈ rows.tail, p.2 = false) :=
  groupItemsGo_gtable buildListStructure items.length items rows aligns hclean hmem

/-- Witness for C2 amended on the counterexample run. -/
theorem C2_amended_witness :
    (∀ p ∈ ([([str "a"], true), ([str "b"], false), ([str "c"], false)] :
        List (List Str × Bool)).take 1, p.2 = true) ∧
    (∀ p ∈ ([([str "a"], true), ([str "b"], false), ([str "c"], false)] :
        List (List Str × Bool)).tail, p.2 = false) :=
  C2_amended
    [Tok.table_row [str "a"], Tok.table_row [str "b"],
     Tok.table_separator [str "left"], Tok.table_row [str "c"]]
    [([str "a"], true), ([str "b"], false), ([str "c"], false)] [str "left"]
    (by intro r a h; simp at h) (by decide)

/-- C3 counterexample: the line `| |` strips to itself, is a pipe-delimited
table line, and every one of its cells is blank — yet the lexer classifies
it as a table separator (the universal cell condition holds vacuously),
contradicting the claim that an all-blank row is not a separator. -/
theorem C3_counterexample :
    pyStrip (str "| |") = str "| |" ∧
    isTableLine (str "| |") = true ∧
    (∀ cell ∈ tableCells (str "| |"), pyStrip cell = []) ∧
    (lexLine initLexState (str "| |")).preface =
      [Tok.table_separator [str "left"]] := by
  decide

/-- C3 amended: outside code fences, on a line claimed by none of the
earlier lexer branches, a pipe-delimited line is classified as a separator
(with the inferred alignments) or as a plain row according to
`isSeparatorCells`; that test holds iff every non-blank cell consists only
of whitespace, `-` and `:` and contains at least one `-`; and a line whose
cells are all blank IS classified as a separator (the condition is
vacuous). -/
theorem C3_amended (st : LexState) (l : Str)
    (hc : st.in_code = false)
    (hf : (str "```").isPrefixOf (pyLStrip l) = false)
    (hi : imageOfLine l = none) (ha : matchATX l = none) (hli : matchListItem l = none)
    (ht : isTableLine l = true) :
    (lexLine st l =
      if isSeparatorCells (tableCells l) then
        pushItem (flushPara st) (Tok.table_separator ((tableCells l).map alignOfCell))
      else
        pushItem (flushPara st) (Tok.table_row (tableCells l))) ∧
    (isSeparatorCells (tableCells l) = true ↔
      ∀ cell ∈ tableCells l, pyStrip cell ≠ [] →
        cell ≠ [] ∧ (∀ c ∈ cell, isPySpace c = true ∨ c = '-' ∨ c = ':') ∧
          strContains cell '-' = true) ∧
    ((∀ cell ∈ tableCells l, pyStrip cell = []) →
      isSeparatorCells (tableCells l) = true) := by
  refine ⟨?_, ?_, ?_⟩
  · rw [lexLine]
    simp only [hf, Bool.false_eq_true, if_false, hc, hi, ha, hli, ht, if_true]
  · rw [isSeparatorCells, List.all_eq_true]
    apply forall_congr'
    intro cell
    apply imp_congr_right
    intro _
    split
    · next h =>
      simp only [h, ne_eq, not_false_iff, true_implies, Bool.and_eq_true,
        List.all_eq_true, Bool.or_eq_true, decide_eq_true_eq, and_assoc, or_assoc]
    · next h =>
      simp only [h, false_implies, iff_true]
  · intro hblank
    rw [isSeparatorCells, List.all_eq_true]
    intro cell hcell
    simp [hblank cell hcell]

/-- Witness for C3 amended on the separator line `| - |`. -/
theorem C3_amended_witness :
    lexLine initLexState (str "| - |") =
      if isSeparatorCells (tableCells (str "| - |")) then
        pushItem (flushPara initLexState)
          (Tok.table_separator ((tableCells (str "| - |")).map alignOfCell))
      else
        pushItem (flushPara initLexState) (Tok.table_row (tableCells (str "| - |"))) :=
  (C3_amended initLexState (str "| - |") rfl (by decide) (by decide) (by decide)
    (by decide) (by decide)).1

lemma lexLines_append (a b : List Str) :
    ∀ st, lexLines st (a ++ b) = lexLines (lexLines st a) b := by
  induction a with
  | nil => intro st; rfl
  | cons l rest ih => intro st; rw [List.cons_append, lexLines, lexLines, ih]

lemma lexLines_in_code (post : List Str) :
    ∀ st : LexState, st.in_code = true →
      (∀ l ∈ post, (str "```").isPrefixOf (pyLStrip l) = false) →
      lexLines st post = { st with buf_code := st.buf_code ++ post } := by
  induction post with
  | nil => intro st _ _; simp [lexLines]
  | cons l rest ih =>
    intro st hc hf
    rw [lexLines]
    have h1 : lexLine st l = { st with buf_code := st.buf_code ++ [l] } := by
      rw [lexLine]
      simp only [hf l (List.mem_cons_self l rest), Bool.false_eq_true, if_false, hc, if_true]
    rw [h1, ih { st with buf_code := st.buf_code ++ [l] } hc
      (fun x hx => hf x (List.mem_cons_of_mem _ hx))]
    simp

lemma finishLex_code_irrel (s : List Sec) (c : Option Sec) (i i' : Bool)
    (cl cl' : Str) (b b' : List Str) (p : List Tok) (q : List Str) :
    finishLex ⟨s, c, i, cl, b, p, q⟩ = finishLex ⟨s, c, i', cl', b', p, q⟩ := by
  cases c with
  | none =>
    rw [finishLex, finishLex, flushPara, flushPara]
    dsimp only
    split_ifs <;> rfl
  | some sec =>
    rw [finishLex, finishLex, flushPara, flushPara]
    dsimp only
    split_ifs <;> rfl

/-- C9: for every document body whose line sequence is `pre`, then a fence
line, then lines `post` none of which is a fence line, with the scanner not
inside a code block after `pre`: the scan of the whole body equals the scan
of `pre` alone — the buffered lines of the never-closed block are silently
dropped (no `Code` token for them reaches the output, and the scan is a
total function, so no error is raised). -/
theorem C9_unterminated_fence (body : Str) (pre post : List Str) (fence : Str)
    (hsplit : bodyLines body = pre ++ fence :: post)
    (hpre : (lexLines initLexState pre).in_code = false)
    (hfence : (str "```").isPrefixOf (pyLStrip fence) = true)
    (hpost : ∀ l ∈ post, (str "```").isPrefixOf (pyLStrip l) = false) :
    scanBody body = finishLex (lexLines initLexState pre) := by
  have key : ∀ st0 : LexState, st0.in_code = false →
      finishLex (lexLines (lexLine st0 fence) post) = finishLex st0 := by
    intro st0 h0
    have h1 : lexLine st0 fence =
        { st0 with in_code := true,
                   code_lang := pyStrip ((pyStrip fence).drop 3), buf_code := [] } := by
      rw [lexLine]
      simp only [hfence, if_true, h0, Bool.false_eq_true, not_false_iff, if_true]
    rw [h1, lexLines_in_code post _ rfl hpost]
    cases st0 with
    | mk s c i cl b p q =>
      dsimp only
      exact finishLex_code_irrel s c true i (pyStrip ((pyStrip fence).drop 3)) cl
        ([] ++ post) b p q
  rw [scanBody, hsplit, lexLines_append, lexLines]
  exact key _ hpre

/-- Witness for C9 on a concrete unterminated fence. -/
theorem C9_witness :
    scanBody (str "hello\n```py\nx = 1") =
      finishLex (lexLines initLexState [str "hello"]) :=
  C9_unterminated_fence (str "hello\n```py\nx = 1") [str "hello"] [str "x = 1"]
    (str "```py") (by decide) (by decide) (by decide) (by decide)

/-- Every `childOrdered` flag stored anywhere in the structure is falsy
(`none` or `some false`). -/
def LEntries.childFlagsFalse : LEntries → Bool
  | .nil => true
  | .cons _ ch chOrd rest =>
    !(chOrd.getD false) && ch.childFlagsFalse && rest.childFlagsFalse

/-- The same flag check on the accumulator representation. -/
def tripleFlagsFalse (l : List LTriple) : Bool :=
  l.all fun p => !(p.2.2.getD false) && p.2.1.childFlagsFalse

/-- The renderer of `_convert_list` items with the nested ordered kind
hardcoded to unordered, written from the spec claim: nested sub-lists
always become an unordered wrapper, whatever the stored flag says. -/
def listItemsGoUL (cfg : StyleConfig) (isRef : Bool) : LEntries → Str
  | .nil => []
  | .cons t ch _ rest =>
    let itemText := inline_format cfg t
    let inner :=
      if ch.isNil then itemText
      else
        itemText ++ listTagWrap cfg false isRef (listItemsGoUL cfg isRef ch)
    str "<li style=\"margin:10px 0;line-height:1.8;font-size:15px;\">" ++ inner ++ str "</li>" ++
      listItemsGoUL cfg isRef rest

lemma toLEntries_flags : ∀ l : List LTriple,
    (toLEntries l).childFlagsFalse = tripleFlagsFalse l := by
  intro l
  induction l with
  | nil => rfl
  | cons p rest ih =>
    obtain ⟨t, ch, o⟩ := p
    simp [toLEntries, LEntries.childFlagsFalse, tripleFlagsFalse, ih, List.all_cons]

lemma tripleFlagsFalse_reverse (acc : List LTriple) (hacc : tripleFlagsFalse acc = true) :
    tripleFlagsFalse acc.reverse = true := by
  rw [tripleFlagsFalse, List.all_reverse]
  exact hacc

lemma buildAuxGo_flags : ∀ (fuel : Nat) (items : List (Str × Nat)) (base : Nat)
    (acc : List LTriple), tripleFlagsFalse acc = true →
    tripleFlagsFalse (buildAuxGo fuel items base acc) = true := by
  intro fuel
  induction fuel with
  | zero =>
    intro items base acc hacc
    cases items with
    | nil => exact tripleFlagsFalse_reverse acc hacc
    | cons p ps => exact tripleFlagsFalse_reverse acc hacc
  | succ fuel ih =>
    intro items base acc hacc
    cases items with
    | nil => exact tripleFlagsFalse_reverse acc hacc
    | cons p rest =>
      obtain ⟨t, ind⟩ := p
      simp only [buildAuxGo]
      split
      · apply ih
        cases acc with
        | nil => rfl
        | cons q accRest =>
          obtain ⟨pt, pc, po⟩ := q
          have hrec : tripleFlagsFalse (buildAuxGo fuel
              (rest.takeWhile fun p => ind ≤ p.2) ind [(t, LEntries.nil, none)]) = true :=
            ih _ _ _ rfl
          simp only [tripleFlagsFalse, List.all_cons, Bool.and_eq_true] at hacc ⊢
          refine ⟨⟨by simp, ?_⟩, hacc.2⟩
          rw [toLEntries_flags]
          exact hrec
      · apply ih
        simp only [tripleFlagsFalse, List.all_cons, Bool.and_eq_true] at hacc ⊢
        exact ⟨by simp [LEntries.childFlagsFalse], hacc⟩

lemma listItemsGo_ul (cfg : StyleConfig) (isRef : Bool) :
    ∀ entries : LEntries, entries.childFlagsFalse = true →
      listItemsGo cfg isRef entries = listItemsGoUL cfg isRef entries := by
  intro entries
  induction entries with
  | nil => intro _; rfl
  | cons t ch chOrd rest ihch ihrest =>
    intro h
    simp only [LEntries.childFlagsFalse, Bool.and_eq_true] at h
    obtain ⟨⟨hflag, hch⟩, hrest⟩ := h
    have hgd : chOrd.getD false = false := by
      cases chOrd with
      | none => rfl
      | some b => simpa using hflag
    rw [listItemsGo, listItemsGoUL, ihch hch, ihrest hrest, hgd]

/-- C10: every `childOrdered` flag the grouper stores is falsy — the nested
ordered kind is hardcoded to `false` — and rendering such a structure
coincides with the renderer that hardcodes an unordered wrapper for every
nested sub-list: nested sub-items are always rendered inside `<ul>`,
regardless of their markers. -/
theorem C10_nested_unordered (cfg : StyleConfig) (isRef : Bool)
    (items : List (Str × Nat)) (base : Nat) (ord : Bool) :
    (buildListStructure items base ord).childFlagsFalse = true ∧
    listItemsGo cfg isRef (buildListStructure items base ord) =
      listItemsGoUL cfg isRef (buildListStructure items base ord) := by
  have h1 : (buildListStructure items base ord).childFlagsFalse = true := by
    rw [buildListStructure, buildAux, toLEntries_flags]
    exact buildAuxGo_flags items.length items base [] rfl
  exact ⟨h1, listItemsGo_ul cfg isRef _ h1⟩

/-! ## Escaping invariants (C4): every unescaped angle or ampersand in an
`inline_format` result belongs to a construct the formatter itself
introduces. -/

/-- The strings that may legally follow an unescaped `<` in formatter
output: exactly the tag starts the formatter inserts. -/
def ltFollowers : List Str :=
  [str "strong>", str "strong style=\"color:", str "/strong>", str "em>", str "/em>",
   str "code style=\"", str "/code>", str "a href=\"", str "/a>",
   str "span style=\"color:", str "/span>"]

/-- The strings that may legally follow a `&`: the entity bodies produced
by `html.escape`. -/
def ampFollowers : List Str :=
  [str "amp;", str "lt;", str "gt;", str "quot;", str "#x27;"]

/-- Reversed tag-end contexts: every unescaped `>` is immediately preceded
by one of these (read reversed), i.e. it closes a formatter tag. -/
def gtPreRev : List Str :=
  [(str "strong").reverse, (str "em").reverse, (str "code").reverse,
   (str "/a").reverse, (str "span").reverse, (str ";\"").reverse]

/-- Every occurrence of the marker character `m` is immediately followed by
one of the strings in `fs`. -/
def followsOkP (fs : List Str) (m : Char) (l : Str) : Prop :=
  ∀ a b : Str, l = a ++ m :: b → ∃ f ∈ fs, f <+: b

/-- Executable check for `followsOkP`. -/
def followsOkB (fs : List Str) (m : Char) : Str → Bool
  | [] => true
  | c :: rest =>
    (if c = m then fs.any (fun f => f.isPrefixOf rest) else true) && followsOkB fs m rest

lemma followsOkB_iff (fs : List Str) (m : Char) :
    ∀ l : Str, followsOkB fs m l = true ↔ followsOkP fs m l := by
  intro l
  induction l with
  | nil =>
    constructor
    · intro _ a b hab
      exact absurd hab (by simp)
    · intro _
      rfl
  | cons c rest ih =>
    rw [followsOkB, Bool.and_eq_true]
    constructor
    · rintro ⟨h1, h2⟩ a b hab
      cases a with
      | nil =>
        rw [List.nil_append] at hab
        injection hab with hc hb
        subst hc
        subst hb
        rw [if_pos rfl] at h1
        obtain ⟨f, hf⟩ := List.any_eq_true.mp h1
        exact ⟨f, hf.1, List.isPrefixOf_iff_prefix.mp hf.2⟩
      | cons a0 a' =>
        rw [List.cons_append] at hab
        injection hab with hc htl
        exact (ih.mp h2) a' b htl
    · intro hP
      refine ⟨?_, ih.mpr (fun a b hab => hP (c :: a) b (by rw [hab, List.cons_append]))⟩
      split
      · next hc =>
        subst hc
        obtain ⟨f, hf, hfp⟩ := hP [] rest rfl
        exact List.any_eq_true.mpr ⟨f, hf, List.isPrefixOf_iff_prefix.mpr hfp⟩
      · rfl

lemma followsOkP_append {fs : List Str} {m : Char} {x y : Str}
    (hx : followsOkP fs m x) (hy : followsOkP fs m y) : followsOkP fs m (x ++ y) := by
  intro a b hab
  rcases List.append_eq_append_iff.mp hab with ⟨a', h1, h2⟩ | ⟨c', h1, h2⟩
  · exact hy a' b h2
  · cases c' with
    | nil =>
      rw [List.nil_append] at h2
      exact hy [] b h2.symm
    | cons c0 c'' =>
      injection h2 with hc htl
      subst hc
      obtain ⟨f, hf, hp⟩ := hx a c'' h1
      exact ⟨f, hf, htl ▸ hp.trans (List.prefix_append c'' y)⟩

lemma followsOkP_suffix {fs : List Str} {m : Char} {x y : Str}
    (h : followsOkP fs m (x ++ y)) : followsOkP fs m y :=
  fun a b hab => h (x ++ a) b (by rw [hab, List.append_assoc])

lemma followsOkP_of_not_mem {fs : List Str} {m : Char} {l : Str} (h : m ∉ l) :
    followsOkP fs m l := by
  intro a b hab
  exact absurd (by rw [hab]; exact List.mem_append_right a (List.mem_cons_self m b)) h

lemma prefix_chop {f b y : Str} {d : Char} (hd : d ∉ f) (h : f <+: b ++ d :: y) :
    f <+: b := by
  induction f generalizing b with
  | nil => exact List.nil_prefix
  | cons c f' ih =>
    cases b with
    | nil =>
      rw [List.nil_append] at h
      obtain ⟨hc, -⟩ := List.cons_prefix_cons.mp h
      subst hc
      exact absurd (List.mem_cons_self c f') hd
    | cons b0 b' =>
      rw [List.cons_append] at h
      obtain ⟨hc, hp⟩ := List.cons_prefix_cons.mp h
      subst hc
      exact List.cons_prefix_cons.mpr ⟨rfl, ih (fun hm => hd (List.mem_cons_of_mem _ hm)) hp⟩

lemma followsOkP_chop {fs : List Str} {m d : Char} {x y : Str}
    (hd : ∀ f ∈ fs, d ∉ f) (h : followsOkP fs m (x ++ d :: y)) : followsOkP fs m x := by
  intro a b hab
  obtain ⟨f, hf, hp⟩ := h a (b ++ d :: y) (by rw [hab]; simp [List.append_assoc])
  exact ⟨f, hf, prefix_chop (hd f hf) hp⟩

lemma followsOkP_cons_mark {fs : List Str} {m : Char} {t : Str}
    (hw : ∃ f ∈ fs, f <+: t) (ht : followsOkP fs m t) : followsOkP fs m (m :: t) := by
  intro a b hab
  cases a with
  | nil =>
    injection hab with h1 h2
    subst h2
    exact hw
  | cons a0 a' =>
    injection hab with h1 h2
    exact ht a' b h2

lemma followsOkP_cons_ne {fs : List Str} {m c : Char} {t : Str}
    (hc : c ≠ m) (ht : followsOkP fs m t) : followsOkP fs m (c :: t) := by
  intro a b hab
  cases a with
  | nil =>
    injection hab with h1 h2
    exact absurd h1 hc
  | cons a0 a' =>
    injection hab with h1 h2
    exact ht a' b h2

/-- Every unescaped `>` closes a formatter tag, phrased on the reversed
string. -/
def gtOkP (l : Str) : Prop := followsOkP gtPreRev '>' l.reverse

lemma gtOkP_append {x y : Str} (hx : gtOkP x) (hy : gtOkP y) : gtOkP (x ++ y) := by
  rw [gtOkP, List.reverse_append]
  exact followsOkP_append hy hx

lemma gtOkP_front {x y : Str} (h : gtOkP (x ++ y)) : gtOkP x := by
  rw [gtOkP, List.reverse_append] at h
  exact followsOkP_suffix h

lemma gtOkP_chop {x y : Str} {d : Char} (hd : ∀ f ∈ gtPreRev, d ∉ f)
    (h : gtOkP (x ++ d :: y)) : gtOkP y := by
  rw [gtOkP] at h ⊢
  rw [show (x ++ d :: y).reverse = y.reverse ++ d :: x.reverse from by simp] at h
  exact followsOkP_chop hd h

lemma gtOkP_of_not_mem {l : Str} (h : '>' ∉ l) : gtOkP l :=
  followsOkP_of_not_mem (by simpa using h)

/-- A pair of appendable pieces on the left, for reassociated goals. -/
lemma gtOkP_append3 {a b c : Str} (hab : gtOkP (a ++ b)) (hc : gtOkP c) :
    gtOkP (a ++ (b ++ c)) := by
  rw [← List.append_assoc]
  exact gtOkP_append hab hc

/-- The combined escaping invariant: every `<` opens a formatter tag, every
`>` closes one, every `&` begins an escape entity. -/
def angOk (l : Str) : Prop :=
  followsOkP ltFollowers '<' l ∧ gtOkP l ∧ followsOkP ampFollowers '&' l

lemma angOk_append {x y : Str} (hx : angOk x) (hy : angOk y) : angOk (x ++ y) :=
  ⟨followsOkP_append hx.1 hy.1, gtOkP_append hx.2.1 hy.2.1, followsOkP_append hx.2.2 hy.2.2⟩

/-- The characters at which the inline matchers cut the string. -/
def delimChars : List Char := ['*', btick, '[', ']', '(', ')', lbrace, rbrace]

lemma delim_not_mem :
    ∀ d ∈ delimChars, ∀ f ∈ ltFollowers ++ ampFollowers ++ gtPreRev, d ∉ f := by decide

lemma angOk_chop {x y : Str} {d : Char} (hd : d ∈ delimChars)
    (h : angOk (x ++ d :: y)) : angOk x ∧ angOk y := by
  obtain ⟨hlt, hgt, hamp⟩ := h
  have hxy : (x ++ [d]) ++ y = x ++ d :: y := by simp
  have hdlt : ∀ f ∈ ltFollowers, d ∉ f := fun f hf =>
    delim_not_mem d hd f (List.mem_append_left _ (List.mem_append_left _ hf))
  have hdamp : ∀ f ∈ ampFollowers, d ∉ f := fun f hf =>
    delim_not_mem d hd f (List.mem_append_left _ (List.mem_append_right _ hf))
  have hdgt : ∀ f ∈ gtPreRev, d ∉ f := fun f hf =>
    delim_not_mem d hd f (List.mem_append_right _ hf)
  have hlt' : followsOkP ltFollowers '<' ((x ++ [d]) ++ y) := by rw [hxy]; exact hlt
  have hamp' : followsOkP ampFollowers '&' ((x ++ [d]) ++ y) := by rw [hxy]; exact hamp
  exact ⟨⟨followsOkP_chop hdlt hlt, gtOkP_front hgt, followsOkP_chop hdamp hamp⟩,
    ⟨followsOkP_suffix hlt', gtOkP_chop hdgt hgt, followsOkP_suffix hamp'⟩⟩

lemma angOk_cons_delim {y : Str} {d : Char} (hd : d ∈ delimChars)
    (h : angOk (d :: y)) : angOk y :=
  (angOk_chop hd (show angOk ([] ++ d :: y) from h)).2

/-- Executable forms of the three invariants. -/
def ltOkB (l : Str) : Bool := followsOkB ltFollowers '<' l

/-- Executable `>`-side check. -/
def gtOkB (l : Str) : Bool := followsOkB gtPreRev '>' l.reverse

/-- Executable `&`-side check. -/
def ampOkB (l : Str) : Bool := followsOkB ampFollowers '&' l

/-- Executable conjunction of the three. -/
def angOkB (l : Str) : Bool := ltOkB l && gtOkB l && ampOkB l

lemma angOkB_iff (l : Str) : angOkB l = true ↔ angOk l := by
  rw [angOkB, Bool.and_eq_true, Bool.and_eq_true, ltOkB, gtOkB, ampOkB,
    followsOkB_iff, followsOkB_iff, followsOkB_iff]
  constructor
  · rintro ⟨⟨h1, h2⟩, h3⟩
    exact ⟨h1, h2, h3⟩
  · rintro ⟨h1, h2, h3⟩
    exact ⟨⟨h1, h2⟩, h3⟩

lemma angOk_of_decide {l : Str} (h : angOkB l = true) : angOk l := (angOkB_iff l).mp h

lemma gtOkP_of_decideB {l : Str} (h : gtOkB l = true) : gtOkP l :=
  (followsOkB_iff _ _ _).mp h

/-- A string free of `<`, `>` and `&`. -/
def strClean (s : Str) : Bool := s.all fun c => !((c = '<') || (c = '>') || (c = '&'))

/-- The style fields that are interpolated into inline tags. -/
def cfgClean (cfg : StyleConfig) : Bool :=
  strClean cfg.inline_code_bg_color && strClean cfg.inline_code_text_color &&
    strClean cfg.link_color

lemma angOk_of_clean {s : Str} (h : strClean s = true) : angOk s := by
  rw [strClean, List.all_eq_true] at h
  have m1 : '<' ∉ s := fun hm => by simpa using h '<' hm
  have m2 : '>' ∉ s := fun hm => by simpa using h '>' hm
  have m3 : '&' ∉ s := fun hm => by simpa using h '&' hm
  exact ⟨followsOkP_of_not_mem m1, gtOkP_of_not_mem m2, followsOkP_of_not_mem m3⟩

lemma escChar_inv (c : Char) :
    '<' ∉ escChar c ∧ '>' ∉ escChar c ∧ followsOkP ampFollowers '&' (escChar c) := by
  rw [escChar]
  split_ifs with h1 h2 h3 h4 h5
  · exact ⟨by decide, by decide, (followsOkB_iff _ _ _).mp (by decide)⟩
  · exact ⟨by decide, by decide, (followsOkB_iff _ _ _).mp (by decide)⟩
  · exact ⟨by decide, by decide, (followsOkB_iff _ _ _).mp (by decide)⟩
  · exact ⟨by decide, by decide, (followsOkB_iff _ _ _).mp (by decide)⟩
  · exact ⟨by decide, by decide, (followsOkB_iff _ _ _).mp (by decide)⟩
  · refine ⟨?_, ?_, followsOkP_of_not_mem ?_⟩
    · intro hm
      rw [List.mem_singleton] at hm
      exact h2 hm.symm
    · intro hm
      rw [List.mem_singleton] at hm
      exact h3 hm.symm
    · intro hm
      rw [List.mem_singleton] at hm
      exact h1 hm.symm

lemma escape_html_inv (s : Str) :
    '<' ∉ escape_html s ∧ '>' ∉ escape_html s ∧
      followsOkP ampFollowers '&' (escape_html s) := by
  induction s with
  | nil =>
    exact ⟨by simp [escape_html], by simp [escape_html],
      followsOkP_of_not_mem (by simp [escape_html])⟩
  | cons c rest ih =>
    have hstep : escape_html (c :: rest) = escChar c ++ escape_html rest := by
      simp [escape_html]
    obtain ⟨e1, e2, e3⟩ := escChar_inv c
    obtain ⟨i1, i2, i3⟩ := ih
    rw [hstep]
    refine ⟨?_, ?_, followsOkP_append e3 i3⟩
    · intro hm
      rcases List.mem_append.mp hm with hh | hh
      · exact e1 hh
      · exact i1 hh
    · intro hm
      rcases List.mem_append.mp hm with hh | hh
      · exact e2 hh
      · exact i2 hh

lemma replaceGo_not_mem {x p : Char} {ps repl : Str} (hx : x ∉ repl) :
    ∀ (fuel : Nat) (l : Str), x ∉ l → x ∉ replaceGo p ps repl fuel l := by
  intro fuel
  induction fuel with
  | zero =>
    intro l h
    cases l with
    | nil => simp [replaceGo]
    | cons c rest => exact h
  | succ fuel ih =>
    intro l h
    cases l with
    | nil => simp [replaceGo]
    | cons c rest =>
      rw [replaceGo]
      split
      · intro hm
        rcases List.mem_append.mp hm with hh | hh
        · exact hx hh
        · exact ih _ (fun hr => h (List.mem_cons_of_mem _ (List.drop_subset _ _ hr))) hh
      · intro hm
        rcases List.mem_cons.mp hm with hh | hh
        · exact h (hh ▸ List.mem_cons_self c rest)
        · exact ih _ (fun hr => h (List.mem_cons_of_mem _ hr)) hh

lemma replaceGo_front {p : Char} {ps repl : Str} :
    ∀ f : Str, p ∉ f → ∀ (fuel : Nat) (rest : Str), f <+: rest →
      f <+: replaceGo p ps repl fuel rest := by
  intro f
  induction f with
  | nil =>
    intro _ fuel rest _
    exact List.nil_prefix
  | cons a f' ih =>
    intro hf fuel rest hp
    obtain ⟨t, ht⟩ := hp
    subst ht
    have ha : a ≠ p := fun h => hf (h ▸ List.mem_cons_self a f')
    cases fuel with
    | zero => exact ⟨t, rfl⟩
    | succ fuel =>
      show (a :: f') <+: replaceGo p ps repl (fuel + 1) (a :: (f' ++ t))
      rw [replaceGo]
      split
      · next hcond =>
        exfalso
        have hpre := List.isPrefixOf_iff_prefix.mp hcond
        rw [List.cons_prefix_cons] at hpre
        exact ha hpre.1.symm
      · exact List.cons_prefix_cons.mpr
          ⟨rfl, ih (fun h => hf (List.mem_cons_of_mem _ h)) fuel (f' ++ t)
            (List.prefix_append f' t)⟩

lemma replaceGo_amp {ps repl : Str} (hrepl : '&' ∉ repl) :
    ∀ (fuel : Nat) (l : Str), followsOkP ampFollowers '&' l →
      followsOkP ampFollowers '&' (replaceGo '&' ps repl fuel l) := by
  intro fuel
  induction fuel with
  | zero =>
    intro l h
    cases l with
    | nil => exact h
    | cons c rest => exact h
  | succ fuel ih =>
    intro l h
    cases l with
    | nil => exact h
    | cons c rest =>
      have hsuf : followsOkP ampFollowers '&' rest := @followsOkP_suffix _ _ [c] rest h
      rw [replaceGo]
      split
      · next hcond =>
        have hdrop : followsOkP ampFollowers '&' (rest.drop ps.length) := by
          rw [← List.take_append_drop ps.length rest] at hsuf
          exact followsOkP_suffix hsuf
        exact followsOkP_append (followsOkP_of_not_mem hrepl) (ih _ hdrop)
      · by_cases hc : c = '&'
        · subst hc
          obtain ⟨f, hf, hfp⟩ := h [] rest rfl
          have hfamp : '&' ∉ f := by
            have hall : ∀ g ∈ ampFollowers, '&' ∉ g := by decide
            exact hall f hf
          exact followsOkP_cons_mark
            ⟨f, hf, replaceGo_front f hfamp fuel rest hfp⟩ (ih _ hsuf)
        · exact followsOkP_cons_ne hc (ih _ hsuf)

lemma restoreApos_inv {l : Str} (h1 : '<' ∉ l) (h2 : '>' ∉ l)
    (h3 : followsOkP ampFollowers '&' l) : angOk (restoreApos l) := by
  rw [restoreApos]
  have e1 : ∀ m : Str, pyReplace (str "&#x27;") (str "'") m =
      replaceGo '&' (str "#x27;") (str "'") m.length m := fun m => rfl
  have e2 : ∀ m : Str, pyReplace (str "&#39;") (str "'") m =
      replaceGo '&' (str "#39;") (str "'") m.length m := fun m => rfl
  rw [e1, e2]
  have key : ∀ (ps m : Str), '<' ∉ m → '>' ∉ m → followsOkP ampFollowers '&' m →
      ('<' ∉ replaceGo '&' ps (str "'") m.length m ∧
       '>' ∉ replaceGo '&' ps (str "'") m.length m ∧
       followsOkP ampFollowers '&' (replaceGo '&' ps (str "'") m.length m)) :=
    fun ps m m1 m2 m3 =>
      ⟨replaceGo_not_mem (by decide) _ _ m1, replaceGo_not_mem (by decide) _ _ m2,
       replaceGo_amp (by decide) _ _ m3⟩
  obtain ⟨a1, a2, a3⟩ := key (str "#x27;") l h1 h2 h3
  obtain ⟨b1, b2, b3⟩ := key (str "#39;") _ a1 a2 a3
  exact ⟨followsOkP_of_not_mem b1, gtOkP_of_not_mem b2, b3⟩

lemma subBoldGo_inv : ∀ (fuel : Nat) (l : Str), angOk l → angOk (subBoldGo fuel l) := by
  intro fuel
  induction fuel with
  | zero => intro l h; exact h
  | succ fuel ih =>
    intro l h
    rw [subBoldGo]
    cases hm : matchBold l with
    | none => exact h
    | some q =>
      obtain ⟨p, g, r⟩ := q
      obtain ⟨hdec, -⟩ := matchBold_spec hm
      subst hdec
      obtain ⟨hp, h1⟩ := angOk_chop (by decide) h
      have h2 := angOk_cons_delim (by decide) h1
      obtain ⟨hg, h3⟩ := angOk_chop (by decide) h2
      have hr := angOk_cons_delim (by decide) h3
      exact angOk_append (angOk_append (angOk_append (angOk_append hp
        (angOk_of_decide (by decide))) hg) (angOk_of_decide (by decide))) (ih r hr)

lemma subItalGo_inv : ∀ (fuel : Nat) (l : Str), angOk l → angOk (subItalGo fuel l) := by
  intro fuel
  induction fuel with
  | zero => intro l h; exact h
  | succ fuel ih =>
    intro l h
    rw [subItalGo]
    cases hm : matchItal none l with
    | none => exact h
    | some q =>
      obtain ⟨p, g, r⟩ := q
      obtain ⟨hdec, -⟩ := matchItal_spec hm
      subst hdec
      obtain ⟨hp, h1⟩ := angOk_chop (by decide) h
      obtain ⟨hg, hr⟩ := angOk_chop (by decide) h1
      exact angOk_append (angOk_append (angOk_append (angOk_append hp
        (angOk_of_decide (by decide))) hg) (angOk_of_decide (by decide))) (ih r hr)

lemma codeOpenTag_angOk (cfg : StyleConfig) (hcfg : cfgClean cfg = true) :
    angOk (codeOpenTag cfg) := by
  rw [cfgClean, Bool.and_eq_true, Bool.and_eq_true] at hcfg
  obtain ⟨⟨hbg, hfg⟩, -⟩ := hcfg
  rw [codeOpenTag]
  exact angOk_append (angOk_append (angOk_append (angOk_append
    (angOk_of_decide (by decide)) (angOk_of_clean hbg))
    (angOk_of_decide (by decide))) (angOk_of_clean hfg)) (angOk_of_decide (by decide))

lemma subCodeGo_inv (cfg : StyleConfig) (hcfg : cfgClean cfg = true) :
    ∀ (fuel : Nat) (l : Str), angOk l → angOk (subCodeGo cfg fuel l) := by
  intro fuel
  induction fuel with
  | zero => intro l h; exact h
  | succ fuel ih =>
    intro l h
    rw [subCodeGo]
    cases hm : matchCode l with
    | none => exact h
    | some q =>
      obtain ⟨p, g, r⟩ := q
      obtain ⟨hdec, -⟩ := matchCode_spec hm
      subst hdec
      obtain ⟨hp, h1⟩ := angOk_chop (by decide) h
      obtain ⟨hg, hr⟩ := angOk_chop (by decide) h1
      exact angOk_append (angOk_append (angOk_append (angOk_append hp
        (codeOpenTag_angOk cfg hcfg)) hg)
        (angOk_of_decide (by decide))) (ih r hr)

lemma aTag_angOk (cfg : StyleConfig) (hcfg : cfgClean cfg = true) {t u : Str}
    (ht : angOk t) (hu : angOk u) : angOk (aTag cfg t u) := by
  rw [cfgClean, Bool.and_eq_true, Bool.and_eq_true] at hcfg
  obtain ⟨-, hlink⟩ := hcfg
  rw [aTag]
  exact angOk_append (angOk_append (angOk_append (angOk_append (angOk_append
    (angOk_append (angOk_append (angOk_append
      (angOk_of_decide (by decide)) hu)
      (angOk_of_decide (by decide))) (angOk_of_clean hlink))
      (angOk_of_decide (by decide))) (angOk_of_clean hlink))
      (angOk_of_decide (by decide))) ht) (angOk_of_decide (by decide))

lemma subLinkGo_inv (cfg : StyleConfig) (hcfg : cfgClean cfg = true) :
    ∀ (fuel : Nat) (l : Str), angOk l → angOk (subLinkGo cfg fuel l) := by
  intro fuel
  induction fuel with
  | zero => intro l h; exact h
  | succ fuel ih =>
    intro l h
    rw [subLinkGo]
    cases hm : matchLink l with
    | none => exact h
    | some q =>
      obtain ⟨p, t, u, r⟩ := q
      obtain ⟨hdec, -, -⟩ := matchLink_spec hm
      subst hdec
      obtain ⟨hp, h1⟩ := angOk_chop (by decide) h
      obtain ⟨ht, h2⟩ := angOk_chop (by decide) h1
      have h3 := angOk_cons_delim (by decide) h2
      obtain ⟨hu, hr⟩ := angOk_chop (by decide) h3
      show angOk (p ++ (if (str "#").isPrefixOf u then t else aTag cfg t u) ++
        subLinkGo cfg fuel r)
      split
      · exact angOk_append (angOk_append hp ht) (ih r hr)
      · exact angOk_append (angOk_append hp (aTag_angOk cfg hcfg ht hu)) (ih r hr)

lemma subCStrongGo_inv : ∀ (fuel : Nat) (l : Str), angOk l → angOk (subCStrongGo fuel l) := by
  intro fuel
  induction fuel with
  | zero => intro l h; exact h
  | succ fuel ih =>
    intro l h
    rw [subCStrongGo]
    cases hm : matchCStrong l with
    | none => exact h
    | some q =>
      obtain ⟨p, g, col, r⟩ := q
      obtain ⟨hdec, -, -⟩ := matchCStrong_spec hm
      subst hdec
      have hre : p ++ '*' :: '*' :: (g ++ cstrLit ++ col ++ rbrace :: r) =
          p ++ '*' :: '*' :: (g ++ '*' :: '*' :: lbrace ::
            ((str "color:" ++ col) ++ rbrace :: r)) := by
        simp [cstrLit, List.append_assoc]
      rw [hre] at h
      obtain ⟨hp, h1⟩ := angOk_chop (by decide) h
      have h2 := angOk_cons_delim (by decide) h1
      obtain ⟨hg, h3⟩ := angOk_chop (by decide) h2
      have h4 := angOk_cons_delim (by decide) h3
      have h5 := angOk_cons_delim (by decide) h4
      obtain ⟨hcc, hr⟩ := angOk_chop (by decide) h5
      obtain ⟨hccl, hccg, hcca⟩ := hcc
      obtain ⟨hpl, hpg, hpa⟩ := hp
      obtain ⟨hgl, hgg, hga⟩ := hg
      obtain ⟨hrl, hrg, hra⟩ := ih r hr
      have hcol_lt : followsOkP ltFollowers '<' col :=
        @followsOkP_suffix _ _ (str "color:") col hccl
      have hcol_amp : followsOkP ampFollowers '&' col :=
        @followsOkP_suffix _ _ (str "color:") col hcca
      show angOk (p ++ str "<strong style=\"color:" ++ col ++ str ";\">" ++ g ++
        str "</strong>" ++ subCStrongGo fuel r)
      refine ⟨?_, ?_, ?_⟩
      · simp only [List.append_assoc]
        exact followsOkP_append hpl (followsOkP_append ((followsOkB_iff _ _ _).mp (by decide))
          (followsOkP_append hcol_lt (followsOkP_append ((followsOkB_iff _ _ _).mp (by decide))
            (followsOkP_append hgl (followsOkP_append ((followsOkB_iff _ _ _).mp (by decide))
              hrl)))))
      · rw [show str "<strong style=\"color:" = str "<strong style=\"" ++ str "color:"
          from rfl]
        simp only [List.append_assoc]
        exact gtOkP_append hpg (gtOkP_append (gtOkP_of_not_mem (by decide))
          (gtOkP_append3 hccg (gtOkP_append (gtOkP_of_decideB (by decide))
            (gtOkP_append hgg (gtOkP_append (gtOkP_of_decideB (by decide)) hrg)))))
      · simp only [List.append_assoc]
        exact followsOkP_append hpa (followsOkP_append (followsOkP_of_not_mem (by decide))
          (followsOkP_append hcol_amp (followsOkP_append (followsOkP_of_not_mem (by decide))
            (followsOkP_append hga (followsOkP_append (followsOkP_of_not_mem (by decide))
              hra)))))

lemma subCSpanGo_inv : ∀ (fuel : Nat) (l : Str), angOk l → angOk (subCSpanGo fuel l) := by
  intro fuel
  induction fuel with
  | zero => intro l h; exact h
  | succ fuel ih =>
    intro l h
    rw [subCSpanGo]
    cases hm : matchCSpan l with
    | none => exact h
    | some q =>
      obtain ⟨p, t, col, r⟩ := q
      obtain ⟨hdec, -, -⟩ := matchCSpan_spec hm
      subst hdec
      have hre : p ++ '[' :: (t ++ ']' :: (lbrace :: str "color:") ++ col ++ rbrace :: r) =
          p ++ '[' :: (t ++ ']' :: lbrace ::
            ((str "color:" ++ col) ++ rbrace :: r)) := by
        simp [List.append_assoc]
      rw [hre] at h
      obtain ⟨hp, h1⟩ := angOk_chop (by decide) h
      obtain ⟨ht, h2⟩ := angOk_chop (by decide) h1
      have h3 := angOk_cons_delim (by decide) h2
      obtain ⟨hcc, hr⟩ := angOk_chop (by decide) h3
      obtain ⟨hccl, hccg, hcca⟩ := hcc
      obtain ⟨hpl, hpg, hpa⟩ := hp
      obtain ⟨htl, htg, hta⟩ := ht
      obtain ⟨hrl, hrg, hra⟩ := ih r hr
      have hcol_lt : followsOkP ltFollowers '<' col :=
        @followsOkP_suffix _ _ (str "color:") col hccl
      have hcol_amp : followsOkP ampFollowers '&' col :=
        @followsOkP_suffix _ _ (str "color:") col hcca
      show angOk (p ++ str "<span style=\"color:" ++ col ++ str ";\">" ++ t ++
        str "</span>" ++ subCSpanGo fuel r)
      refine ⟨?_, ?_, ?_⟩
      · simp only [List.append_assoc]
        exact followsOkP_append hpl (followsOkP_append ((followsOkB_iff _ _ _).mp (by decide))
          (followsOkP_append hcol_lt (followsOkP_append ((followsOkB_iff _ _ _).mp (by decide))
            (followsOkP_append htl (followsOkP_append ((followsOkB_iff _ _ _).mp (by decide))
              hrl)))))
      · rw [show str "<span style=\"color:" = str "<span style=\"" ++ str "color:"
          from rfl]
        simp only [List.append_assoc]
        exact gtOkP_append hpg (gtOkP_append (gtOkP_of_not_mem (by decide))
          (gtOkP_append3 hccg (gtOkP_append (gtOkP_of_decideB (by decide))
            (gtOkP_append htg (gtOkP_append (gtOkP_of_decideB (by decide)) hrg)))))
      · simp only [List.append_assoc]
        exact followsOkP_append hpa (followsOkP_append (followsOkP_of_not_mem (by decide))
          (followsOkP_append hcol_amp (followsOkP_append (followsOkP_of_not_mem (by decide))
            (followsOkP_append hta (followsOkP_append (followsOkP_of_not_mem (by decide))
              hra)))))

lemma inline_format_angOk (cfg : StyleConfig) (hcfg : cfgClean cfg = true) (text : Str) :
    angOk (inline_format cfg text) := by
  have base : angOk (restoreApos (escape_html (htmlUnescape (unescapeMd text)))) := by
    obtain ⟨e1, e2, e3⟩ := escape_html_inv (htmlUnescape (unescapeMd text))
    exact restoreApos_inv e1 e2 e3
  rw [inline_format]
  exact subCSpanGo_inv _ _ (subCStrongGo_inv _ _ (subLinkGo_inv cfg hcfg _ _
    (subCodeGo_inv cfg hcfg _ _ (subItalGo_inv _ _ (subBoldGo_inv _ _ base)))))

/-- C4: with a style whose interpolated fields are free of `<`, `>` and
`&`, every `<` in an `inline_format` result is immediately followed by one
of the formatter's own tag starts, every `>` immediately ends one of its
tags, and every `&` begins one of the `html.escape` entities: user-content
angle brackets and ampersands always appear escaped, and the only
unescaped `<`/`>` belong to tags the formatter itself introduces. -/
theorem C4_escaping (cfg : StyleConfig) (hcfg : cfgClean cfg = true) (text : Str) :
    ltOkB (inline_format cfg text) = true ∧ gtOkB (inline_format cfg text) = true ∧
      ampOkB (inline_format cfg text) = true := by
  obtain ⟨hl, hg, ha⟩ := inline_format_angOk cfg hcfg text
  exact ⟨(followsOkB_iff _ _ _).mpr hl, (followsOkB_iff _ _ _).mpr hg,
    (followsOkB_iff _ _ _).mpr ha⟩

/-- Witness for C4 on the default style and a text with raw specials. -/
theorem C4_witness :
    cfgClean academicGray = true ∧
    (ltOkB (inline_format academicGray (str "a<b>c &amp; *d* e")) = true ∧
     gtOkB (inline_format academicGray (str "a<b>c &amp; *d* e")) = true ∧
     ampOkB (inline_format academicGray (str "a<b>c &amp; *d* e")) = true) :=
  ⟨by decide, C4_escaping academicGray (by decide) (str "a<b>c &amp; *d* e")⟩

/-! ## Tag balance (C5): counting `<table`/`</table`, `<ul`/`</ul`,
`<ol`/`</ol`, `<li`/`</li` occurrences in rendered output. -/

/-- Number of positions where `'<'` is immediately followed by `pat`. -/
def countLt (pat : Str) : Str → Nat
  | [] => 0
  | c :: rest => (if c = '<' ∧ pat.isPrefixOf rest then 1 else 0) + countLt pat rest

/-- Followers of `<` inside formatted inline content (the C4 set plus the
`<br>` that paragraph newlines become). -/
def inlineFollowers : List Str := ltFollowers ++ [str "br>"]

/-- Followers of `<` across the whole rendered document: inline content
plus every block-template tag start. -/
def blockFollowers : List Str :=
  inlineFollowers ++
  [str "table width=\"", str "table style=\"", str "/table>", str "tr>", str "/tr>",
   str "td ", str "/td>", str "th ", str "/th>", str "thead>", str "/thead>",
   str "tbody>", str "/tbody>", str "pre ", str "/pre>", str "img ",
   str "h", str "/h", str "p ", str "/p>", str "span ",
   str "ul style=\"", str "/ul>", str "ol style=\"", str "/ol>",
   str "li style=\"", str "/li>"]

/-- The whole-document `<`-follower invariant. -/
def blkOk (l : Str) : Prop := followsOkP blockFollowers '<' l

/-- Net opening count of one tag kind. -/
def net1 (pat cpat : Str) (l : Str) : Int := (countLt pat l : Int) - countLt cpat l

/-- Net opening counts of the four structural tag kinds. -/
def nets (l : Str) : Int × Int × Int × Int :=
  (net1 (str "table") (str "/table") l, net1 (str "ul") (str "/ul") l,
   net1 (str "ol") (str "/ol") l, net1 (str "li") (str "/li") l)

/-- Invariant plus net counts: the workhorse predicate for the balance
proof. -/
def TB (l : Str) (n : Int × Int × Int × Int) : Prop := blkOk l ∧ nets l = n

lemma followsOkP_mono {fs fs' : List Str} {m : Char} {l : Str}
    (hsub : ∀ f ∈ fs, f ∈ fs') (h : followsOkP fs m l) : followsOkP fs' m l := by
  intro a b hab
  obtain ⟨f, hf, hp⟩ := h a b hab
  exact ⟨f, hsub f hf, hp⟩

lemma countLt_append_inv {fs : List Str} {pat x y : Str}
    (hcompat : ∀ f ∈ fs, pat <+: f ∨ (¬ pat <+: f ∧ ¬ f <+: pat))
    (hx : followsOkP fs '<' x) :
    countLt pat (x ++ y) = countLt pat x + countLt pat y := by
  induction x with
  | nil => simp [countLt]
  | cons c x' ih =>
    have hx' : followsOkP fs '<' x' := @followsOkP_suffix _ _ [c] x' hx
    rw [List.cons_append, countLt, countLt, ih hx']
    have hiff : (c = '<' ∧ pat.isPrefixOf (x' ++ y) = true) ↔
        (c = '<' ∧ pat.isPrefixOf x' = true) := by
      constructor
      · rintro ⟨hc, hp⟩
        subst hc
        obtain ⟨f, hf, hfp⟩ := hx [] x' rfl
        rcases hcompat f hf with hcp | ⟨hnp, hnf⟩
        · exact ⟨rfl, List.isPrefixOf_iff_prefix.mpr (hcp.trans hfp)⟩
        · exfalso
          have hp' := List.isPrefixOf_iff_prefix.mp hp
          have hf' : f <+: x' ++ y := hfp.trans (List.prefix_append x' y)
          rcases List.prefix_or_prefix_of_prefix hp' hf' with hh | hh
          · exact hnp hh
          · exact hnf hh
      · rintro ⟨hc, hp⟩
        exact ⟨hc, List.isPrefixOf_iff_prefix.mpr
          ((List.isPrefixOf_iff_prefix.mp hp).trans (List.prefix_append x' y))⟩
    have hite : (if c = '<' ∧ pat.isPrefixOf (x' ++ y) = true then 1 else 0) =
        (if c = '<' ∧ pat.isPrefixOf x' = true then 1 else 0) := by
      by_cases h1 : c = '<' ∧ pat.isPrefixOf (x' ++ y) = true
      · rw [if_pos h1, if_pos (hiff.mp h1)]
      · rw [if_neg h1, if_neg (fun h2 => h1 (hiff.mpr h2))]
    rw [hite]
    omega

lemma countLt_zero_of_follows {fs : List Str} {pat l : Str}
    (hcompat : ∀ f ∈ fs, ¬ pat <+: f ∧ ¬ f <+: pat)
    (hl : followsOkP fs '<' l) : countLt pat l = 0 := by
  induction l with
  | nil => rfl
  | cons c rest ih =>
    rw [countLt]
    have h0 : ¬ (c = '<' ∧ pat.isPrefixOf rest = true) := by
      rintro ⟨hc, hp⟩
      subst hc
      obtain ⟨f, hf, hfp⟩ := hl [] rest rfl
      rcases List.prefix_or_prefix_of_prefix (List.isPrefixOf_iff_prefix.mp hp) hfp with h | h
      · exact (hcompat f hf).1 h
      · exact (hcompat f hf).2 h
    rw [if_neg h0, ih (@followsOkP_suffix _ _ [c] rest hl)]

lemma countLt_zero_no_lt {pat l : Str} (h : '<' ∉ l) : countLt pat l = 0 := by
  induction l with
  | nil => rfl
  | cons c rest ih =>
    rw [countLt]
    have hc : c ≠ '<' := fun hh => h (hh ▸ List.mem_cons_self c rest)
    rw [if_neg (fun hp => hc hp.1), ih (fun hm => h (List.mem_cons_of_mem _ hm))]

lemma net1_append {pat cpat x y : Str}
    (hc1 : ∀ f ∈ blockFollowers, pat <+: f ∨ (¬ pat <+: f ∧ ¬ f <+: pat))
    (hc2 : ∀ f ∈ blockFollowers, cpat <+: f ∨ (¬ cpat <+: f ∧ ¬ f <+: cpat))
    (hbx : blkOk x) :
    net1 pat cpat (x ++ y) = net1 pat cpat x + net1 pat cpat y := by
  rw [net1, net1, net1, countLt_append_inv hc1 hbx, countLt_append_inv hc2 hbx]
  push_cast
  ring

lemma TB_append {x y : Str} {nx ny : Int × Int × Int × Int}
    (hx : TB x nx) (hy : TB y ny) :
    TB (x ++ y) (nx.1 + ny.1, nx.2.1 + ny.2.1, nx.2.2.1 + ny.2.2.1, nx.2.2.2 + ny.2.2.2) := by
  obtain ⟨hbx, hnx⟩ := hx
  obtain ⟨hby, hny⟩ := hy
  subst hnx
  subst hny
  refine ⟨followsOkP_append hbx hby, ?_⟩
  have e1 : net1 (str "table") (str "/table") (x ++ y) =
      net1 (str "table") (str "/table") x + net1 (str "table") (str "/table") y :=
    net1_append (by decide) (by decide) hbx
  have e2 : net1 (str "ul") (str "/ul") (x ++ y) =
      net1 (str "ul") (str "/ul") x + net1 (str "ul") (str "/ul") y :=
    net1_append (by decide) (by decide) hbx
  have e3 : net1 (str "ol") (str "/ol") (x ++ y) =
      net1 (str "ol") (str "/ol") x + net1 (str "ol") (str "/ol") y :=
    net1_append (by decide) (by decide) hbx
  have e4 : net1 (str "li") (str "/li") (x ++ y) =
      net1 (str "li") (str "/li") x + net1 (str "li") (str "/li") y :=
    net1_append (by decide) (by decide) hbx
  simp only [nets]
  rw [e1, e2, e3, e4]

lemma TB_cast {l : Str} {n m : Int × Int × Int × Int} (h : TB l n) (e : n = m) : TB l m :=
  e ▸ h

lemma TB_nil : TB [] (0, 0, 0, 0) :=
  ⟨followsOkP_of_not_mem (by simp), by decide⟩

lemma TB_of_checks {l : Str} {n : Int × Int × Int × Int}
    (hb : followsOkB blockFollowers '<' l = true) (hn : nets l = n) : TB l n :=
  ⟨(followsOkB_iff _ _ _).mp hb, hn⟩

lemma TB_no_lt {l : Str} (h : '<' ∉ l) : TB l (0, 0, 0, 0) := by
  refine ⟨followsOkP_of_not_mem h, ?_⟩
  simp [nets, net1, countLt_zero_no_lt h]

lemma TB_content {l : Str} (h : followsOkP inlineFollowers '<' l) : TB l (0, 0, 0, 0) := by
  refine ⟨followsOkP_mono (by decide) h, ?_⟩
  have z1 : countLt (str "table") l = 0 := countLt_zero_of_follows (by decide) h
  have z2 : countLt (str "/table") l = 0 := countLt_zero_of_follows (by decide) h
  have z3 : countLt (str "ul") l = 0 := countLt_zero_of_follows (by decide) h
  have z4 : countLt (str "/ul") l = 0 := countLt_zero_of_follows (by decide) h
  have z5 : countLt (str "ol") l = 0 := countLt_zero_of_follows (by decide) h
  have z6 : countLt (str "/ol") l = 0 := countLt_zero_of_follows (by decide) h
  have z7 : countLt (str "li") l = 0 := countLt_zero_of_follows (by decide) h
  have z8 : countLt (str "/li") l = 0 := countLt_zero_of_follows (by decide) h
  simp [nets, net1, z1, z2, z3, z4, z5, z6, z7, z8]

lemma TB_of_clean {s : Str} (h : strClean s = true) : TB s (0, 0, 0, 0) := by
  rw [strClean, List.all_eq_true] at h
  exact TB_no_lt (fun hm => by simpa using h '<' hm)

lemma TB_append0 {x y : Str} (hx : TB x (0, 0, 0, 0)) (hy : TB y (0, 0, 0, 0)) :
    TB (x ++ y) (0, 0, 0, 0) :=
  TB_cast (TB_append hx hy) (by decide)

lemma TB_join : ∀ parts : List Str, (∀ p ∈ parts, TB p (0, 0, 0, 0)) →
    TB parts.join (0, 0, 0, 0) := by
  intro parts
  induction parts with
  | nil => intro _; exact TB_nil
  | cons p rest ih =>
    intro h
    exact TB_append0 (h p (List.mem_cons_self p rest))
      (ih (fun q hq => h q (List.mem_cons_of_mem _ hq)))

lemma TB_intersperse {sep : Str} (hsep : TB sep (0, 0, 0, 0)) :
    ∀ parts : List Str, (∀ p ∈ parts, TB p (0, 0, 0, 0)) →
      ∀ q ∈ List.intersperse sep parts, TB q (0, 0, 0, 0) := by
  intro parts
  induction parts with
  | nil =>
    intro _ q hq
    simp [List.intersperse] at hq
  | cons p rest ih =>
    intro h q hq
    cases rest with
    | nil =>
      have he : List.intersperse sep [p] = [p] := rfl
      rw [he, List.mem_singleton] at hq
      exact hq ▸ h p (List.mem_cons_self p [])
    | cons r rrest =>
      have he : List.intersperse sep (p :: r :: rrest) =
          p :: sep :: List.intersperse sep (r :: rrest) := rfl
      rw [he] at hq
      rcases List.mem_cons.mp hq with h1 | h1
      · exact h1 ▸ h p (List.mem_cons_self p (r :: rrest))
      · rcases List.mem_cons.mp h1 with h2 | h2
        · exact h2 ▸ hsep
        · exact ih (fun x hx => h x (List.mem_cons_of_mem _ hx)) q h2

lemma TB_pyJoin {sep : Str} (hsep : TB sep (0, 0, 0, 0)) :
    ∀ parts : List Str, (∀ p ∈ parts, TB p (0, 0, 0, 0)) →
      TB (pyJoin sep parts) (0, 0, 0, 0) := by
  intro parts hall
  rw [pyJoin, List.intercalate]
  exact TB_join _ (TB_intersperse hsep parts hall)

lemma digitChar_ne_lt (n : Nat) : Nat.digitChar n ≠ '<' := by
  rcases Nat.lt_or_ge n 16 with h | h
  · interval_cases n <;> decide
  · unfold Nat.digitChar
    rw [if_neg (by omega : ¬ n = 0), if_neg (by omega : ¬ n = 1), if_neg (by omega : ¬ n = 2),
      if_neg (by omega : ¬ n = 3), if_neg (by omega : ¬ n = 4), if_neg (by omega : ¬ n = 5),
      if_neg (by omega : ¬ n = 6), if_neg (by omega : ¬ n = 7), if_neg (by omega : ¬ n = 8),
      if_neg (by omega : ¬ n = 9), if_neg (by omega : ¬ n = 10), if_neg (by omega : ¬ n = 11),
      if_neg (by omega : ¬ n = 12), if_neg (by omega : ¬ n = 13), if_neg (by omega : ¬ n = 14),
      if_neg (by omega : ¬ n = 15)]
    decide

lemma toDigitsCore_ne_lt (b : Nat) : ∀ (fuel n : Nat) (acc : List Char),
    (∀ c ∈ acc, c ≠ '<') → ∀ c ∈ Nat.toDigitsCore b fuel n acc, c ≠ '<' := by
  intro fuel
  induction fuel with
  | zero => intro n acc hacc; exact hacc
  | succ fuel ih =>
    intro n acc hacc
    rw [Nat.toDigitsCore]
    have hcons : ∀ c ∈ Nat.digitChar (n % b) :: acc, c ≠ '<' := by
      intro c hc
      rcases List.mem_cons.mp hc with h | h
      · exact h ▸ digitChar_ne_lt (n % b)
      · exact hacc c h
    split
    · exact hcons
    · exact ih (n / b) _ hcons

lemma natToStr_ne_lt (n : Nat) : '<' ∉ natToStr n := by
  intro hm
  have h : ∀ c ∈ Nat.toDigits 10 n, c ≠ '<' :=
    toDigitsCore_ne_lt 10 (n + 1) n [] (by simp)
  have e : natToStr n = Nat.toDigits 10 n := rfl
  rw [e] at hm
  exact h '<' hm rfl

lemma TB_natToStr (n : Nat) : TB (natToStr n) (0, 0, 0, 0) := TB_no_lt (natToStr_ne_lt n)

lemma replaceGo_follows {p : Char} {ps repl : Str} {fs : List Str} {m : Char}
    (hmp : m ≠ p) (hrepl : followsOkP fs m repl) (hfs : ∀ f ∈ fs, p ∉ f) :
    ∀ (fuel : Nat) (l : Str), followsOkP fs m l →
      followsOkP fs m (replaceGo p ps repl fuel l) := by
  intro fuel
  induction fuel with
  | zero =>
    intro l h
    cases l with
    | nil => exact h
    | cons c rest => exact h
  | succ fuel ih =>
    intro l h
    cases l with
    | nil => exact h
    | cons c rest =>
      have hsuf : followsOkP fs m rest := @followsOkP_suffix _ _ [c] rest h
      rw [replaceGo]
      split
      · have hdrop : followsOkP fs m (rest.drop ps.length) := by
          rw [← List.take_append_drop ps.length rest] at hsuf
          exact followsOkP_suffix hsuf
        exact followsOkP_append hrepl (ih _ hdrop)
      · by_cases hc : c = m
        · subst hc
          obtain ⟨f, hf, hfp⟩ := h [] rest rfl
          exact followsOkP_cons_mark ⟨f, hf, replaceGo_front f (hfs f hf) fuel rest hfp⟩
            (ih _ hsuf)
        · exact followsOkP_cons_ne hc (ih _ hsuf)

/-- The style fields, for the whole-config cleanliness hypothesis. -/
def cfgFields (cfg : StyleConfig) : List Str :=
  [cfg.name, cfg.header_bg_color, cfg.header_text_color, cfg.header_font_size,
   cfg.card_bg_color, cfg.card_border_color, cfg.card_text_color,
   cfg.h2_h3_card_bg_color, cfg.h2_h3_card_border_color, cfg.h2_title_line_color,
   cfg.h2_title_text_color, cfg.h2_title_font_size, cfg.h3_title_bg_color,
   cfg.h3_title_border_color, cfg.h3_title_text_color, cfg.h3_title_font_size,
   cfg.code_bg_color, cfg.code_border_color, cfg.code_text_color,
   cfg.inline_code_bg_color, cfg.inline_code_text_color, cfg.paragraph_font_size,
   cfg.paragraph_line_height, cfg.paragraph_color, cfg.blockquote_bg_color,
   cfg.blockquote_border_color, cfg.blockquote_text_color, cfg.table_header_bg_color,
   cfg.table_border_color, cfg.link_color, cfg.meta_text_color, cfg.meta_font_size,
   cfg.source_text_color, cfg.source_font_size]

/-- Every style field is free of `<`, `>` and `&`. -/
def cfgCleanAll (cfg : StyleConfig) : Bool := (cfgFields cfg).all strClean

lemma cfgField_clean {cfg : StyleConfig} (h : cfgCleanAll cfg = true) {s : Str}
    (hs : s ∈ cfgFields cfg) : strClean s = true :=
  List.all_eq_true.mp (by rwa [cfgCleanAll] at h) s hs

lemma cfgClean_of_all {cfg : StyleConfig} (h : cfgCleanAll cfg = true) :
    cfgClean cfg = true := by
  rw [cfgClean, cfgField_clean h (by simp [cfgFields]), cfgField_clean h (by simp [cfgFields]),
    cfgField_clean h (by simp [cfgFields])]
  rfl

lemma TB_inline {cfg : StyleConfig} (hcfg : cfgCleanAll cfg = true) (text : Str) :
    TB (inline_format cfg text) (0, 0, 0, 0) :=
  TB_content (followsOkP_mono (by decide)
    (inline_format_angOk cfg (cfgClean_of_all hcfg) text).1)

lemma TB_escape (s : Str) : TB (escape_html s) (0, 0, 0, 0) :=
  TB_no_lt (escape_html_inv s).1

set_option maxRecDepth 40000
set_option maxHeartbeats 1600000

lemma TB_self {l : Str} (hb : followsOkB blockFollowers '<' l = true) : TB l (nets l) :=
  ⟨(followsOkB_iff _ _ _).mp hb, rfl⟩

lemma notLt_of_clean {s : Str} (h : strClean s = true) : '<' ∉ s := by
  rw [strClean, List.all_eq_true] at h
  exact fun hm => by simpa using h '<' hm

lemma TB_codeLine (mi i : Nat) (line : Str) : TB (codeLine mi i line) (0, 0, 0, 0) := by
  rw [codeLine]
  have hc1 : '<' ∉ escape_html (if mi ≤ line.length then line.drop mi else line) :=
    (escape_html_inv _).1
  have e4 : ∀ m : Str, pyReplace (str "    ") (str "&nbsp;&nbsp;&nbsp;&nbsp;") m =
      replaceGo ' ' (str "   ") (str "&nbsp;&nbsp;&nbsp;&nbsp;") m.length m := fun _ => rfl
  have e2 : ∀ m : Str, pyReplace (str "  ") (str "&nbsp;&nbsp;") m =
      replaceGo ' ' (str " ") (str "&nbsp;&nbsp;") m.length m := fun _ => rfl
  have hc2 : '<' ∉ pyReplace (str "    ") (str "&nbsp;&nbsp;&nbsp;&nbsp;")
      (escape_html (if mi ≤ line.length then line.drop mi else line)) := by
    rw [e4]
    exact replaceGo_not_mem (by decide) _ _ hc1
  have hc3 : '<' ∉ pyReplace (str "  ") (str "&nbsp;&nbsp;")
      (pyReplace (str "    ") (str "&nbsp;&nbsp;&nbsp;&nbsp;")
        (escape_html (if mi ≤ line.length then line.drop mi else line))) := by
    rw [e2]
    exact replaceGo_not_mem (by decide) _ _ hc2
  simp only [List.append_assoc]
  exact TB_append0 (TB_of_checks (by decide) (by decide))
    (TB_append0 (TB_natToStr i)
      (TB_append0 (TB_of_checks (by decide) (by decide)) (TB_no_lt hc3)))

lemma TB_codeLines (mi : Nat) : ∀ (lines : List Str) (i : Nat),
    ∀ l ∈ codeLines mi i lines, TB l (0, 0, 0, 0) := by
  intro lines
  induction lines with
  | nil => intro i l hl; simp [codeLines] at hl
  | cons x rest ih =>
    intro i l hl
    rw [codeLines] at hl
    rcases List.mem_cons.mp hl with h | h
    · exact h ▸ TB_codeLine mi i x
    · exact ih (i + 1) l h

lemma TB_format_code_block {cfg : StyleConfig} (hcfg : cfgCleanAll cfg = true)
    (code lang : Str) : TB (format_code_block cfg code lang) (0, 0, 0, 0) := by
  rw [format_code_block]
  split
  · exact TB_nil
  · have hcode : TB (pyJoin (str "<br>\n")
        (codeLines (minIndentOf (dropTrailingBlank (pySplit '\n' code))) 1
          (dropTrailingBlank (pySplit '\n' code)))) (0, 0, 0, 0) :=
      TB_pyJoin (TB_of_checks (by decide) (by decide)) _
        (TB_codeLines _ _ 1)
    simp only [List.append_assoc]
    exact TB_cast (TB_append (TB_self (by decide))
      (TB_append (TB_self (by decide))
        (TB_append (TB_of_clean (cfgField_clean hcfg (by simp [cfgFields])))
          (TB_append (TB_self (by decide))
            (TB_append (TB_of_clean (cfgField_clean hcfg (by simp [cfgFields])))
              (TB_append (TB_self (by decide))
                (TB_append (TB_self (by decide))
                  (TB_append (TB_of_clean (cfgField_clean hcfg (by simp [cfgFields])))
                    (TB_append (TB_self (by decide))
                      (TB_append hcode (TB_self (by decide)))))))))))) (by decide)

lemma TB_process_image {src : Str} (alt title : Str) (k : Nat) (hsrc : '<' ∉ src) :
    TB (process_image src alt title k) (0, 0, 0, 0) := by
  rw [process_image]
  have halt : TB (if alt.isEmpty then [] else str " alt=\"" ++ escape_html alt ++ str "\"")
      (0, 0, 0, 0) := by
    split
    · exact TB_nil
    · simp only [List.append_assoc]
      exact TB_append0 (TB_of_checks (by decide) (by decide))
        (TB_append0 (TB_escape alt) (TB_of_checks (by decide) (by decide)))
  have httl : TB (if title.isEmpty then [] else str " title=\"" ++ escape_html title ++ str "\"")
      (0, 0, 0, 0) := by
    split
    · exact TB_nil
    · simp only [List.append_assoc]
      exact TB_append0 (TB_of_checks (by decide) (by decide))
        (TB_append0 (TB_escape title) (TB_of_checks (by decide) (by decide)))
  simp only [List.append_assoc]
  exact TB_cast (TB_append (TB_self (by decide))
    (TB_append (TB_self (by decide))
      (TB_append (TB_self (by decide))
        (TB_append (TB_no_lt hsrc)
          (TB_append (TB_self (by decide))
            (TB_append halt
              (TB_append httl
                (TB_append (TB_self (by decide)) (TB_self (by decide)))))))))) (by decide)

lemma TB_convert_heading {cfg : StyleConfig} (hcfg : cfgCleanAll cfg = true)
    (text : Str) (level : Nat) : TB (convert_heading cfg text level) (0, 0, 0, 0) := by
  rw [convert_heading]
  have ht := TB_inline hcfg text
  split_ifs
  · simp only [List.append_assoc]
    exact TB_cast (TB_append (TB_self (by decide)) (TB_append (TB_self (by decide)) (TB_append
      (TB_self (by decide)) (TB_append (TB_of_clean (cfgField_clean hcfg (by simp [cfgFields])))
      (TB_append (TB_self (by decide)) (TB_append (ht) (TB_append (TB_self (by decide)) (TB_self
      (by decide))))))))) (by decide)
  · simp only [List.append_assoc]
    exact TB_cast (TB_append (TB_self (by decide)) (TB_append (TB_self (by decide)) (TB_append
      (TB_of_clean (cfgField_clean hcfg (by simp [cfgFields]))) (TB_append (TB_self (by decide))
      (TB_append (TB_self (by decide)) (TB_append (TB_of_clean (cfgField_clean hcfg (by simp
      [cfgFields]))) (TB_append (TB_self (by decide)) (TB_append (TB_of_clean (cfgField_clean
      hcfg (by simp [cfgFields]))) (TB_append (TB_self (by decide)) (TB_append (ht) (TB_append
      (TB_self (by decide)) (TB_self (by decide))))))))))))) (by decide)
  · have hbg : '<' ∉ pyReplace (str "#") [] cfg.h3_title_bg_color := by
      have e : ∀ m : Str, pyReplace (str "#") ([] : Str) m =
          replaceGo '#' [] [] m.length m := fun _ => rfl
      rw [e]
      exact replaceGo_not_mem (by decide) _ _
        (notLt_of_clean (cfgField_clean hcfg (by simp [cfgFields])))
    simp only [List.append_assoc]
    exact TB_cast (TB_append (TB_self (by decide)) (TB_append (TB_no_lt hbg) (TB_append (TB_self
      (by decide)) (TB_append (TB_self (by decide)) (TB_append (TB_of_clean (cfgField_clean hcfg
      (by simp [cfgFields]))) (TB_append (TB_self (by decide)) (TB_append (TB_of_clean
      (cfgField_clean hcfg (by simp [cfgFields]))) (TB_append (TB_self (by decide)) (TB_append
      (TB_of_clean (cfgField_clean hcfg (by simp [cfgFields]))) (TB_append (TB_self (by decide))
      (TB_append (ht) (TB_self (by decide))))))))))))) (by decide)
  · simp only [List.append_assoc]
    exact TB_cast (TB_append (TB_self (by decide)) (TB_append (TB_natToStr level) (TB_append
      (TB_self (by decide)) (TB_append (TB_natToStr (max 14 (18 - (level - 4) * 2))) (TB_append
      (TB_self (by decide)) (TB_append (TB_of_clean (cfgField_clean hcfg (by simp [cfgFields])))
      (TB_append (TB_self (by decide)) (TB_append (ht) (TB_append (TB_self (by decide))
      (TB_append (TB_natToStr level) (TB_self (by decide)))))))))))) (by decide)

lemma TB_convert_paragraph {cfg : StyleConfig} (hcfg : cfgCleanAll cfg = true)
    (text : Str) (isRef : Bool) : TB (convert_paragraph cfg text isRef) (0, 0, 0, 0) := by
  rw [convert_paragraph]
  have h0 : followsOkP inlineFollowers '<' (inline_format cfg text) :=
    followsOkP_mono (by decide) (inline_format_angOk cfg (cfgClean_of_all hcfg) text).1
  have e : ∀ m : Str, pyReplace (str "\n") (str "<br>") m =
      replaceGo '\n' [] (str "<br>") m.length m := fun _ => rfl
  have ht : TB (pyReplace (str "\n") (str "<br>") (inline_format cfg text)) (0, 0, 0, 0) := by
    rw [e]
    exact TB_content (replaceGo_follows (by decide) ((followsOkB_iff _ _ _).mp (by decide))
      (by decide) _ _ h0)
  have hite : TB (if isRef then str "font-size:0.85em;color:#888888;" else []) (0, 0, 0, 0) := by
    split
    · exact TB_of_checks (by decide) (by decide)
    · exact TB_nil
  simp only [List.append_assoc]
  exact TB_append0 (TB_of_checks (by decide) (by decide))
    (TB_append0 (TB_of_checks (by decide) (by decide))
      (TB_append0 (TB_of_clean (cfgField_clean hcfg (by simp [cfgFields])))
        (TB_append0 (TB_of_checks (by decide) (by decide))
          (TB_append0 (TB_of_clean (cfgField_clean hcfg (by simp [cfgFields])))
            (TB_append0 (TB_of_checks (by decide) (by decide))
              (TB_append0 (TB_of_clean (cfgField_clean hcfg (by simp [cfgFields])))
                (TB_append0 (TB_of_checks (by decide) (by decide))
                  (TB_append0 hite
                    (TB_append0 (TB_of_checks (by decide) (by decide))
                      (TB_append0 ht (TB_of_checks (by decide) (by decide))))))))))))

lemma TB_convert_horizontal_rule {cfg : StyleConfig} (hcfg : cfgCleanAll cfg = true) :
    TB (convert_horizontal_rule cfg) (0, 0, 0, 0) := by
  rw [convert_horizontal_rule]
  simp only [List.append_assoc]
  exact TB_cast (TB_append (TB_self (by decide))
    (TB_append (TB_self (by decide))
      (TB_append (TB_of_clean (cfgField_clean hcfg (by simp [cfgFields])))
        (TB_append (TB_self (by decide)) (TB_self (by decide)))))) (by decide)

lemma TB_convert_blockquote {cfg : StyleConfig} (hcfg : cfgCleanAll cfg = true)
    (text : Str) (isRef : Bool) : TB (convert_blockquote cfg text isRef) (0, 0, 0, 0) := by
  rw [convert_blockquote]
  have ht := TB_inline hcfg text
  simp only [List.append_assoc]
  exact TB_cast (TB_append (TB_self (by decide)) (TB_append (TB_self (by decide)) (TB_append
    (TB_of_clean (cfgField_clean hcfg (by simp [cfgFields]))) (TB_append (TB_self (by decide))
    (TB_append (TB_of_clean (cfgField_clean hcfg (by simp [cfgFields]))) (TB_append (TB_self (by
    decide)) (TB_append (TB_self (by decide)) (TB_append (TB_of_clean (cfgField_clean hcfg (by
    simp [cfgFields]))) (TB_append (TB_self (by decide)) (TB_append (ht) (TB_self (by
    decide)))))))))))) (by decide)

lemma TB_str (l : Str) (hb : followsOkB blockFollowers '<' l = true) : TB l (nets l) :=
  TB_self hb

lemma TB_listTagWrap {cfg : StyleConfig} (hcfg : cfgCleanAll cfg = true) (o isRef : Bool)
    {inner : Str} (hinner : TB inner (0, 0, 0, 0)) :
    TB (listTagWrap cfg o isRef inner) (0, 0, 0, 0) := by
  cases o with
  | false =>
    cases isRef with
    | false =>
      have he : listTagWrap cfg false false inner =
          str "<ul style=\"margin:16px 0;padding-left:28px;color:" ++
            (cfg.paragraph_color ++ (str ";\">" ++ (inner ++ str "</ul>"))) := by
        simp only [listTagWrap, List.append_assoc, List.append_nil, List.nil_append,
          Bool.false_eq_true, ite_false, ite_true, eq_self_iff_true]
        rfl
      rw [he]
      exact TB_cast (TB_append (TB_str (str "<ul style=\"margin:16px 0;padding-left:28px;color:")
        (by decide)) (TB_append (TB_of_clean (cfgField_clean hcfg (by simp [cfgFields])))
          (TB_append (TB_str (str ";\">") (by decide))
            (TB_append hinner (TB_str (str "</ul>") (by decide)))))) (by decide)
    | true =>
      have he : listTagWrap cfg false true inner =
          str "<ul style=\"margin:16px 0;padding-left:28px;color:" ++
            (cfg.paragraph_color ++ (str ";font-size:0.85em;color:#888888;\">" ++
              (inner ++ str "</ul>"))) := by
        simp only [listTagWrap, List.append_assoc, List.append_nil, List.nil_append,
          Bool.false_eq_true, ite_false, ite_true, eq_self_iff_true]
        rfl
      rw [he]
      exact TB_cast (TB_append (TB_str (str "<ul style=\"margin:16px 0;padding-left:28px;color:")
        (by decide)) (TB_append (TB_of_clean (cfgField_clean hcfg (by simp [cfgFields])))
          (TB_append (TB_str (str ";font-size:0.85em;color:#888888;\">") (by decide))
            (TB_append hinner (TB_str (str "</ul>") (by decide)))))) (by decide)
  | true =>
    cases isRef with
    | false =>
      have he : listTagWrap cfg true false inner =
          str "<ol style=\"margin:16px 0;padding-left:28px;color:" ++
            (cfg.paragraph_color ++ (str ";\">" ++ (inner ++ str "</ol>"))) := by
        simp only [listTagWrap, List.append_assoc, List.append_nil, List.nil_append,
          Bool.false_eq_true, ite_false, ite_true, eq_self_iff_true]
        rfl
      rw [he]
      exact TB_cast (TB_append (TB_str (str "<ol style=\"margin:16px 0;padding-left:28px;color:")
        (by decide)) (TB_append (TB_of_clean (cfgField_clean hcfg (by simp [cfgFields])))
          (TB_append (TB_str (str ";\">") (by decide))
            (TB_append hinner (TB_str (str "</ol>") (by decide)))))) (by decide)
    | true =>
      have he : listTagWrap cfg true true inner =
          str "<ol style=\"margin:16px 0;padding-left:28px;color:" ++
            (cfg.paragraph_color ++ (str ";font-size:0.85em;color:#888888;\">" ++
              (inner ++ str "</ol>"))) := by
        simp only [listTagWrap, List.append_assoc, List.append_nil, List.nil_append,
          Bool.false_eq_true, ite_false, ite_true, eq_self_iff_true]
        rfl
      rw [he]
      exact TB_cast (TB_append (TB_str (str "<ol style=\"margin:16px 0;padding-left:28px;color:")
        (by decide)) (TB_append (TB_of_clean (cfgField_clean hcfg (by simp [cfgFields])))
          (TB_append (TB_str (str ";font-size:0.85em;color:#888888;\">") (by decide))
            (TB_append hinner (TB_str (str "</ol>") (by decide)))))) (by decide)

lemma TB_listItemsGo {cfg : StyleConfig} (hcfg : cfgCleanAll cfg = true) (isRef : Bool) :
    ∀ entries : LEntries, TB (listItemsGo cfg isRef entries) (0, 0, 0, 0) := by
  intro entries
  induction entries with
  | nil => exact TB_nil
  | cons t ch chOrd rest ihch ihrest =>
    rw [listItemsGo]
    simp only [List.append_assoc]
    split
    · exact TB_cast (TB_append
        (TB_str (str "<li style=\"margin:10px 0;line-height:1.8;font-size:15px;\">") (by decide))
        (TB_append (TB_inline hcfg t)
          (TB_append (TB_str (str "</li>") (by decide)) ihrest))) (by decide)
    · simp only [List.append_assoc]
      exact TB_cast (TB_append
        (TB_str (str "<li style=\"margin:10px 0;line-height:1.8;font-size:15px;\">") (by decide))
        (TB_append (TB_inline hcfg t)
          (TB_append (TB_listTagWrap hcfg (chOrd.getD false) isRef ihch)
            (TB_append (TB_str (str "</li>") (by decide)) ihrest)))) (by decide)

lemma TB_convert_list {cfg : StyleConfig} (hcfg : cfgCleanAll cfg = true)
    (entries : LEntries) (o isRef : Bool) :
    TB (convert_list cfg entries o isRef) (0, 0, 0, 0) := by
  rw [convert_list]
  exact TB_listTagWrap hcfg o isRef (TB_listItemsGo hcfg isRef entries)

lemma getD_clean {aligns : List Str} (h : ∀ a ∈ aligns, strClean a = true) (i : Nat) :
    strClean (aligns.getD i (str "left")) = true := by
  rw [List.getD]
  cases hg : aligns.get? i with
  | none => decide
  | some a =>
    have := h a (List.get?_mem hg)
    simpa using this

lemma TB_tableCellHtml {cfg : StyleConfig} (hcfg : cfgCleanAll cfg = true)
    {aligns : List Str} (haligns : ∀ a ∈ aligns, strClean a = true)
    (isHeader : Bool) {rowBg : Str} (hbg : strClean rowBg = true) (colIdx : Nat) (cell : Str) :
    TB (tableCellHtml cfg aligns isHeader rowBg colIdx cell) (0, 0, 0, 0) := by
  rw [tableCellHtml]
  have hal := TB_of_clean (getD_clean haligns colIdx)
  have hcell := TB_inline hcfg cell
  split
  · simp only [List.append_assoc]
    exact TB_cast (TB_append (TB_str (str "<th style=\"") (by decide))
      (TB_append (TB_str (str "padding:12px 16px;") (by decide))
        (TB_append (TB_str (str "border:1px solid ") (by decide))
          (TB_append (TB_of_clean (cfgField_clean hcfg (by simp [cfgFields])))
            (TB_append (TB_str (str ";") (by decide))
              (TB_append (TB_str (str "text-align:") (by decide))
                (TB_append hal
                  (TB_append (TB_str (str ";") (by decide))
                    (TB_append (TB_str (str "background-color:") (by decide))
                      (TB_append (TB_of_clean (cfgField_clean hcfg (by simp [cfgFields])))
                        (TB_append (TB_str (str ";font-weight:bold;color:") (by decide))
                          (TB_append (TB_of_clean (cfgField_clean hcfg (by simp [cfgFields])))
                            (TB_append (TB_str (str ";font-size:15px;\">") (by decide))
                              (TB_append hcell
                                (TB_str (str "</th>") (by decide)))))))))))))))) (by decide)
  · simp only [List.append_assoc]
    exact TB_cast (TB_append (TB_str (str "<td style=\"") (by decide))
      (TB_append (TB_str (str "padding:12px 16px;") (by decide))
        (TB_append (TB_str (str "border:1px solid ") (by decide))
          (TB_append (TB_of_clean (cfgField_clean hcfg (by simp [cfgFields])))
            (TB_append (TB_str (str ";") (by decide))
              (TB_append (TB_str (str "text-align:") (by decide))
                (TB_append hal
                  (TB_append (TB_str (str ";") (by decide))
                    (TB_append (TB_str (str "background-color:") (by decide))
                      (TB_append (TB_no_lt (notLt_of_clean hbg))
                        (TB_append (TB_str (str ";color:") (by decide))
                          (TB_append (TB_of_clean (cfgField_clean hcfg (by simp [cfgFields])))
                            (TB_append (TB_str (str ";font-size:14px;line-height:1.6;\">")
                              (by decide))
                              (TB_append hcell
                                (TB_str (str "</td>") (by decide)))))))))))))))) (by decide)

lemma TB_tableRowCells {cfg : StyleConfig} (hcfg : cfgCleanAll cfg = true)
    {aligns : List Str} (haligns : ∀ a ∈ aligns, strClean a = true)
    (isHeader : Bool) {rowBg : Str} (hbg : strClean rowBg = true) :
    ∀ (cells : List Str) (colIdx : Nat),
      TB (tableRowCells cfg aligns isHeader rowBg colIdx cells) (0, 0, 0, 0) := by
  intro cells
  induction cells with
  | nil => intro colIdx; exact TB_nil
  | cons c rest ih =>
    intro colIdx
    rw [tableRowCells]
    exact TB_append0 (TB_tableCellHtml hcfg haligns isHeader hbg colIdx c) (ih (colIdx + 1))

lemma TB_tableRowsHtml {cfg : StyleConfig} (hcfg : cfgCleanAll cfg = true)
    {aligns : List Str} (haligns : ∀ a ∈ aligns, strClean a = true) :
    ∀ (rows : List (List Str × Bool)) (idx : Nat),
      TB (tableRowsHtml cfg aligns rows idx).1 (0, 0, 0, 0) ∧
      TB (tableRowsHtml cfg aligns rows idx).2 (0, 0, 0, 0) := by
  intro rows
  induction rows with
  | nil => intro idx; exact ⟨TB_nil, TB_nil⟩
  | cons row rest ih =>
    intro idx
    obtain ⟨cells, isHeader⟩ := row
    obtain ⟨ih1, ih2⟩ := ih (idx + 1)
    have hbg : strClean (if idx % 2 = 0 then str "#FFFFFF" else str "#F8F9FA") = true := by
      split <;> decide
    have hrow : TB (str "<tr>" ++
        tableRowCells cfg aligns isHeader
          (if idx % 2 = 0 then str "#FFFFFF" else str "#F8F9FA") 0 cells ++
        str "</tr>") (0, 0, 0, 0) :=
      TB_append0 (TB_append0 (TB_of_checks (by decide) (by decide))
        (TB_tableRowCells hcfg haligns isHeader hbg cells 0))
        (TB_of_checks (by decide) (by decide))
    rw [tableRowsHtml]
    cases hrec : tableRowsHtml cfg aligns rest (idx + 1) with
    | mk hh bh =>
      rw [hrec] at ih1 ih2
      dsimp only at ih1 ih2 ⊢
      split
      · constructor
        · split
          · exact hrow
          · exact ih1
        · exact ih2
      · exact ⟨ih1, TB_append0 hrow ih2⟩

lemma TB_convert_table {cfg : StyleConfig} (hcfg : cfgCleanAll cfg = true)
    {rows : List (List Str × Bool)} {aligns : List Str}
    (haligns : ∀ a ∈ aligns, strClean a = true) (isRef : Bool) :
    TB (convert_table cfg rows aligns isRef) (0, 0, 0, 0) := by
  rw [convert_table]
  split
  · exact TB_nil
  · obtain ⟨h1, h2⟩ := TB_tableRowsHtml hcfg haligns rows 0
    cases hrec : tableRowsHtml cfg aligns rows 0 with
    | mk hh bh =>
      rw [hrec] at h1 h2
      dsimp only at h1 h2
      dsimp only
      have hthead : TB (if hh.isEmpty then [] else str "<thead>" ++ hh ++ str "</thead>")
          (0, 0, 0, 0) := by
        split
        · exact TB_nil
        · exact TB_append0 (TB_append0 (TB_of_checks (by decide) (by decide)) h1)
            (TB_of_checks (by decide) (by decide))
      have htbody : TB (if bh.isEmpty then [] else str "<tbody>" ++ bh ++ str "</tbody>")
          (0, 0, 0, 0) := by
        split
        · exact TB_nil
        · exact TB_append0 (TB_append0 (TB_of_checks (by decide) (by decide)) h2)
            (TB_of_checks (by decide) (by decide))
      simp only [List.append_assoc]
      exact TB_cast (TB_append (TB_self (by decide))
        (TB_append (TB_self (by decide))
          (TB_append (TB_of_clean (cfgField_clean hcfg (by simp [cfgFields])))
            (TB_append (TB_self (by decide))
              (TB_append (TB_self (by decide))
                (TB_append hthead
                  (TB_append htbody
                    (TB_append (TB_self (by decide))
                      (TB_self (by decide)))))))))) (by decide)

lemma TB_cardWrap {cfg : StyleConfig} (hcfg : cfgCleanAll cfg = true) (isRef : Bool)
    {cardHtml : Str} (hcard : TB cardHtml (0, 0, 0, 0)) :
    TB (cardWrap cfg isRef cardHtml) (0, 0, 0, 0) := by
  rw [cardWrap]
  have hbg : '<' ∉ pyReplace (str "#") [] cfg.h2_h3_card_bg_color := by
    have e : ∀ m : Str, pyReplace (str "#") ([] : Str) m =
        replaceGo '#' [] [] m.length m := fun _ => rfl
    rw [e]
    exact replaceGo_not_mem (by decide) _ _
      (notLt_of_clean (cfgField_clean hcfg (by simp [cfgFields])))
  have hite : TB (if isRef then str ";line-height:1.9;font-size:0.85em;color:#888888;\">"
      else str ";line-height:1.9;\">") (0, 0, 0, 0) := by
    split
    · exact TB_of_checks (by decide) (by decide)
    · exact TB_of_checks (by decide) (by decide)
  simp only [List.append_assoc]
  exact TB_cast (TB_append (TB_self (by decide))
    (TB_append (TB_no_lt hbg)
      (TB_append (TB_self (by decide))
        (TB_append (TB_self (by decide))
          (TB_append (TB_of_clean (cfgField_clean hcfg (by simp [cfgFields])))
            (TB_append hite
              (TB_append hcard (TB_self (by decide))))))))) (by decide)

/-- An image token whose raw-interpolated `src` is free of `<`. -/
def tokImgOkB : Tok → Bool
  | Tok.image src _ _ => src.all fun c => !(c = '<')
  | _ => true

/-- Separator and grouped-table tokens carry clean alignment strings. -/
def tokAlignsOkB : Tok → Bool
  | Tok.table_separator a => a.all strClean
  | Tok.gtable _ a => a.all strClean
  | _ => true

lemma imgTok_not_lt {src alt ttl : Str} (h : tokImgOkB (Tok.image src alt ttl) = true) :
    '<' ∉ src := by
  rw [tokImgOkB, List.all_eq_true] at h
  exact fun hm => by simpa using h '<' hm

lemma TB_cardItem {cfg : StyleConfig} (hcfg : cfgCleanAll cfg = true) (isRef : Bool)
    {t : Tok} (himg : tokImgOkB t = true) (hal : tokAlignsOkB t = true)
    {h : Str} (hh : cardItemHtml cfg isRef t = some h) : TB h (0, 0, 0, 0) := by
  cases t with
  | heading text lvl =>
    rw [cardItemHtml] at hh
    injection hh with hh
    exact hh ▸ TB_convert_heading hcfg text lvl
  | paragraph text =>
    rw [cardItemHtml] at hh
    split at hh
    · exact absurd hh (by simp)
    · injection hh with hh
      exact hh ▸ TB_convert_paragraph hcfg text isRef
  | code c lang =>
    rw [cardItemHtml] at hh
    injection hh with hh
    exact hh ▸ TB_format_code_block hcfg c lang
  | image src alt ttl =>
    rw [cardItemHtml] at hh
    injection hh with hh
    exact hh ▸ TB_process_image alt ttl 0 (imgTok_not_lt himg)
  | glist entries o =>
    rw [cardItemHtml] at hh
    split at hh
    · exact absurd hh (by simp)
    · injection hh with hh
      exact hh ▸ TB_convert_list hcfg entries o isRef
  | gtable rows aligns =>
    rw [cardItemHtml] at hh
    split at hh
    · exact absurd hh (by simp)
    · injection hh with hh
      rw [tokAlignsOkB, List.all_eq_true] at hal
      exact hh ▸ TB_convert_table hcfg hal isRef
  | horizontal_rule =>
    rw [cardItemHtml] at hh
    injection hh with hh
    exact hh ▸ TB_convert_horizontal_rule hcfg
  | blockquote text =>
    rw [cardItemHtml] at hh
    injection hh with hh
    exact hh ▸ TB_convert_blockquote hcfg text isRef
  | list_item text ind o => exact absurd hh (by simp [cardItemHtml])
  | table_row cells => exact absurd hh (by simp [cardItemHtml])
  | table_separator a => exact absurd hh (by simp [cardItemHtml])

lemma TB_nonCardItem {cfg : StyleConfig} (hcfg : cfgCleanAll cfg = true) (isRef : Bool)
    {t : Tok} (himg : tokImgOkB t = true) (hal : tokAlignsOkB t = true) :
    TB (nonCardItemHtml cfg isRef t) (0, 0, 0, 0) := by
  cases t with
  | paragraph text => exact TB_convert_paragraph hcfg text isRef
  | code c lang => exact TB_format_code_block hcfg c lang
  | image src alt ttl => exact TB_process_image alt ttl 0 (imgTok_not_lt himg)
  | glist entries o => exact TB_convert_list hcfg entries o isRef
  | gtable rows aligns =>
    rw [tokAlignsOkB, List.all_eq_true] at hal
    exact TB_convert_table hcfg hal isRef
  | horizontal_rule => exact TB_convert_horizontal_rule hcfg
  | blockquote text => exact TB_convert_blockquote hcfg text isRef
  | heading text lvl => exact TB_nil
  | list_item text ind o => exact TB_nil
  | table_row cells => exact TB_nil
  | table_separator a => exact TB_nil

lemma TB_sectionHtml {cfg : StyleConfig} (hcfg : cfgCleanAll cfg = true) (s : Sec)
    (hits : ∀ t ∈ s.items, tokImgOkB t = true ∧ tokAlignsOkB t = true) :
    TB (sectionHtml cfg s) (0, 0, 0, 0) := by
  rw [sectionHtml]
  have htitle : TB (if ¬ s.title.isEmpty ∧ 0 < s.level then
      convert_heading cfg s.title s.level else []) (0, 0, 0, 0) := by
    split
    · exact TB_convert_heading hcfg _ _
    · exact TB_nil
  split
  · refine TB_append0 htitle ?_
    split
    · exact TB_nil
    · refine TB_cardWrap hcfg _ (TB_join _ ?_)
      intro p hp
      obtain ⟨t, ht, heq⟩ := List.mem_filterMap.mp hp
      exact TB_cardItem hcfg _ (hits t ht).1 (hits t ht).2 heq
  · refine TB_append0 htitle ?_
    refine TB_join _ ?_
    intro p hp
    obtain ⟨t, ht, heq⟩ := List.mem_map.mp hp
    exact heq ▸ TB_nonCardItem hcfg _ (hits t ht).1 (hits t ht).2

lemma TB_convert_body {cfg : StyleConfig} (hcfg : cfgCleanAll cfg = true) (body : Str)
    (hsecs : ∀ sec ∈ bodySections body, ∀ t ∈ sec.items,
      tokImgOkB t = true ∧ tokAlignsOkB t = true) :
    TB (convert_body cfg body) (0, 0, 0, 0) := by
  rw [convert_body]
  refine TB_join _ ?_
  intro p hp
  obtain ⟨sec, hsec, heq⟩ := List.mem_map.mp hp
  exact heq ▸ TB_sectionHtml hcfg sec (hsecs sec hsec)

lemma TB_generate_html {cfg : StyleConfig} (hcfg : cfgCleanAll cfg = true)
    (title date : Str) (tags : List Str) {bodyHtml : Str}
    (hbody : TB bodyHtml (0, 0, 0, 0)) (source : Str) :
    TB (generate_html cfg title date tags bodyHtml source) (0, 0, 0, 0) := by
  rw [generate_html]
  have hheader : TB (if title.isEmpty then []
      else
        str "<table width=\"100%\" cellpadding=\"20\" cellspacing=\"0\" border=\"0\" " ++
          str "style=\"margin-bottom:16px;background-color:" ++ cfg.header_bg_color ++
          str ";\">" ++
          str "<tr><td style=\"color:" ++ cfg.header_text_color ++
          str ";font-size:" ++ cfg.header_font_size ++ str ";font-weight:bold;\">" ++
          escape_html title ++
          str "</td></tr></table>") (0, 0, 0, 0) := by
    split
    · exact TB_nil
    · simp only [List.append_assoc]
      exact TB_cast (TB_append (TB_self (by decide))
        (TB_append (TB_self (by decide))
          (TB_append (TB_of_clean (cfgField_clean hcfg (by simp [cfgFields])))
            (TB_append (TB_self (by decide))
              (TB_append (TB_self (by decide))
                (TB_append (TB_of_clean (cfgField_clean hcfg (by simp [cfgFields])))
                  (TB_append (TB_self (by decide))
                    (TB_append (TB_of_clean (cfgField_clean hcfg (by simp [cfgFields])))
                      (TB_append (TB_self (by decide))
                        (TB_append (TB_escape title)
                          (TB_self (by decide)))))))))))) (by decide)
  have hparts : ∀ p ∈ (if date.isEmpty then [] else [escape_html date]) ++
      (if tags.isEmpty then []
       else [pyJoin (str " ") (tags.map (fun t => str "#" ++ escape_html t))]),
      TB p (0, 0, 0, 0) := by
    intro p hp
    rw [List.mem_append] at hp
    rcases hp with hp | hp
    · split at hp
      · simp at hp
      · rw [List.mem_singleton] at hp
        exact hp ▸ TB_escape date
    · split at hp
      · simp at hp
      · rw [List.mem_singleton] at hp
        subst hp
        refine TB_pyJoin (TB_of_checks (by decide) (by decide)) _ ?_
        intro q hq
        obtain ⟨tg, htg, heq⟩ := List.mem_map.mp hq
        exact heq ▸ TB_append0 (TB_of_checks (by decide) (by decide)) (TB_escape tg)
  have hmeta : TB (if date.isEmpty ∧ tags.isEmpty then []
      else
        let metaParts :=
          (if date.isEmpty then [] else [escape_html date]) ++
          (if tags.isEmpty then []
           else [pyJoin (str " ") (tags.map (fun t => str "#" ++ escape_html t))])
        if metaParts.isEmpty then []
        else
          str "<table width=\"100%\" cellpadding=\"0\" cellspacing=\"0\" border=\"0\" style=\"margin-bottom:16px;\">" ++
            str "<tr><td style=\"color:" ++ cfg.meta_text_color ++ str ";font-size:" ++
            cfg.meta_font_size ++ str ";padding:0 4px;\">" ++
            pyJoin (str " | ") metaParts ++
            str "</td></tr></table>") (0, 0, 0, 0) := by
    by_cases hdt : date.isEmpty ∧ tags.isEmpty
    · rw [if_pos hdt]
      exact TB_nil
    · rw [if_neg hdt]
      show TB (if ((if date.isEmpty then [] else [escape_html date]) ++
          (if tags.isEmpty then []
           else [pyJoin (str " ") (tags.map (fun t => str "#" ++ escape_html t))])).isEmpty
        then []
        else
          str "<table width=\"100%\" cellpadding=\"0\" cellspacing=\"0\" border=\"0\" style=\"margin-bottom:16px;\">" ++
            str "<tr><td style=\"color:" ++ cfg.meta_text_color ++ str ";font-size:" ++
            cfg.meta_font_size ++ str ";padding:0 4px;\">" ++
            pyJoin (str " | ") ((if date.isEmpty then [] else [escape_html date]) ++
              (if tags.isEmpty then []
               else [pyJoin (str " ") (tags.map (fun t => str "#" ++ escape_html t))])) ++
            str "</td></tr></table>") (0, 0, 0, 0)
      by_cases hm : ((if date.isEmpty then [] else [escape_html date]) ++
          (if tags.isEmpty then []
           else [pyJoin (str " ") (tags.map (fun t => str "#" ++ escape_html t))])).isEmpty = true
      · rw [if_pos hm]
        exact TB_nil
      · rw [if_neg hm]
        simp only [List.append_assoc]
        exact TB_cast (TB_append (TB_self (by decide))
          (TB_append (TB_self (by decide))
            (TB_append (TB_of_clean (cfgField_clean hcfg (by simp [cfgFields])))
              (TB_append (TB_self (by decide))
                (TB_append (TB_of_clean (cfgField_clean hcfg (by simp [cfgFields])))
                  (TB_append (TB_self (by decide))
                    (TB_append (TB_pyJoin (TB_of_checks (by decide) (by decide)) _ hparts)
                      (TB_self (by decide))))))))) (by decide)
  have hsource : TB (if source.isEmpty then []
      else
        str "<table width=\"100%\" cellpadding=\"16\" cellspacing=\"0\" border=\"0\" style=\"margin-top:24px;\">" ++
          str "<tr><td align=\"center\" style=\"border-top:1px solid #eeeeee;color:" ++
          cfg.source_text_color ++ str ";font-size:" ++ cfg.source_font_size ++ str ";\">" ++
          str "来源: <a href=\"" ++ escape_html source ++ str "\" style=\"color:" ++
          cfg.source_text_color ++ str ";\">" ++
          escape_html source ++ str "</a>" ++
          str "</td></tr></table>") (0, 0, 0, 0) := by
    split
    · exact TB_nil
    · simp only [List.append_assoc]
      exact TB_cast (TB_append (TB_self (by decide))
        (TB_append (TB_self (by decide))
          (TB_append (TB_of_clean (cfgField_clean hcfg (by simp [cfgFields])))
            (TB_append (TB_self (by decide))
              (TB_append (TB_of_clean (cfgField_clean hcfg (by simp [cfgFields])))
                (TB_append (TB_self (by decide))
                  (TB_append (TB_self (by decide))
                    (TB_append (TB_escape source)
                      (TB_append (TB_self (by decide))
                        (TB_append (TB_of_clean (cfgField_clean hcfg (by simp [cfgFields])))
                          (TB_append (TB_self (by decide))
                            (TB_append (TB_escape source)
                              (TB_append (TB_self (by decide))
                                (TB_self (by decide))))))))))))))) (by decide)
  exact TB_append0 (TB_append0 (TB_append0 hheader hmeta) hbody) hsource

lemma TB_convert {cfg : StyleConfig} (hcfg : cfgCleanAll cfg = true)
    (md title source : Str)
    (hsecs : ∀ sec ∈ bodySections (parse_front_matter md).body, ∀ t ∈ sec.items,
      tokImgOkB t = true ∧ tokAlignsOkB t = true) :
    TB (convert cfg md title source) (0, 0, 0, 0) := by
  rw [convert]
  exact TB_generate_html hcfg _ _ _ (TB_convert_body hcfg _ hsecs) _

/-! ## Alignment strings are always lexer-produced (`left`/`center`/`right`),
so the table renderer's interpolation of them is always clean. -/

/-- All block tokens held by the scanner state, in all three places. -/
def stateToks (st : LexState) : List Tok :=
  st.preface ++ (st.sections.map Sec.items).join ++
    (match st.cur with | some s => s.items | none => [])

lemma alignOfCell_clean (cell : Str) : strClean (alignOfCell cell) = true := by
  rw [alignOfCell]
  split_ifs <;> decide

lemma stateToks_pushItem {st : LexState} {t : Tok}
    (hst : ∀ u ∈ stateToks st, tokAlignsOkB u = true) (ht : tokAlignsOkB t = true) :
    ∀ u ∈ stateToks (pushItem st t), tokAlignsOkB u = true := by
  obtain ⟨secs, cur, ic, cl, bc, pre, pb⟩ := st
  cases cur with
  | none =>
    intro u hu
    simp only [pushItem, stateToks, List.mem_append, List.mem_singleton] at hu hst ⊢
    rcases hu with (⟨hu | hu⟩ | hu) | hu
    · exact hst u (Or.inl (Or.inl hu))
    · exact hu ▸ ht
    · exact hst u (Or.inl (Or.inr hu))
    · exact hst u (Or.inr hu)
  | some sec =>
    intro u hu
    simp only [pushItem, stateToks, List.mem_append, List.mem_singleton] at hu hst ⊢
    rcases hu with (hu | hu) | (hu | hu)
    · exact hst u (Or.inl (Or.inl hu))
    · exact hst u (Or.inl (Or.inr hu))
    · exact hst u (Or.inr hu)
    · exact hu ▸ ht

lemma stateToks_flushPara {st : LexState}
    (hst : ∀ u ∈ stateToks st, tokAlignsOkB u = true) :
    ∀ u ∈ stateToks (flushPara st), tokAlignsOkB u = true := by
  obtain ⟨secs, cur, ic, cl, bc, pre, pb⟩ := st
  cases cur with
  | some sec =>
    rw [flushPara]
    dsimp only
    split
    · split
      · intro u hu
        simp only [stateToks, List.mem_append, List.mem_singleton] at hu hst ⊢
        rcases hu with (hu | hu) | (hu | hu)
        · exact hst u (Or.inl (Or.inl hu))
        · exact hst u (Or.inl (Or.inr hu))
        · exact hst u (Or.inr hu)
        · subst hu; rfl
      · exact hst
    · exact hst
  | none =>
    rw [flushPara]
    dsimp only
    split
    · split
      · intro u hu
        simp only [stateToks, List.mem_append, List.mem_singleton] at hu hst ⊢
        rcases hu with (⟨hu | hu⟩ | hu) | hu
        · exact hst u (Or.inl (Or.inl hu))
        · subst hu; rfl
        · exact hst u (Or.inl (Or.inr hu))
        · exact hst u (Or.inr hu)
      · exact hst
    · exact hst

lemma tokAligns_separator (cells : List Str) :
    tokAlignsOkB (Tok.table_separator (cells.map alignOfCell)) = true := by
  rw [tokAlignsOkB, List.all_eq_true]
  intro a ha
  obtain ⟨c, -, hc⟩ := List.mem_map.mp ha
  exact hc ▸ alignOfCell_clean c

lemma lexLine_aligns {st : LexState} (line : Str)
    (h : ∀ u ∈ stateToks st, tokAlignsOkB u = true) :
    ∀ u ∈ stateToks (lexLine st line), tokAlignsOkB u = true := by
  rw [lexLine]
  split
  · split
    · exact fun u hu => h u hu
    · exact stateToks_pushItem (stateToks_flushPara h) rfl
  · split
    · exact fun u hu => h u hu
    · split
      · exact stateToks_pushItem (stateToks_flushPara h) rfl
      · split
        · next level g2 heq =>
          dsimp only
          split
          · cases hcur : (flushPara st).cur with
            | some sec =>
              have hf := stateToks_flushPara h
              intro u hu
              simp only [stateToks, hcur, List.mem_append, List.map_append, List.join_append,
                List.map_cons, List.join_cons, List.map_nil, List.join_nil, List.append_nil,
                List.mem_singleton, List.not_mem_nil, or_false, false_or] at hu hf
              aesop
            | none =>
              have hf := stateToks_flushPara h
              split
              · intro u hu
                simp only [stateToks, hcur, List.mem_append, List.map_append, List.join_append,
                  List.map_cons, List.join_cons, List.map_nil, List.join_nil, List.append_nil,
                  List.mem_singleton, List.not_mem_nil, or_false, false_or] at hu hf
                aesop
              · intro u hu
                simp only [stateToks, hcur, List.mem_append, List.map_append, List.join_append,
                  List.map_cons, List.join_cons, List.map_nil, List.join_nil, List.append_nil,
                  List.mem_singleton, List.not_mem_nil, or_false, false_or] at hu hf
                aesop
          · exact stateToks_pushItem (stateToks_flushPara h) rfl
        · split
          · exact stateToks_pushItem (stateToks_flushPara h) rfl
          · dsimp only
            split
            · split
              · exact stateToks_pushItem (stateToks_flushPara h) (tokAligns_separator _)
              · exact stateToks_pushItem (stateToks_flushPara h) rfl
            · split
              · exact stateToks_pushItem (stateToks_flushPara h) rfl
              · split
                · exact stateToks_pushItem (stateToks_flushPara h) rfl
                · split
                  · exact fun u hu => h u hu
                  · exact fun u hu => h u hu

lemma lexLines_aligns : ∀ (lines : List Str) (st : LexState),
    (∀ u ∈ stateToks st, tokAlignsOkB u = true) →
    ∀ u ∈ stateToks (lexLines st lines), tokAlignsOkB u = true := by
  intro lines
  induction lines with
  | nil => intro st h; exact h
  | cons l rest ih =>
    intro st h
    rw [lexLines]
    exact ih _ (lexLine_aligns l h)

lemma finishLex_aligns {st : LexState}
    (h : ∀ u ∈ stateToks st, tokAlignsOkB u = true) :
    ∀ sec ∈ finishLex st, ∀ u ∈ sec.items, tokAlignsOkB u = true := by
  have hf := stateToks_flushPara h
  rw [finishLex]
  intro sec hsec u hu
  split at hsec
  · next s heq =>
    rw [List.mem_append, List.mem_singleton] at hsec
    rcases hsec with hsec | hsec
    · refine hf u ?_
      simp only [stateToks, List.mem_append]
      refine Or.inl (Or.inr ?_)
      rw [List.mem_join]
      exact ⟨sec.items, List.mem_map.mpr ⟨sec, hsec, rfl⟩, hu⟩
    · subst hsec
      refine hf u ?_
      simp only [stateToks, heq, List.mem_append]
      exact Or.inr hu
  · next heq =>
    split at hsec
    · refine hf u ?_
      simp only [stateToks, List.mem_append]
      refine Or.inl (Or.inr ?_)
      rw [List.mem_join]
      exact ⟨sec.items, List.mem_map.mpr ⟨sec, hsec, rfl⟩, hu⟩
    · rw [List.mem_append, List.mem_singleton] at hsec
      rcases hsec with hsec | hsec
      · refine hf u ?_
        simp only [stateToks, List.mem_append]
        refine Or.inl (Or.inr ?_)
        rw [List.mem_join]
        exact ⟨sec.items, List.mem_map.mpr ⟨sec, hsec, rfl⟩, hu⟩
      · subst hsec
        refine hf u ?_
        simp only [stateToks, List.mem_append]
        exact Or.inl (Or.inl hu)

lemma takeTableRun_aligns :
    ∀ (l : List Tok) (a : List Str) (h : Bool),
      (∀ x ∈ a, strClean x = true) → (∀ t ∈ l, tokAlignsOkB t = true) →
      ∀ x ∈ (takeTableRun a h l).2.1, strClean x = true := by
  intro l
  induction l with
  | nil => intro a h ha _ x hx; exact ha x hx
  | cons hd tl ih =>
    intro a h ha hl x hx
    cases hd
    case table_row cells =>
      simp only [takeTableRun] at hx
      exact ih a false ha (fun t ht => hl t (List.mem_cons_of_mem _ ht)) x hx
    case table_separator al =>
      simp only [takeTableRun] at hx
      have hsep := hl (Tok.table_separator al) (List.mem_cons_self _ _)
      rw [tokAlignsOkB, List.all_eq_true] at hsep
      exact ih al h hsep (fun t ht => hl t (List.mem_cons_of_mem _ ht)) x hx
    all_goals
      simp only [takeTableRun] at hx
      exact ha x hx

lemma groupItemsGo_aligns (build : List (Str × Nat) → Nat → Bool → LEntries) :
    ∀ (fuel : Nat) (items : List Tok),
      (∀ t ∈ items, tokAlignsOkB t = true) →
      ∀ u ∈ groupItemsGo build fuel items, tokAlignsOkB u = true := by
  intro fuel
  induction fuel with
  | zero =>
    intro items h u hu
    cases items with
    | nil => simp [groupItemsGo] at hu
    | cons hd tl =>
      simp only [groupItemsGo] at hu
      exact h u hu
  | succ fuel ih =>
    intro items h u hu
    cases items with
    | nil => simp [groupItemsGo] at hu
    | cons hd tl =>
      cases hd with
      | list_item t ind o =>
        simp only [groupItemsGo, List.mem_cons] at hu
        rcases hu with hu | hu
        · subst hu; rfl
        · exact ih _ (fun x hx => h x
            (takeListRun_rest_sub (Tok.list_item t ind o :: tl) ind o x hx)) u hu
      | table_row cells =>
        simp only [groupItemsGo, List.mem_append] at hu
        rcases hu with hu | hu
        · split at hu
          · simp at hu
          · rw [List.mem_singleton] at hu
            subst hu
            rw [tokAlignsOkB, List.all_eq_true]
            exact takeTableRun_aligns (Tok.table_row cells :: tl) [str "left"] true
              (by intro x hx; rw [List.mem_singleton] at hx; subst hx; decide) h
        · exact ih _ (fun x hx => h x
            (takeTableRun_rest_sub (Tok.table_row cells :: tl) [str "left"] true x hx)) u hu
      | table_separator al =>
        simp only [groupItemsGo, List.mem_append] at hu
        rcases hu with hu | hu
        · split at hu
          · simp at hu
          · rw [List.mem_singleton] at hu
            subst hu
            rw [tokAlignsOkB, List.all_eq_true]
            exact takeTableRun_aligns (Tok.table_separator al :: tl) [str "left"] true
              (by intro x hx; rw [List.mem_singleton] at hx; subst hx; decide) h
        · exact ih _ (fun x hx => h x
            (takeTableRun_rest_sub (Tok.table_separator al :: tl) [str "left"] true x hx)) u hu
      | paragraph text =>
        simp only [groupItemsGo, List.mem_cons] at hu
        rcases hu with hu | hu
        · exact hu ▸ h _ (List.mem_cons_self _ _)
        · exact ih _ (fun x hx => h x (List.mem_cons_of_mem _ hx)) u hu
      | code c lang =>
        simp only [groupItemsGo, List.mem_cons] at hu
        rcases hu with hu | hu
        · exact hu ▸ h _ (List.mem_cons_self _ _)
        · exact ih _ (fun x hx => h x (List.mem_cons_of_mem _ hx)) u hu
      | image src alt title =>
        simp only [groupItemsGo, List.mem_cons] at hu
        rcases hu with hu | hu
        · exact hu ▸ h _ (List.mem_cons_self _ _)
        · exact ih _ (fun x hx => h x (List.mem_cons_of_mem _ hx)) u hu
      | heading text lvl =>
        simp only [groupItemsGo, List.mem_cons] at hu
        rcases hu with hu | hu
        · exact hu ▸ h _ (List.mem_cons_self _ _)
        · exact ih _ (fun x hx => h x (List.mem_cons_of_mem _ hx)) u hu
      | blockquote text =>
        simp only [groupItemsGo, List.mem_cons] at hu
        rcases hu with hu | hu
        · exact hu ▸ h _ (List.mem_cons_self _ _)
        · exact ih _ (fun x hx => h x (List.mem_cons_of_mem _ hx)) u hu
      | horizontal_rule =>
        simp only [groupItemsGo, List.mem_cons] at hu
        rcases hu with hu | hu
        · exact hu ▸ h _ (List.mem_cons_self _ _)
        · exact ih _ (fun x hx => h x (List.mem_cons_of_mem _ hx)) u hu
      | glist entries o =>
        simp only [groupItemsGo, List.mem_cons] at hu
        rcases hu with hu | hu
        · exact hu ▸ h _ (List.mem_cons_self _ _)
        · exact ih _ (fun x hx => h x (List.mem_cons_of_mem _ hx)) u hu
      | gtable r a =>
        simp only [groupItemsGo, List.mem_cons] at hu
        rcases hu with hu | hu
        · exact hu ▸ h _ (List.mem_cons_self _ _)
        · exact ih _ (fun x hx => h x (List.mem_cons_of_mem _ hx)) u hu

lemma bodySections_aligns (body : Str) :
    ∀ sec ∈ bodySections body, ∀ t ∈ sec.items, tokAlignsOkB t = true := by
  intro sec hsec t ht
  rw [bodySections] at hsec
  obtain ⟨s0, hs0, heq⟩ := List.mem_map.mp hsec
  subst heq
  rw [groupSec] at ht
  dsimp only at ht
  have hscan : ∀ u ∈ s0.items, tokAlignsOkB u = true := by
    have hinit : ∀ u ∈ stateToks initLexState, tokAlignsOkB u = true := by
      intro u hu
      simp [stateToks, initLexState] at hu
    exact finishLex_aligns (lexLines_aligns (bodyLines body) initLexState hinit) s0 hs0
  exact groupItemsGo_aligns buildListStructure s0.items.length s0.items hscan t ht

set_option maxRecDepth 1000000 in
/-- C5 counterexample: the document `![a](x"><table>)` is a single image
line whose `src` capture is `x"><table>`; `process_image` interpolates the
src unescaped, so the rendered document contains two `<table` openings but
only one `</table` closing — an opened `<table>` without a matching close,
contradicting the claim that balance holds for every input document. -/
theorem C5_counterexample :
    countLt (str "table") (convert academicGray (str "![a](x\"><table>)") [] []) = 2 ∧
    countLt (str "/table") (convert academicGray (str "![a](x\"><table>)") [] []) = 1 := by
  decide

/-- C5 amended: for every style whose fields are free of `<`, `>`, `&` and
every document in which no image token's `src` contains `<`, the rendered
document of `convert` contains exactly as many `<table` openings as
`</table` closings, and likewise for `<ul`, `<ol` and `<li`: the card,
list and table constructs are structurally balanced unless an image `src`
smuggles a raw tag in. -/
theorem C5_amended (cfg : StyleConfig) (hcfg : cfgCleanAll cfg = true)
    (md title source : Str)
    (himg : (bodySections (parse_front_matter md).body).all
      (fun sec => sec.items.all tokImgOkB) = true) :
    countLt (str "table") (convert cfg md title source) =
      countLt (str "/table") (convert cfg md title source) ∧
    countLt (str "ul") (convert cfg md title source) =
      countLt (str "/ul") (convert cfg md title source) ∧
    countLt (str "ol") (convert cfg md title source) =
      countLt (str "/ol") (convert cfg md title source) ∧
    countLt (str "li") (convert cfg md title source) =
      countLt (str "/li") (convert cfg md title source) := by
  have hsecs : ∀ sec ∈ bodySections (parse_front_matter md).body, ∀ t ∈ sec.items,
      tokImgOkB t = true ∧ tokAlignsOkB t = true := by
    intro sec hsec t ht
    refine ⟨?_, bodySections_aligns _ sec hsec t ht⟩
    rw [List.all_eq_true] at himg
    have h2 := himg sec hsec
    rw [List.all_eq_true] at h2
    exact h2 t ht
  obtain ⟨-, hnets⟩ := TB_convert hcfg md title source hsecs
  rw [nets] at hnets
  simp only [Prod.mk.injEq] at hnets
  obtain ⟨h1, h2, h3, h4⟩ := hnets
  rw [net1] at h1 h2 h3 h4
  refine ⟨?_, ?_, ?_, ?_⟩ <;> omega

set_option maxRecDepth 1000000 in
/-- Witness for C5 amended on a concrete document with an image, a list
and a table under the default style. -/
theorem C5_amended_witness :
    countLt (str "table")
        (convert academicGray (str "![a](pic.png)\n\n- x\n\n| h |\n|---|\n| b |") [] []) =
      countLt (str "/table")
        (convert academicGray (str "![a](pic.png)\n\n- x\n\n| h |\n|---|\n| b |") [] []) ∧
    countLt (str "ul")
        (convert academicGray (str "![a](pic.png)\n\n- x\n\n| h |\n|---|\n| b |") [] []) =
      countLt (str "/ul")
        (convert academicGray (str "![a](pic.png)\n\n- x\n\n| h |\n|---|\n| b |") [] []) ∧
    countLt (str "ol")
        (convert academicGray (str "![a](pic.png)\n\n- x\n\n| h |\n|---|\n| b |") [] []) =
      countLt (str "/ol")
        (convert academicGray (str "![a](pic.png)\n\n- x\n\n| h |\n|---|\n| b |") [] []) ∧
    countLt (str "li")
        (convert academicGray (str "![a](pic.png)\n\n- x\n\n| h |\n|---|\n| b |") [] []) =
      countLt (str "/li")
        (convert academicGray (str "![a](pic.png)\n\n- x\n\n| h |\n|---|\n| b |") [] []) :=
  C5_amended academicGray (by decide) (str "![a](pic.png)\n\n- x\n\n| h |\n|---|\n| b |")
    [] [] (by decide)

/-! ## Claim C8: style isolation

Two conversions of the same document under two registered styles differ
only in the interpolated style literals (colors and sizes).  The relation
`Sim` makes this precise: the outputs decompose into identical segments
and matched substitutions of corresponding style literals, each sitting
right after one of the template guard characters `:`, space or `"`.  A
separate scanner `tagSeq` extracts the tag-name skeleton of an HTML
string; `Sim`-related strings have equal skeletons, which is the
tag-multiset-and-nesting half of the claim. -/

/-- Characters that no inline matcher, template-literal prefix test or the
tag scanner ever branches on.  Style-field content (hex colors, pixel
sizes, line heights) consists of these only, so swapping one clean style
literal for another never changes a control decision of the renderer. -/
def inertChar (c : Char) : Bool :=
  !(c = '*' || c = btick || c = '[' || c = ']' || c = '(' || c = ')' ||
    c = lbrace || c = rbrace || c = '\n' || c = '<' || c = '>' || c = '&' ||
    c = 'c' || c = 'o' || c = 'l' || c = 'r' || c = ':')

/-- A string of inert characters. -/
def inertStr (s : Str) : Bool := s.all inertChar

/-- The characters that immediately precede a style-field interpolation in
every template of the renderer (`color:`, `solid `, `="`). -/
def simGuard (c : Char) : Bool := c = ':' || c = ' ' || c = '"'

/-- The pairs of corresponding interpolated style literals of two
configurations: the 33 interpolated fields (the `name` field is never
rendered) and the two hash-stripped `bgcolor` values. -/
def cfgSimPairs (A B : StyleConfig) : List (Str × Str) :=
  ((cfgFields A).drop 1).zip ((cfgFields B).drop 1) ++
    [(pyReplace (str "#") [] A.h3_title_bg_color,
      pyReplace (str "#") [] B.h3_title_bg_color),
     (pyReplace (str "#") [] A.h2_h3_card_bg_color,
      pyReplace (str "#") [] B.h2_h3_card_bg_color)]

/-- Corresponding style literals have equal length and inert content; this
holds for every pair of registered styles. -/
def cfgSimOk (A B : StyleConfig) : Bool :=
  (cfgSimPairs A B).all fun p => p.1.length == p.2.length && inertStr p.1 && inertStr p.2

/-- Two rendered strings are `Sim`-related when they coincide except that
at matched positions corresponding style literals of the two
configurations are substituted for one another, each substitution sitting
right after a template guard character. -/
inductive Sim (A B : StyleConfig) : Str → Str → Prop where
  | nil : Sim A B [] []
  | cons (c : Char) {l r : Str} : Sim A B l r → Sim A B (c :: l) (c :: r)
  | subst (c : Char) (x y : Str) {l r : Str} (hg : simGuard c = true)
      (hxy : (x, y) ∈ cfgSimPairs A B) :
      Sim A B l r → Sim A B (c :: (x ++ l)) (c :: (y ++ r))

/-- A capture that may start exactly at a substituted literal (the case of
a template prefix that ends in a guard character). -/
def SimP (A B : StyleConfig) (l r : Str) : Prop :=
  Sim A B l r ∨
    ∃ x y l' r', (x, y) ∈ cfgSimPairs A B ∧ Sim A B l' r' ∧ l = x ++ l' ∧ r = y ++ r'

/-- Every string is `Sim`-related to itself. -/
lemma sim_refl {A B : StyleConfig} : ∀ l : Str, Sim A B l l
  | [] => .nil
  | c :: rest => .cons c (sim_refl rest)

/-- `Sim` is closed under concatenation. -/
lemma sim_append {A B : StyleConfig} {a b c d : Str} (h₁ : Sim A B a b)
    (h₂ : Sim A B c d) : Sim A B (a ++ c) (b ++ d) := by
  induction h₁ with
  | nil => exact h₂
  | cons ch h ih => exact .cons ch ih
  | subst ch x y hg hxy h ih =>
    simp only [List.cons_append, List.append_assoc]
    exact .subst ch x y hg hxy ih

/-- Extract the length and inertness facts for one registered pair. -/
lemma simPairs_ok {A B : StyleConfig} (hok : cfgSimOk A B = true) {x y : Str}
    (hxy : (x, y) ∈ cfgSimPairs A B) :
    x.length = y.length ∧ inertStr x = true ∧ inertStr y = true := by
  rw [cfgSimOk, List.all_eq_true] at hok
  have h := hok (x, y) hxy
  simp only [Bool.and_eq_true, beq_iff_eq] at h
  exact ⟨h.1.1, h.1.2, h.2⟩

/-- `Sim`-related strings have equal length. -/
lemma sim_length {A B : StyleConfig} (hok : cfgSimOk A B = true) {l r : Str}
    (h : Sim A B l r) : l.length = r.length := by
  induction h with
  | nil => rfl
  | cons c h ih => simp [ih]
  | subst c x y hg hxy h ih =>
    have := (simPairs_ok hok hxy).1
    simp [this, ih]

/-- `Sim`-related strings agree on their first character. -/
lemma sim_headD {A B : StyleConfig} {l r : Str} (h : Sim A B l r) (d : Char) :
    l.headD d = r.headD d := by
  cases h <;> rfl

/-- Structure of a `Sim` derivation at the head. -/
lemma sim_head_cases {A B : StyleConfig} {l r : Str} (h : Sim A B l r) :
    (l = [] ∧ r = []) ∨
    (∃ c a b, l = c :: a ∧ r = c :: b ∧ Sim A B a b) ∨
    (∃ c x y a b, simGuard c = true ∧ (x, y) ∈ cfgSimPairs A B ∧
      l = c :: (x ++ a) ∧ r = c :: (y ++ b) ∧ Sim A B a b) := by
  cases h with
  | nil => exact Or.inl ⟨rfl, rfl⟩
  | cons c h => exact Or.inr (Or.inl ⟨c, _, _, rfl, rfl, h⟩)
  | subst c x y hg hxy h => exact Or.inr (Or.inr ⟨c, x, y, _, _, hg, hxy, rfl, rfl, h⟩)

/-- Peeling a common head character that is not a guard leaves the tails
`Sim`-related. -/
lemma sim_cons_inv {A B : StyleConfig} {c : Char} {a b : Str}
    (hc : simGuard c = false) (h : Sim A B (c :: a) (c :: b)) : Sim A B a b := by
  rcases sim_head_cases h with ⟨h1, _⟩ | ⟨c', a', b', h1, h2, h3⟩ |
    ⟨c', x, y, a', b', hg, _, h1, h2, h3⟩
  · cases h1
  · injection h1 with e1 e2; injection h2 with e3 e4
    subst e2; subst e4; exact h3
  · injection h1 with e1 e2
    subst e1; rw [hc] at hg; cases hg

/-- An inert character differs from every non-inert one. -/
lemma inert_ne {a d : Char} (ha : inertChar a = true) (hd : inertChar d = false) :
    a ≠ d := fun e => by rw [e, hd] at ha; cases ha

/-- Splitting `takeWhile`/`dropWhile` across a prefix on which the
predicate holds. -/
lemma takeWhile_append_of {p : Char → Bool} : ∀ {x l : Str}, (∀ a ∈ x, p a = true) →
    (x ++ l).takeWhile p = x ++ l.takeWhile p ∧ (x ++ l).dropWhile p = l.dropWhile p := by
  intro x
  induction x with
  | nil => intro l _; exact ⟨rfl, rfl⟩
  | cons a t ih =>
    intro l hx
    have ha : p a = true := hx a (List.mem_cons_self a t)
    have ht := ih (fun b hb => hx b (List.mem_cons_of_mem a hb)) (l := l)
    simp only [List.cons_append, List.takeWhile_cons, List.dropWhile_cons, ha, if_true]
    exact ⟨by rw [ht.1], ht.2⟩

/-- Dropping the length of the taken prefix is `dropWhile`. -/
lemma drop_takeWhile_length (p : Char → Bool) : ∀ l : Str,
    l.drop (l.takeWhile p).length = l.dropWhile p := by
  intro l
  induction l with
  | nil => rfl
  | cons c rest ih =>
    cases hc : p c
    · simp [List.takeWhile_cons, List.dropWhile_cons, hc]
    · simp [List.takeWhile_cons, List.dropWhile_cons, hc, ih]

/-- `dropWhile (· ≠ d)` is empty or starts with `d`. -/
lemma dropWhile_ne_shape (d : Char) : ∀ l : Str,
    l.dropWhile (fun a => a ≠ d) = [] ∨
      ∃ t, l.dropWhile (fun a => a ≠ d) = d :: t := by
  intro l
  induction l with
  | nil => exact Or.inl rfl
  | cons c rest ih =>
    by_cases hc : c = d
    · subst hc
      exact Or.inr ⟨rest, by simp [List.dropWhile_cons]⟩
    · simpa [List.dropWhile_cons, hc] using ih

/-- A `Sim` derivation on an empty left side forces an empty right side. -/
lemma sim_nil_inv {A B : StyleConfig} {r : Str} (h : Sim A B [] r) : r = [] := by
  cases h; rfl

/-- `takeWhile (· ≠ d)` and `dropWhile (· ≠ d)` preserve `Sim` when `d` is
neither inert nor a guard character. -/
lemma sim_takeWhile_ne {A B : StyleConfig} (hok : cfgSimOk A B = true) (d : Char)
    (hd1 : inertChar d = false) (hd2 : simGuard d = false) {l r : Str}
    (h : Sim A B l r) :
    Sim A B (l.takeWhile (fun a => a ≠ d)) (r.takeWhile (fun a => a ≠ d)) ∧
    Sim A B (l.dropWhile (fun a => a ≠ d)) (r.dropWhile (fun a => a ≠ d)) := by
  induction h with
  | nil => exact ⟨.nil, .nil⟩
  | @cons c a b h ih =>
    by_cases hc : c = d
    · rw [List.takeWhile_cons_of_neg (by simp [hc]),
        List.takeWhile_cons_of_neg (by simp [hc]),
        List.dropWhile_cons_of_neg (by simp [hc]),
        List.dropWhile_cons_of_neg (by simp [hc])]
      exact ⟨.nil, .cons c h⟩
    · rw [List.takeWhile_cons_of_pos (by simp [hc]),
        List.takeWhile_cons_of_pos (by simp [hc]),
        List.dropWhile_cons_of_pos (by simp [hc]),
        List.dropWhile_cons_of_pos (by simp [hc])]
      exact ⟨.cons c ih.1, ih.2⟩
  | @subst c x y a b hg hxy h ih =>
    have hc : c ≠ d := fun e => by rw [e, hd2] at hg; cases hg
    obtain ⟨hlen, hxi, hyi⟩ := simPairs_ok hok hxy
    have hx : ∀ u ∈ x, (fun a => decide (a ≠ d)) u = true := by
      intro u hu
      rw [inertStr, List.all_eq_true] at hxi
      simpa using inert_ne (hxi u hu) hd1
    have hy : ∀ u ∈ y, (fun a => decide (a ≠ d)) u = true := by
      intro u hu
      rw [inertStr, List.all_eq_true] at hyi
      simpa using inert_ne (hyi u hu) hd1
    have hxx := takeWhile_append_of (l := a) hx
    have hyy := takeWhile_append_of (l := b) hy
    constructor
    · rw [List.takeWhile_cons_of_pos (by simp [hc]),
        List.takeWhile_cons_of_pos (by simp [hc]), hxx.1, hyy.1]
      exact .subst c x y hg hxy ih.1
    · rw [List.dropWhile_cons_of_pos (by simp [hc]),
        List.dropWhile_cons_of_pos (by simp [hc]), hxx.2, hyy.2]
      exact ih.2

/-- A non-inert pattern tests equally on `Sim`-related strings, and on
success the remainders are related, possibly starting exactly at a
substituted literal when the pattern ends at a guard. -/
lemma sim_isPrefix {A B : StyleConfig} (hok : cfgSimOk A B = true) :
    ∀ (pat : Str), pat.all (fun c => !inertChar c) = true →
    ∀ {l r : Str}, Sim A B l r →
    pat.isPrefixOf l = pat.isPrefixOf r ∧
    (pat.isPrefixOf l = true → SimP A B (l.drop pat.length) (r.drop pat.length)) := by
  intro pat hpat l r h
  induction h generalizing pat with
  | nil =>
    cases pat with
    | nil => exact ⟨rfl, fun _ => Or.inl .nil⟩
    | cons pc pt => exact ⟨rfl, fun hf => by simp at hf⟩
  | @cons c a b h ih =>
    cases pat with
    | nil => exact ⟨rfl, fun _ => Or.inl (.cons c h)⟩
    | cons pc pt =>
      have hpt : pt.all (fun c => !inertChar c) = true := by
        rw [List.all_cons, Bool.and_eq_true] at hpat; exact hpat.2
      obtain ⟨e1, e2⟩ := ih pt hpt
      rw [List.isPrefixOf_cons₂, List.isPrefixOf_cons₂]
      by_cases hpc : pc = c
      · simp only [hpc, beq_self_eq_true, Bool.true_and]
        refine ⟨e1, fun hp => ?_⟩
        simpa only [List.length_cons, List.drop_succ_cons] using e2 hp
      · have hbe : (pc == c) = false := by rw [beq_eq_false_iff_ne]; exact hpc
        rw [hbe]
        simp
  | @subst c x y a b hg hxy h ih =>
    obtain ⟨hlen, hxi, hyi⟩ := simPairs_ok hok hxy
    cases pat with
    | nil => exact ⟨rfl, fun _ => Or.inl (.subst c x y hg hxy h)⟩
    | cons pc pt =>
      have hpc0 : inertChar pc = false := by
        rw [List.all_cons, Bool.and_eq_true] at hpat
        simpa using hpat.1
      have hpt : pt.all (fun c => !inertChar c) = true := by
        rw [List.all_cons, Bool.and_eq_true] at hpat; exact hpat.2
      rw [List.isPrefixOf_cons₂, List.isPrefixOf_cons₂]
      by_cases hpc : pc = c
      · simp only [hpc, beq_self_eq_true, Bool.true_and]
        cases x with
        | nil =>
          have hy0 : y = [] := List.length_eq_zero.mp (by simpa using hlen.symm)
          subst hy0
          obtain ⟨e1, e2⟩ := ih pt hpt
          simp only [List.nil_append]
          refine ⟨e1, fun hp => ?_⟩
          simpa only [List.length_cons, List.drop_succ_cons] using e2 hp
        | cons xc xt =>
          obtain ⟨yc, yt, hy0⟩ : ∃ yc yt, y = yc :: yt := by
            cases y with
            | nil => simp at hlen
            | cons u v => exact ⟨u, v, rfl⟩
          subst hy0
          cases pt with
          | nil =>
            refine ⟨by simp, fun _ => ?_⟩
            exact Or.inr ⟨xc :: xt, yc :: yt, a, b, hxy, h, by simp, by simp⟩
          | cons qc qt =>
            have hqc : inertChar qc = false := by
              rw [List.all_cons, Bool.and_eq_true] at hpt
              simpa using hpt.1
            have hxc : inertChar xc = true := by
              rw [inertStr, List.all_cons, Bool.and_eq_true] at hxi
              exact hxi.1
            have hyc : inertChar yc = true := by
              rw [inertStr, List.all_cons, Bool.and_eq_true] at hyi
              exact hyi.1
            have hne1 : (qc == xc) = false := by
              rw [beq_eq_false_iff_ne]
              exact Ne.symm (inert_ne hxc hqc)
            have hne2 : (qc == yc) = false := by
              rw [beq_eq_false_iff_ne]
              exact Ne.symm (inert_ne hyc hqc)
            constructor
            · rw [show ((xc :: xt) ++ a) = xc :: (xt ++ a) from rfl,
                show ((yc :: yt) ++ b) = yc :: (yt ++ b) from rfl,
                List.isPrefixOf_cons₂, List.isPrefixOf_cons₂, hne1, hne2]
              simp
            · intro hp
              exfalso
              rw [show ((xc :: xt) ++ a) = xc :: (xt ++ a) from rfl,
                List.isPrefixOf_cons₂, hne1] at hp
              simp at hp
      · have hbe : (pc == c) = false := by rw [beq_eq_false_iff_ne]; exact hpc
        rw [hbe]
        simp

/-- The head test after one `drop` transfers across `Sim` for a non-inert
character. -/
lemma sim_drop1_head {A B : StyleConfig} (hok : cfgSimOk A B = true) (d : Char)
    (hd : inertChar d = false) {v w : Str} (h : Sim A B v w) :
    ((v.drop 1).headD ' ' = d) ↔ ((w.drop 1).headD ' ' = d) := by
  cases h with
  | nil => exact Iff.rfl
  | @cons c a b h =>
    simp only [List.drop_succ_cons, List.drop_zero, sim_headD h ' ']
  | @subst c x y a b hg hxy h =>
    obtain ⟨hlen, hxi, hyi⟩ := simPairs_ok hok hxy
    cases x with
    | nil =>
      have hy0 : y = [] := List.length_eq_zero.mp (by simpa using hlen.symm)
      subst hy0
      simp only [List.nil_append, List.drop_succ_cons, List.drop_zero, sim_headD h ' ']
    | cons xc xt =>
      obtain ⟨yc, yt, hy0⟩ : ∃ yc yt, y = yc :: yt := by
        cases y with
        | nil => simp at hlen
        | cons u v => exact ⟨u, v, rfl⟩
      subst hy0
      have hxc : inertChar xc = true := by
        rw [inertStr, List.all_cons, Bool.and_eq_true] at hxi; exact hxi.1
      have hyc : inertChar yc = true := by
        rw [inertStr, List.all_cons, Bool.and_eq_true] at hyi; exact hyi.1
      simp only [List.cons_append, List.drop_succ_cons, List.drop_zero, List.headD_cons]
      exact iff_of_false (inert_ne hxc hd) (inert_ne hyc hd)

/-- The link matcher behaves identically on the two sides of a `Sim`
relation, even when the scan position sits inside a substituted literal
(the `xs`/`ys` prefixes); on success the capture groups are related. -/
lemma matchLink_simT {A B : StyleConfig} (hok : cfgSimOk A B = true) :
    ∀ n xs ys l r, (xs ++ l).length ≤ n → xs.length = ys.length →
    inertStr xs = true → inertStr ys = true → Sim A B l r →
    (matchLink (xs ++ l) = none ∧ matchLink (ys ++ r) = none) ∨
    (∃ pL pR tL tR uL uR sL sR,
      matchLink (xs ++ l) = some (xs ++ pL, tL, uL, sL) ∧
      matchLink (ys ++ r) = some (ys ++ pR, tR, uR, sR) ∧
      Sim A B pL pR ∧ Sim A B tL tR ∧ Sim A B uL uR ∧ Sim A B sL sR) := by
  intro n
  induction n with
  | zero =>
    intro xs ys l r hn hlen hxs hys h
    have h1 : xs = [] := by
      cases xs with
      | nil => rfl
      | cons a t => simp at hn
    have h2 : l = [] := by
      cases l with
      | nil => rfl
      | cons a t => rw [h1] at hn; simp at hn
    have h3 : ys = [] := by rw [h1] at hlen; exact List.length_eq_zero.mp hlen.symm
    have h4 : r = [] := by rw [h2] at h; exact sim_nil_inv h
    subst h1; subst h2; subst h3; subst h4
    exact Or.inl ⟨rfl, rfl⟩
  | succ n ih =>
    intro xs ys l r hn hlen hxs hys h
    cases xs with
    | cons cx xt =>
      obtain ⟨cy, yt, hy0⟩ : ∃ cy yt, ys = cy :: yt := by
        cases ys with
        | nil => simp at hlen
        | cons u v => exact ⟨u, v, rfl⟩
      subst hy0
      have hcx : inertChar cx = true := by
        rw [inertStr, List.all_cons, Bool.and_eq_true] at hxs; exact hxs.1
      have hcy : inertChar cy = true := by
        rw [inertStr, List.all_cons, Bool.and_eq_true] at hys; exact hys.1
      have hxt : inertStr xt = true := by
        rw [inertStr, List.all_cons, Bool.and_eq_true] at hxs; exact hxs.2
      have hyt : inertStr yt = true := by
        rw [inertStr, List.all_cons, Bool.and_eq_true] at hys; exact hys.2
      have hrec := ih xt yt l r (by simp at hn ⊢; omega)
        (by simpa using hlen) hxt hyt h
      have hne1 : cx ≠ '[' := inert_ne hcx (by decide)
      have hne2 : cy ≠ '[' := inert_ne hcy (by decide)
      simp only [List.cons_append, matchLink, if_neg hne1, if_neg hne2, List.append_eq]
      rcases hrec with ⟨e1, e2⟩ | ⟨pL, pR, tL, tR, uL, uR, sL, sR, e1, e2, s1, s2, s3, s4⟩
      · rw [e1, e2]; exact Or.inl ⟨rfl, rfl⟩
      · rw [e1, e2]
        refine Or.inr ⟨pL, pR, tL, tR, uL, uR, sL, sR, ?_, ?_, s1, s2, s3, s4⟩
        · simp
        · simp
    | nil =>
      have hys0 : ys = [] := List.length_eq_zero.mp (by simpa using hlen.symm)
      subst hys0
      simp only [List.nil_append] at hn ⊢
      cases h with
      | nil => exact Or.inl ⟨rfl, rfl⟩
      | @subst c x y a b hg hxy hab =>
        obtain ⟨plen, pxi, pyi⟩ := simPairs_ok hok hxy
        have hcg : c ≠ '[' := fun e => by rw [e] at hg; cases hg
        simp only [matchLink, if_neg hcg, List.append_eq]
        have hrec := ih x y a b (by simp at hn ⊢; omega) plen pxi pyi hab
        rcases hrec with ⟨e1, e2⟩ | ⟨pL, pR, tL, tR, uL, uR, sL, sR, e1, e2, s1, s2, s3, s4⟩
        · rw [e1, e2]; exact Or.inl ⟨rfl, rfl⟩
        · rw [e1, e2]
          refine Or.inr ⟨c :: (x ++ pL), c :: (y ++ pR), tL, tR, uL, uR, sL, sR, ?_, ?_,
            .subst c x y hg hxy s1, s2, s3, s4⟩
          · simp
          · simp
      | @cons c a b hab =>
        by_cases hc : c = '['
        · subst hc
          obtain ⟨htake, hdropS⟩ := sim_takeWhile_ne hok ']' (by decide) (by decide) hab
          have hlenT : (a.takeWhile (fun u => u ≠ ']')).length =
              (b.takeWhile (fun u => u ≠ ']')).length := sim_length hok htake
          have hdropL : a.drop (a.takeWhile (fun u => u ≠ ']')).length =
              a.dropWhile (fun u => u ≠ ']') := drop_takeWhile_length _ a
          have hdropR : b.drop (b.takeWhile (fun u => u ≠ ']')).length =
              b.dropWhile (fun u => u ≠ ']') := drop_takeWhile_length _ b
          simp only [matchLink, if_pos rfl, List.append_eq]
          by_cases hC1 : a.takeWhile (fun u => u ≠ ']') ≠ [] ∧
              (a.drop (a.takeWhile (fun u => u ≠ ']')).length).headD ' ' = ']' ∧
              ((a.drop (a.takeWhile (fun u => u ≠ ']')).length).drop 1).headD ' ' = '('
          · have hC1R : b.takeWhile (fun u => u ≠ ']') ≠ [] ∧
                (b.drop (b.takeWhile (fun u => u ≠ ']')).length).headD ' ' = ']' ∧
                ((b.drop (b.takeWhile (fun u => u ≠ ']')).length).drop 1).headD ' ' = '(' := by
              obtain ⟨c1, c2, c3⟩ := hC1
              refine ⟨?_, ?_, ?_⟩
              · intro e
                rw [e] at hlenT
                exact c1 (List.length_eq_zero.mp (by simpa using hlenT))
              · rw [hdropR, ← sim_headD hdropS ' ', ← hdropL]; exact c2
              · rw [hdropR, ← (sim_drop1_head hok '(' (by decide) hdropS).mp
                  (by rw [← hdropL]; exact c3)]
            rw [if_pos hC1, if_pos hC1R]
            obtain ⟨c1, c2, c3⟩ := hC1
            obtain ⟨d1, d2, d3⟩ := hC1R
            -- unpack the `]` and `(` heads
            rw [hdropL] at c2 c3
            rw [hdropR] at d2 d3
            obtain ⟨a2, ha2⟩ : ∃ v, a.dropWhile (fun u => u ≠ ']') = ']' :: v := by
              rcases dropWhile_ne_shape ']' a with hsh | ⟨v, hv⟩
              · rw [hsh] at c2; cases c2
              · exact ⟨_, hv⟩
            obtain ⟨b2, hb2⟩ : ∃ v, b.dropWhile (fun u => u ≠ ']') = ']' :: v := by
              rcases dropWhile_ne_shape ']' b with hsh | ⟨v, hv⟩
              · rw [hsh] at d2; cases d2
              · exact ⟨_, hv⟩
            have hab2 : Sim A B a2 b2 := by
              rw [ha2, hb2] at hdropS
              exact sim_cons_inv (by decide) hdropS
            rw [ha2] at c3
            rw [hb2] at d3
            simp only [List.drop_succ_cons, List.drop_zero] at c3 d3
            obtain ⟨a3, ha3⟩ : ∃ v, a2 = '(' :: v := by
              cases ha : a2 with
              | nil => rw [ha] at c3; cases c3
              | cons hd tl =>
                rw [ha] at c3
                simp only [List.headD_cons] at c3
                subst c3; exact ⟨tl, rfl⟩
            obtain ⟨b3, hb3⟩ : ∃ v, b2 = '(' :: v := by
              cases hb : b2 with
              | nil => rw [hb] at d3; cases d3
              | cons hd tl =>
                rw [hb] at d3
                simp only [List.headD_cons] at d3
                subst d3; exact ⟨tl, rfl⟩
            have hab3 : Sim A B a3 b3 := by
              rw [ha3] at hab2; rw [hb3] at hab2
              exact sim_cons_inv (by decide) hab2
            have hr3L : (a.drop (a.takeWhile (fun u => u ≠ ']')).length).drop 2 = a3 := by
              rw [hdropL, ha2, ha3]; rfl
            have hr3R : (b.drop (b.takeWhile (fun u => u ≠ ']')).length).drop 2 = b3 := by
              rw [hdropR, hb2, hb3]; rfl
            rw [hr3L, hr3R]
            obtain ⟨hutake, hudrop⟩ := sim_takeWhile_ne hok ')' (by decide) (by decide) hab3
            have hlenU : (a3.takeWhile (fun u => u ≠ ')')).length =
                (b3.takeWhile (fun u => u ≠ ')')).length := sim_length hok hutake
            have hudL : a3.drop (a3.takeWhile (fun u => u ≠ ')')).length =
                a3.dropWhile (fun u => u ≠ ')') := drop_takeWhile_length _ a3
            have hudR : b3.drop (b3.takeWhile (fun u => u ≠ ')')).length =
                b3.dropWhile (fun u => u ≠ ')') := drop_takeWhile_length _ b3
            by_cases hC2 : a3.takeWhile (fun u => u ≠ ')') ≠ [] ∧
                (a3.drop (a3.takeWhile (fun u => u ≠ ')')).length).headD ' ' = ')'
            · have hC2R : b3.takeWhile (fun u => u ≠ ')') ≠ [] ∧
                  (b3.drop (b3.takeWhile (fun u => u ≠ ')')).length).headD ' ' = ')' := by
                obtain ⟨c4, c5⟩ := hC2
                refine ⟨?_, ?_⟩
                · intro e
                  rw [e] at hlenU
                  exact c4 (List.length_eq_zero.mp (by simpa using hlenU))
                · rw [hudR, ← sim_headD hudrop ' ', ← hudL]; exact c5
              rw [if_pos hC2, if_pos hC2R]
              obtain ⟨c4, c5⟩ := hC2
              obtain ⟨d4, d5⟩ := hC2R
              rw [hudL] at c5
              rw [hudR] at d5
              obtain ⟨a4, ha4⟩ : ∃ v, a3.dropWhile (fun u => u ≠ ')') = ')' :: v := by
                rcases dropWhile_ne_shape ')' a3 with hsh | ⟨v, hv⟩
                · rw [hsh] at c5; cases c5
                · exact ⟨_, hv⟩
              obtain ⟨b4, hb4⟩ : ∃ v, b3.dropWhile (fun u => u ≠ ')') = ')' :: v := by
                rcases dropWhile_ne_shape ')' b3 with hsh | ⟨v, hv⟩
                · rw [hsh] at d5; cases d5
                · exact ⟨_, hv⟩
              have hab4 : Sim A B a4 b4 := by
                rw [ha4, hb4] at hudrop
                exact sim_cons_inv (by decide) hudrop
              refine Or.inr ⟨[], [], _, _, _, _, a4, b4, ?_, ?_, .nil, htake, hutake, hab4⟩
              · rw [hudL, ha4]; rfl
              · rw [hudR, hb4]; rfl
            · have hC2R : ¬ (b3.takeWhile (fun u => u ≠ ')') ≠ [] ∧
                  (b3.drop (b3.takeWhile (fun u => u ≠ ')')).length).headD ' ' = ')') := by
                intro hR
                apply hC2
                obtain ⟨c4, c5⟩ := hR
                refine ⟨?_, ?_⟩
                · intro e
                  rw [e] at hlenU
                  exact c4 (List.length_eq_zero.mp (by simpa using hlenU.symm))
                · rw [hudL, sim_headD hudrop ' ', ← hudR]; exact c5
              rw [if_neg hC2, if_neg hC2R]
              have hrec := ih [] [] a b (by simp at hn ⊢; omega) rfl rfl rfl hab
              simp only [List.nil_append] at hrec
              rcases hrec with ⟨e1, e2⟩ | ⟨pL, pR, tL2, tR2, uL2, uR2, sL2, sR2,
                e1, e2, s1, s2, s3, s4⟩
              · rw [e1, e2]; exact Or.inl ⟨rfl, rfl⟩
              · rw [e1, e2]
                exact Or.inr ⟨'[' :: pL, '[' :: pR, tL2, tR2, uL2, uR2, sL2, sR2, rfl, rfl,
                  .cons '[' s1, s2, s3, s4⟩
          · have hC1R : ¬ (b.takeWhile (fun u => u ≠ ']') ≠ [] ∧
                (b.drop (b.takeWhile (fun u => u ≠ ']')).length).headD ' ' = ']' ∧
                ((b.drop (b.takeWhile (fun u => u ≠ ']')).length).drop 1).headD ' ' = '(') := by
              intro hR
              apply hC1
              obtain ⟨c1, c2, c3⟩ := hR
              refine ⟨?_, ?_, ?_⟩
              · intro e
                rw [e] at hlenT
                exact c1 (List.length_eq_zero.mp (by simpa using hlenT.symm))
              · rw [hdropL, sim_headD hdropS ' ', ← hdropR]; exact c2
              · rw [hdropL, ← (sim_drop1_head hok '(' (by decide) hdropS).mpr
                  (by rw [← hdropR]; exact c3)]
            rw [if_neg hC1, if_neg hC1R]
            have hrec := ih [] [] a b (by simp at hn ⊢; omega) rfl rfl rfl hab
            simp only [List.nil_append] at hrec
            rcases hrec with ⟨e1, e2⟩ | ⟨pL, pR, tL2, tR2, uL2, uR2, sL2, sR2,
              e1, e2, s1, s2, s3, s4⟩
            · rw [e1, e2]; exact Or.inl ⟨rfl, rfl⟩
            · rw [e1, e2]
              exact Or.inr ⟨'[' :: pL, '[' :: pR, tL2, tR2, uL2, uR2, sL2, sR2, rfl, rfl,
                .cons '[' s1, s2, s3, s4⟩
        · simp only [matchLink, if_neg hc, List.append_eq]
          have hrec := ih [] [] a b (by simp at hn ⊢; omega) rfl rfl rfl hab
          simp only [List.nil_append] at hrec
          rcases hrec with ⟨e1, e2⟩ | ⟨pL, pR, tL2, tR2, uL2, uR2, sL2, sR2,
            e1, e2, s1, s2, s3, s4⟩
          · rw [e1, e2]; exact Or.inl ⟨rfl, rfl⟩
          · rw [e1, e2]
            exact Or.inr ⟨c :: pL, c :: pR, tL2, tR2, uL2, uR2, sL2, sR2, rfl, rfl,
              .cons c s1, s2, s3, s4⟩

/-- `SimP`-related strings have equal length. -/
lemma simP_length {A B : StyleConfig} (hok : cfgSimOk A B = true) {l r : Str}
    (h : SimP A B l r) : l.length = r.length := by
  rcases h with h | ⟨x, y, l', r', hxy, h, rfl, rfl⟩
  · exact sim_length hok h
  · obtain ⟨hlen, _, _⟩ := simPairs_ok hok hxy
    simp [hlen, sim_length hok h]

/-- `takeWhile (· ≠ d)`/`dropWhile (· ≠ d)` on `SimP`-related strings:
the take parts stay `SimP`, the drop parts are plainly `Sim`. -/
lemma simP_takeWhile_ne {A B : StyleConfig} (hok : cfgSimOk A B = true) (d : Char)
    (hd1 : inertChar d = false) (hd2 : simGuard d = false) {l r : Str}
    (h : SimP A B l r) :
    SimP A B (l.takeWhile (fun a => a ≠ d)) (r.takeWhile (fun a => a ≠ d)) ∧
    Sim A B (l.dropWhile (fun a => a ≠ d)) (r.dropWhile (fun a => a ≠ d)) := by
  rcases h with h | ⟨x, y, l', r', hxy, h, rfl, rfl⟩
  · obtain ⟨h1, h2⟩ := sim_takeWhile_ne hok d hd1 hd2 h
    exact ⟨Or.inl h1, h2⟩
  · obtain ⟨hlen, hxi, hyi⟩ := simPairs_ok hok hxy
    have hx : ∀ u ∈ x, (fun a => decide (a ≠ d)) u = true := by
      intro u hu
      rw [inertStr, List.all_eq_true] at hxi
      simpa using inert_ne (hxi u hu) hd1
    have hy : ∀ u ∈ y, (fun a => decide (a ≠ d)) u = true := by
      intro u hu
      rw [inertStr, List.all_eq_true] at hyi
      simpa using inert_ne (hyi u hu) hd1
    have hxx := takeWhile_append_of (l := l') hx
    have hyy := takeWhile_append_of (l := r') hy
    obtain ⟨h1, h2⟩ := sim_takeWhile_ne hok d hd1 hd2 h
    rw [hxx.1, hxx.2, hyy.1, hyy.2]
    exact ⟨Or.inr ⟨x, y, _, _, hxy, h1, rfl, rfl⟩, h2⟩

/-- The colored-bold closing scan behaves identically on the two sides of
a `Sim` relation; on success the content is related, the color capture may
start exactly at a substituted literal, and the rest is related. -/
lemma cstrScan_simT {A B : StyleConfig} (hok : cfgSimOk A B = true) :
    ∀ n xs ys l r, (xs ++ l).length ≤ n → xs.length = ys.length →
    inertStr xs = true → inertStr ys = true → Sim A B l r →
    (cstrScan (xs ++ l) = none ∧ cstrScan (ys ++ r) = none) ∨
    (∃ gL gR colL colR sL sR,
      cstrScan (xs ++ l) = some (xs ++ gL, colL, sL) ∧
      cstrScan (ys ++ r) = some (ys ++ gR, colR, sR) ∧
      Sim A B gL gR ∧ SimP A B colL colR ∧ Sim A B sL sR) := by
  intro n
  induction n with
  | zero =>
    intro xs ys l r hn hlen hxs hys h
    have h1 : xs = [] := by
      cases xs with
      | nil => rfl
      | cons a t => simp at hn
    have h2 : l = [] := by
      cases l with
      | nil => rfl
      | cons a t => rw [h1] at hn; simp at hn
    have h3 : ys = [] := by rw [h1] at hlen; exact List.length_eq_zero.mp hlen.symm
    have h4 : r = [] := by rw [h2] at h; exact sim_nil_inv h
    subst h1; subst h2; subst h3; subst h4
    exact Or.inl ⟨rfl, rfl⟩
  | succ n ih =>
    intro xs ys l r hn hlen hxs hys h
    cases xs with
    | cons cx xt =>
      obtain ⟨cy, yt, hy0⟩ : ∃ cy yt, ys = cy :: yt := by
        cases ys with
        | nil => simp at hlen
        | cons u v => exact ⟨u, v, rfl⟩
      subst hy0
      have hcx : inertChar cx = true := by
        rw [inertStr, List.all_cons, Bool.and_eq_true] at hxs; exact hxs.1
      have hcy : inertChar cy = true := by
        rw [inertStr, List.all_cons, Bool.and_eq_true] at hys; exact hys.1
      have hxt : inertStr xt = true := by
        rw [inertStr, List.all_cons, Bool.and_eq_true] at hxs; exact hxs.2
      have hyt : inertStr yt = true := by
        rw [inertStr, List.all_cons, Bool.and_eq_true] at hys; exact hys.2
      have hne1 : cx ≠ '\n' := inert_ne hcx (by decide)
      have hne2 : cy ≠ '\n' := inert_ne hcy (by decide)
      simp only [List.cons_append, cstrScan, if_neg hne1, if_neg hne2, List.append_eq]
      cases xt with
      | cons xc xt2 =>
        obtain ⟨yc, yt2, hy1⟩ : ∃ yc yt2, yt = yc :: yt2 := by
          cases yt with
          | nil => simp at hlen
          | cons u v => exact ⟨u, v, rfl⟩
        subst hy1
        have hxc : inertChar xc = true := by
          rw [inertStr, List.all_cons, Bool.and_eq_true] at hxt; exact hxt.1
        have hyc : inertChar yc = true := by
          rw [inertStr, List.all_cons, Bool.and_eq_true] at hyt; exact hyt.1
        have hpre1 : cstrLit.isPrefixOf ((xc :: xt2) ++ l) = false := by
          rw [List.cons_append, show cstrLit = '*' :: ('*' :: lbrace :: str "color:") from rfl,
            List.isPrefixOf_cons₂]
          have h9 : ('*' == xc) = false := by
            rw [beq_eq_false_iff_ne]; exact Ne.symm (inert_ne hxc (by decide))
          rw [h9, Bool.false_and]
        have hpre2 : cstrLit.isPrefixOf ((yc :: yt2) ++ r) = false := by
          rw [List.cons_append, show cstrLit = '*' :: ('*' :: lbrace :: str "color:") from rfl,
            List.isPrefixOf_cons₂]
          have h9 : ('*' == yc) = false := by
            rw [beq_eq_false_iff_ne]; exact Ne.symm (inert_ne hyc (by decide))
          rw [h9, Bool.false_and]
        rw [if_neg (by rw [hpre1]; simp), if_neg (by rw [hpre2]; simp)]
        have hrec := ih (xc :: xt2) (yc :: yt2) l r (by simp at hn ⊢; omega)
          (by simpa using hlen) hxt hyt h
        rcases hrec with ⟨e1, e2⟩ | ⟨gL, gR, colL, colR, sL, sR, e1, e2, s1, s2, s3⟩
        · rw [e1, e2]; exact Or.inl ⟨rfl, rfl⟩
        · rw [e1, e2]
          refine Or.inr ⟨gL, gR, colL, colR, sL, sR, ?_, ?_, s1, s2, s3⟩
          · simp
          · simp
      | nil =>
        have hyt0 : yt = [] := List.length_eq_zero.mp (by simpa using hlen)
        subst hyt0
        simp only [List.nil_append]
        obtain ⟨heq, himp⟩ := sim_isPrefix hok cstrLit (by decide) h
        by_cases hpre : cstrLit.isPrefixOf l = true
        · have hpreR : cstrLit.isPrefixOf r = true := by rw [← heq]; exact hpre
          rw [if_pos hpre, if_pos hpreR]
          have hr3 := himp hpre
          obtain ⟨hcolP, hdropP⟩ := simP_takeWhile_ne hok rbrace (by decide) (by decide) hr3
          have hlenC := simP_length hok hcolP
          have hduL := drop_takeWhile_length (fun u => decide (u ≠ rbrace)) (l.drop cstrLit.length)
          have hduR := drop_takeWhile_length (fun u => decide (u ≠ rbrace)) (r.drop cstrLit.length)
          by_cases hC : (l.drop cstrLit.length).takeWhile (fun u => u ≠ rbrace) ≠ [] ∧
              ((l.drop cstrLit.length).drop
                ((l.drop cstrLit.length).takeWhile (fun u => u ≠ rbrace)).length).headD ' ' = rbrace
          · have hCR : (r.drop cstrLit.length).takeWhile (fun u => u ≠ rbrace) ≠ [] ∧
                ((r.drop cstrLit.length).drop
                  ((r.drop cstrLit.length).takeWhile (fun u => u ≠ rbrace)).length).headD ' ' =
                  rbrace := by
              obtain ⟨c1, c2⟩ := hC
              refine ⟨?_, ?_⟩
              · intro e
                rw [e] at hlenC
                exact c1 (List.length_eq_zero.mp (by simpa using hlenC))
              · rw [hduR, ← sim_headD hdropP ' ', ← hduL]; exact c2
            rw [if_pos hC, if_pos hCR]
            obtain ⟨c1, c2⟩ := hC
            obtain ⟨d1, d2⟩ := hCR
            rw [hduL] at c2
            rw [hduR] at d2
            obtain ⟨sl2, hsl⟩ : ∃ v, (l.drop cstrLit.length).dropWhile
                (fun u => u ≠ rbrace) = rbrace :: v := by
              rcases dropWhile_ne_shape rbrace (l.drop cstrLit.length) with hsh | ⟨v, hv⟩
              · rw [hsh] at c2; cases c2
              · exact ⟨_, hv⟩
            obtain ⟨sr2, hsr⟩ : ∃ v, (r.drop cstrLit.length).dropWhile
                (fun u => u ≠ rbrace) = rbrace :: v := by
              rcases dropWhile_ne_shape rbrace (r.drop cstrLit.length) with hsh | ⟨v, hv⟩
              · rw [hsh] at d2; cases d2
              · exact ⟨_, hv⟩
            have hs : Sim A B sl2 sr2 := by
              rw [hsl, hsr] at hdropP
              exact sim_cons_inv (by decide) hdropP
            refine Or.inr ⟨[], [], _, _, sl2, sr2, ?_, ?_, .nil, hcolP, hs⟩
            · rw [hduL, hsl]; rfl
            · rw [hduR, hsr]; rfl
          · have hCR : ¬ ((r.drop cstrLit.length).takeWhile (fun u => u ≠ rbrace) ≠ [] ∧
                ((r.drop cstrLit.length).drop
                  ((r.drop cstrLit.length).takeWhile (fun u => u ≠ rbrace)).length).headD ' ' =
                  rbrace) := by
              intro hR
              apply hC
              obtain ⟨c1, c2⟩ := hR
              refine ⟨?_, ?_⟩
              · intro e
                rw [e] at hlenC
                exact c1 (List.length_eq_zero.mp (by simpa using hlenC.symm))
              · rw [hduL, sim_headD hdropP ' ', ← hduR]; exact c2
            rw [if_neg hC, if_neg hCR]
            have hrec := ih [] [] l r (by simp at hn ⊢; omega) rfl rfl rfl h
            simp only [List.nil_append] at hrec
            rcases hrec with ⟨e1, e2⟩ | ⟨gL, gR, colL, colR, sL, sR, e1, e2, s1, s2, s3⟩
            · rw [e1, e2]; exact Or.inl ⟨rfl, rfl⟩
            · rw [e1, e2]
              refine Or.inr ⟨gL, gR, colL, colR, sL, sR, ?_, ?_, s1, s2, s3⟩
              · simp
              · simp
        · have hpre2 : ¬ cstrLit.isPrefixOf r = true := fun hp => hpre (by rw [heq]; exact hp)
          rw [if_neg (by simpa using hpre), if_neg (by simpa using hpre2)]
          have hrec := ih [] [] l r (by simp at hn ⊢; omega) rfl rfl rfl h
          simp only [List.nil_append] at hrec
          rcases hrec with ⟨e1, e2⟩ | ⟨gL, gR, colL, colR, sL, sR, e1, e2, s1, s2, s3⟩
          · rw [e1, e2]; exact Or.inl ⟨rfl, rfl⟩
          · rw [e1, e2]
            refine Or.inr ⟨gL, gR, colL, colR, sL, sR, ?_, ?_, s1, s2, s3⟩
            · simp
            · simp
    | nil =>
      have hys0 : ys = [] := List.length_eq_zero.mp (by simpa using hlen.symm)
      subst hys0
      simp only [List.nil_append] at hn ⊢
      cases h with
      | nil => exact Or.inl ⟨rfl, rfl⟩
      | @cons c a b hab =>
        by_cases hnl : c = '\n'
        · subst hnl
          simp only [cstrScan, if_pos rfl]
          exact Or.inl ⟨rfl, rfl⟩
        · simp only [cstrScan, if_neg hnl, List.append_eq]
          obtain ⟨heq, himp⟩ := sim_isPrefix hok cstrLit (by decide) hab
          by_cases hpre : cstrLit.isPrefixOf a = true
          · have hpreR : cstrLit.isPrefixOf b = true := by rw [← heq]; exact hpre
            rw [if_pos hpre, if_pos hpreR]
            have hr3 := himp hpre
            obtain ⟨hcolP, hdropP⟩ := simP_takeWhile_ne hok rbrace (by decide) (by decide) hr3
            have hlenC := simP_length hok hcolP
            have hduL := drop_takeWhile_length (fun u => decide (u ≠ rbrace)) (a.drop cstrLit.length)
            have hduR := drop_takeWhile_length (fun u => decide (u ≠ rbrace)) (b.drop cstrLit.length)
            by_cases hC : (a.drop cstrLit.length).takeWhile (fun u => u ≠ rbrace) ≠ [] ∧
                ((a.drop cstrLit.length).drop
                  ((a.drop cstrLit.length).takeWhile (fun u => u ≠ rbrace)).length).headD ' ' =
                  rbrace
            · have hCR : (b.drop cstrLit.length).takeWhile (fun u => u ≠ rbrace) ≠ [] ∧
                  ((b.drop cstrLit.length).drop
                    ((b.drop cstrLit.length).takeWhile (fun u => u ≠ rbrace)).length).headD ' ' =
                    rbrace := by
                obtain ⟨c1, c2⟩ := hC
                refine ⟨?_, ?_⟩
                · intro e
                  rw [e] at hlenC
                  exact c1 (List.length_eq_zero.mp (by simpa using hlenC))
                · rw [hduR, ← sim_headD hdropP ' ', ← hduL]; exact c2
              rw [if_pos hC, if_pos hCR]
              obtain ⟨c1, c2⟩ := hC
              obtain ⟨d1, d2⟩ := hCR
              rw [hduL] at c2
              rw [hduR] at d2
              obtain ⟨sl2, hsl⟩ : ∃ v, (a.drop cstrLit.length).dropWhile
                  (fun u => u ≠ rbrace) = rbrace :: v := by
                rcases dropWhile_ne_shape rbrace (a.drop cstrLit.length) with hsh | ⟨v, hv⟩
                · rw [hsh] at c2; cases c2
                · exact ⟨_, hv⟩
              obtain ⟨sr2, hsr⟩ : ∃ v, (b.drop cstrLit.length).dropWhile
                  (fun u => u ≠ rbrace) = rbrace :: v := by
                rcases dropWhile_ne_shape rbrace (b.drop cstrLit.length) with hsh | ⟨v, hv⟩
                · rw [hsh] at d2; cases d2
                · exact ⟨_, hv⟩
              have hs : Sim A B sl2 sr2 := by
                rw [hsl, hsr] at hdropP
                exact sim_cons_inv (by decide) hdropP
              refine Or.inr ⟨[c], [c], _, _, sl2, sr2, ?_, ?_, .cons c .nil, hcolP, hs⟩
              · rw [hduL, hsl]; rfl
              · rw [hduR, hsr]; rfl
            · have hCR : ¬ ((b.drop cstrLit.length).takeWhile (fun u => u ≠ rbrace) ≠ [] ∧
                  ((b.drop cstrLit.length).drop
                    ((b.drop cstrLit.length).takeWhile (fun u => u ≠ rbrace)).length).headD ' ' =
                    rbrace) := by
                intro hR
                apply hC
                obtain ⟨c1, c2⟩ := hR
                refine ⟨?_, ?_⟩
                · intro e
                  rw [e] at hlenC
                  exact c1 (List.length_eq_zero.mp (by simpa using hlenC.symm))
                · rw [hduL, sim_headD hdropP ' ', ← hduR]; exact c2
              rw [if_neg hC, if_neg hCR]
              have hrec := ih [] [] a b (by simp at hn ⊢; omega) rfl rfl rfl hab
              simp only [List.nil_append] at hrec
              rcases hrec with ⟨e1, e2⟩ | ⟨gL, gR, colL, colR, sL, sR, e1, e2, s1, s2, s3⟩
              · rw [e1, e2]; exact Or.inl ⟨rfl, rfl⟩
              · rw [e1, e2]
                exact Or.inr ⟨c :: gL, c :: gR, colL, colR, sL, sR, rfl, rfl,
                  .cons c s1, s2, s3⟩
          · have hpre2 : ¬ cstrLit.isPrefixOf b = true := fun hp => hpre (by rw [heq]; exact hp)
            rw [if_neg (by simpa using hpre), if_neg (by simpa using hpre2)]
            have hrec := ih [] [] a b (by simp at hn ⊢; omega) rfl rfl rfl hab
            simp only [List.nil_append] at hrec
            rcases hrec with ⟨e1, e2⟩ | ⟨gL, gR, colL, colR, sL, sR, e1, e2, s1, s2, s3⟩
            · rw [e1, e2]; exact Or.inl ⟨rfl, rfl⟩
            · rw [e1, e2]
              exact Or.inr ⟨c :: gL, c :: gR, colL, colR, sL, sR, rfl, rfl,
                .cons c s1, s2, s3⟩
      | @subst c x y a b hg hxy hab =>
        obtain ⟨plen, pxi, pyi⟩ := simPairs_ok hok hxy
        have hnl : c ≠ '\n' := fun e => by rw [e] at hg; cases hg
        simp only [cstrScan, if_neg hnl, List.append_eq]
        cases x with
        | nil =>
          have hy0 : y = [] := List.length_eq_zero.mp (by simpa using plen.symm)
          subst hy0
          simp only [List.nil_append]
          obtain ⟨heq, himp⟩ := sim_isPrefix hok cstrLit (by decide) hab
          by_cases hpre : cstrLit.isPrefixOf a = true
          · have hpreR : cstrLit.isPrefixOf b = true := by rw [← heq]; exact hpre
            rw [if_pos hpre, if_pos hpreR]
            have hr3 := himp hpre
            obtain ⟨hcolP, hdropP⟩ := simP_takeWhile_ne hok rbrace (by decide) (by decide) hr3
            have hlenC := simP_length hok hcolP
            have hduL := drop_takeWhile_length (fun u => decide (u ≠ rbrace)) (a.drop cstrLit.length)
            have hduR := drop_takeWhile_length (fun u => decide (u ≠ rbrace)) (b.drop cstrLit.length)
            by_cases hC : (a.drop cstrLit.length).takeWhile (fun u => u ≠ rbrace) ≠ [] ∧
                ((a.drop cstrLit.length).drop
                  ((a.drop cstrLit.length).takeWhile (fun u => u ≠ rbrace)).length).headD ' ' =
                  rbrace
            · have hCR : (b.drop cstrLit.length).takeWhile (fun u => u ≠ rbrace) ≠ [] ∧
                  ((b.drop cstrLit.length).drop
                    ((b.drop cstrLit.length).takeWhile (fun u => u ≠ rbrace)).length).headD ' ' =
                    rbrace := by
                obtain ⟨c1, c2⟩ := hC
                refine ⟨?_, ?_⟩
                · intro e
                  rw [e] at hlenC
                  exact c1 (List.length_eq_zero.mp (by simpa using hlenC))
                · rw [hduR, ← sim_headD hdropP ' ', ← hduL]; exact c2
              rw [if_pos hC, if_pos hCR]
              obtain ⟨c1, c2⟩ := hC
              obtain ⟨d1, d2⟩ := hCR
              rw [hduL] at c2
              rw [hduR] at d2
              obtain ⟨sl2, hsl⟩ : ∃ v, (a.drop cstrLit.length).dropWhile
                  (fun u => u ≠ rbrace) = rbrace :: v := by
                rcases dropWhile_ne_shape rbrace (a.drop cstrLit.length) with hsh | ⟨v, hv⟩
                · rw [hsh] at c2; cases c2
                · exact ⟨_, hv⟩
              obtain ⟨sr2, hsr⟩ : ∃ v, (b.drop cstrLit.length).dropWhile
                  (fun u => u ≠ rbrace) = rbrace :: v := by
                rcases dropWhile_ne_shape rbrace (b.drop cstrLit.length) with hsh | ⟨v, hv⟩
                · rw [hsh] at d2; cases d2
                · exact ⟨_, hv⟩
              have hs : Sim A B sl2 sr2 := by
                rw [hsl, hsr] at hdropP
                exact sim_cons_inv (by decide) hdropP
              refine Or.inr ⟨[c], [c], _, _, sl2, sr2, ?_, ?_, .cons c .nil, hcolP, hs⟩
              · rw [hduL, hsl]; rfl
              · rw [hduR, hsr]; rfl
            · have hCR : ¬ ((b.drop cstrLit.length).takeWhile (fun u => u ≠ rbrace) ≠ [] ∧
                  ((b.drop cstrLit.length).drop
                    ((b.drop cstrLit.length).takeWhile (fun u => u ≠ rbrace)).length).headD ' ' =
                    rbrace) := by
                intro hR
                apply hC
                obtain ⟨c1, c2⟩ := hR
                refine ⟨?_, ?_⟩
                · intro e
                  rw [e] at hlenC
                  exact c1 (List.length_eq_zero.mp (by simpa using hlenC.symm))
                · rw [hduL, sim_headD hdropP ' ', ← hduR]; exact c2
              rw [if_neg hC, if_neg hCR]
              have hrec := ih [] [] a b (by simp at hn ⊢; omega) rfl rfl rfl hab
              simp only [List.nil_append] at hrec
              rcases hrec with ⟨e1, e2⟩ | ⟨gL, gR, colL, colR, sL, sR, e1, e2, s1, s2, s3⟩
              · rw [e1, e2]; exact Or.inl ⟨rfl, rfl⟩
              · rw [e1, e2]
                exact Or.inr ⟨c :: gL, c :: gR, colL, colR, sL, sR, rfl, rfl,
                  .cons c s1, s2, s3⟩
          · have hpre2 : ¬ cstrLit.isPrefixOf b = true := fun hp => hpre (by rw [heq]; exact hp)
            rw [if_neg (by simpa using hpre), if_neg (by simpa using hpre2)]
            have hrec := ih [] [] a b (by simp at hn ⊢; omega) rfl rfl rfl hab
            simp only [List.nil_append] at hrec
            rcases hrec with ⟨e1, e2⟩ | ⟨gL, gR, colL, colR, sL, sR, e1, e2, s1, s2, s3⟩
            · rw [e1, e2]; exact Or.inl ⟨rfl, rfl⟩
            · rw [e1, e2]
              exact Or.inr ⟨c :: gL, c :: gR, colL, colR, sL, sR, rfl, rfl,
                .cons c s1, s2, s3⟩
        | cons xc xt2 =>
          obtain ⟨yc, yt2, hy1⟩ : ∃ yc yt2, y = yc :: yt2 := by
            cases y with
            | nil => simp at plen
            | cons u v => exact ⟨u, v, rfl⟩
          subst hy1
          have hxc : inertChar xc = true := by
            rw [inertStr, List.all_cons, Bool.and_eq_true] at pxi; exact pxi.1
          have hyc : inertChar yc = true := by
            rw [inertStr, List.all_cons, Bool.and_eq_true] at pyi; exact pyi.1
          have hpre1 : cstrLit.isPrefixOf ((xc :: xt2) ++ a) = false := by
            rw [List.cons_append, show cstrLit = '*' :: ('*' :: lbrace :: str "color:") from rfl,
              List.isPrefixOf_cons₂]
            have h9 : ('*' == xc) = false := by
              rw [beq_eq_false_iff_ne]; exact Ne.symm (inert_ne hxc (by decide))
            rw [h9, Bool.false_and]
          have hpre2 : cstrLit.isPrefixOf ((yc :: yt2) ++ b) = false := by
            rw [List.cons_append, show cstrLit = '*' :: ('*' :: lbrace :: str "color:") from rfl,
              List.isPrefixOf_cons₂]
            have h9 : ('*' == yc) = false := by
              rw [beq_eq_false_iff_ne]; exact Ne.symm (inert_ne hyc (by decide))
            rw [h9, Bool.false_and]
          rw [if_neg (by rw [hpre1]; simp), if_neg (by rw [hpre2]; simp)]
          have hrec := ih (xc :: xt2) (yc :: yt2) a b (by simp at hn ⊢; omega)
            (by simpa using plen) pxi pyi hab
          rcases hrec with ⟨e1, e2⟩ | ⟨gL, gR, colL, colR, sL, sR, e1, e2, s1, s2, s3⟩
          · rw [e1, e2]; exact Or.inl ⟨rfl, rfl⟩
          · rw [e1, e2]
            refine Or.inr ⟨c :: ((xc :: xt2) ++ gL), c :: ((yc :: yt2) ++ gR), colL, colR,
              sL, sR, ?_, ?_, .subst c (xc :: xt2) (yc :: yt2) hg hxy s1, s2, s3⟩
            · simp
            · simp

/-- The colored-span matcher behaves identically on the two sides of a
`Sim` relation; on success the text captures are related and the color
capture may start exactly at a substituted literal. -/
lemma matchCSpan_simT {A B : StyleConfig} (hok : cfgSimOk A B = true) :
    ∀ n xs ys l r, (xs ++ l).length ≤ n → xs.length = ys.length →
    inertStr xs = true → inertStr ys = true → Sim A B l r →
    (matchCSpan (xs ++ l) = none ∧ matchCSpan (ys ++ r) = none) ∨
    (∃ pL pR tL tR colL colR sL sR,
      matchCSpan (xs ++ l) = some (xs ++ pL, tL, colL, sL) ∧
      matchCSpan (ys ++ r) = some (ys ++ pR, tR, colR, sR) ∧
      Sim A B pL pR ∧ Sim A B tL tR ∧ SimP A B colL colR ∧ Sim A B sL sR) := by
  intro n
  induction n with
  | zero =>
    intro xs ys l r hn hlen hxs hys h
    have h1 : xs = [] := by
      cases xs with
      | nil => rfl
      | cons a t => simp at hn
    have h2 : l = [] := by
      cases l with
      | nil => rfl
      | cons a t => rw [h1] at hn; simp at hn
    have h3 : ys = [] := by rw [h1] at hlen; exact List.length_eq_zero.mp hlen.symm
    have h4 : r = [] := by rw [h2] at h; exact sim_nil_inv h
    subst h1; subst h2; subst h3; subst h4
    exact Or.inl ⟨rfl, rfl⟩
  | succ n ih =>
    intro xs ys l r hn hlen hxs hys h
    cases xs with
    | cons cx xt =>
      obtain ⟨cy, yt, hy0⟩ : ∃ cy yt, ys = cy :: yt := by
        cases ys with
        | nil => simp at hlen
        | cons u v => exact ⟨u, v, rfl⟩
      subst hy0
      have hcx : inertChar cx = true := by
        rw [inertStr, List.all_cons, Bool.and_eq_true] at hxs; exact hxs.1
      have hcy : inertChar cy = true := by
        rw [inertStr, List.all_cons, Bool.and_eq_true] at hys; exact hys.1
      have hxt : inertStr xt = true := by
        rw [inertStr, List.all_cons, Bool.and_eq_true] at hxs; exact hxs.2
      have hyt : inertStr yt = true := by
        rw [inertStr, List.all_cons, Bool.and_eq_true] at hys; exact hys.2
      have hrec := ih xt yt l r (by simp at hn ⊢; omega)
        (by simpa using hlen) hxt hyt h
      have hne1 : cx ≠ '[' := inert_ne hcx (by decide)
      have hne2 : cy ≠ '[' := inert_ne hcy (by decide)
      simp only [List.cons_append, matchCSpan, if_neg hne1, if_neg hne2, List.append_eq]
      rcases hrec with ⟨e1, e2⟩ | ⟨pL, pR, tL, tR, colL, colR, sL, sR, e1, e2, s1, s2, s3, s4⟩
      · rw [e1, e2]; exact Or.inl ⟨rfl, rfl⟩
      · rw [e1, e2]
        refine Or.inr ⟨pL, pR, tL, tR, colL, colR, sL, sR, ?_, ?_, s1, s2, s3, s4⟩
        · simp
        · simp
    | nil =>
      have hys0 : ys = [] := List.length_eq_zero.mp (by simpa using hlen.symm)
      subst hys0
      simp only [List.nil_append] at hn ⊢
      cases h with
      | nil => exact Or.inl ⟨rfl, rfl⟩
      | @subst c x y a b hg hxy hab =>
        obtain ⟨plen, pxi, pyi⟩ := simPairs_ok hok hxy
        have hcg : c ≠ '[' := fun e => by rw [e] at hg; cases hg
        simp only [matchCSpan, if_neg hcg, List.append_eq]
        have hrec := ih x y a b (by simp at hn ⊢; omega) plen pxi pyi hab
        rcases hrec with ⟨e1, e2⟩ | ⟨pL, pR, tL, tR, colL, colR, sL, sR, e1, e2, s1, s2, s3, s4⟩
        · rw [e1, e2]; exact Or.inl ⟨rfl, rfl⟩
        · rw [e1, e2]
          refine Or.inr ⟨c :: (x ++ pL), c :: (y ++ pR), tL, tR, colL, colR, sL, sR, ?_, ?_,
            .subst c x y hg hxy s1, s2, s3, s4⟩
          · simp
          · simp
      | @cons c a b hab =>
        by_cases hc : c = '['
        · subst hc
          obtain ⟨htake, hdropS⟩ := sim_takeWhile_ne hok ']' (by decide) (by decide) hab
          have hlenT : (a.takeWhile (fun u => u ≠ ']')).length =
              (b.takeWhile (fun u => u ≠ ']')).length := sim_length hok htake
          have hdropL : a.drop (a.takeWhile (fun u => u ≠ ']')).length =
              a.dropWhile (fun u => u ≠ ']') := drop_takeWhile_length _ a
          have hdropR : b.drop (b.takeWhile (fun u => u ≠ ']')).length =
              b.dropWhile (fun u => u ≠ ']') := drop_takeWhile_length _ b
          simp only [matchCSpan, if_pos rfl, List.append_eq]
          by_cases hC1 : a.takeWhile (fun u => u ≠ ']') ≠ [] ∧
              (a.drop (a.takeWhile (fun u => u ≠ ']')).length).headD ' ' = ']' ∧
              (lbrace :: str "color:").isPrefixOf
                ((a.drop (a.takeWhile (fun u => u ≠ ']')).length).drop 1) = true
          · obtain ⟨c1, c2, c3⟩ := hC1
            rw [hdropL] at c2 c3
            obtain ⟨a2, ha2⟩ : ∃ v, a.dropWhile (fun u => u ≠ ']') = ']' :: v := by
              rcases dropWhile_ne_shape ']' a with hsh | ⟨v, hv⟩
              · rw [hsh] at c2; cases c2
              · exact ⟨_, hv⟩
            have hbR : (b.takeWhile (fun u => u ≠ ']')) ≠ [] := by
              intro e
              rw [e] at hlenT
              exact c1 (List.length_eq_zero.mp (by simpa using hlenT))
            have hc2R : (b.drop (b.takeWhile (fun u => u ≠ ']')).length).headD ' ' = ']' := by
              rw [hdropR, ← sim_headD hdropS ' ', ← hdropL]
              rw [hdropL, ha2]; rfl
            obtain ⟨b2, hb2⟩ : ∃ v, b.dropWhile (fun u => u ≠ ']') = ']' :: v := by
              rcases dropWhile_ne_shape ']' b with hsh | ⟨v, hv⟩
              · rw [hdropR, hsh] at hc2R; cases hc2R
              · exact ⟨_, hv⟩
            have hab2 : Sim A B a2 b2 := by
              rw [ha2, hb2] at hdropS
              exact sim_cons_inv (by decide) hdropS
            rw [ha2] at c3
            obtain ⟨heq2, himp2⟩ := sim_isPrefix hok (lbrace :: str "color:") (by decide) hab2
            have hc3' : (lbrace :: str "color:").isPrefixOf a2 = true := by
              simpa using c3
            have hc3R : (lbrace :: str "color:").isPrefixOf b2 = true := by
              rw [← heq2]; exact hc3'
            have hC1R : (b.takeWhile (fun u => u ≠ ']')) ≠ [] ∧
                (b.drop (b.takeWhile (fun u => u ≠ ']')).length).headD ' ' = ']' ∧
                (lbrace :: str "color:").isPrefixOf
                  ((b.drop (b.takeWhile (fun u => u ≠ ']')).length).drop 1) = true := by
              refine ⟨hbR, hc2R, ?_⟩
              rw [hdropR, hb2]
              simpa using hc3R
            have hC1L : a.takeWhile (fun u => u ≠ ']') ≠ [] ∧
                (a.drop (a.takeWhile (fun u => u ≠ ']')).length).headD ' ' = ']' ∧
                (lbrace :: str "color:").isPrefixOf
                  ((a.drop (a.takeWhile (fun u => u ≠ ']')).length).drop 1) = true :=
              ⟨c1, by rw [hdropL, ha2]; rfl, by rw [hdropL, ha2]; simpa using hc3'⟩
            rw [if_pos hC1L, if_pos hC1R]
            have hr3 := himp2 hc3'
            have hr3L : ((a.drop (a.takeWhile (fun u => u ≠ ']')).length).drop 1).drop
                (lbrace :: str "color:").length = a2.drop (lbrace :: str "color:").length := by
              rw [hdropL, ha2]; rfl
            have hr3R : ((b.drop (b.takeWhile (fun u => u ≠ ']')).length).drop 1).drop
                (lbrace :: str "color:").length = b2.drop (lbrace :: str "color:").length := by
              rw [hdropR, hb2]; rfl
            rw [hr3L, hr3R]
            obtain ⟨hcolP, hdropP⟩ := simP_takeWhile_ne hok rbrace (by decide) (by decide) hr3
            have hlenC := simP_length hok hcolP
            have hduL := drop_takeWhile_length (fun u => decide (u ≠ rbrace))
              (a2.drop (lbrace :: str "color:").length)
            have hduR := drop_takeWhile_length (fun u => decide (u ≠ rbrace))
              (b2.drop (lbrace :: str "color:").length)
            by_cases hC2 : (a2.drop (lbrace :: str "color:").length).takeWhile
                (fun u => u ≠ rbrace) ≠ [] ∧
                ((a2.drop (lbrace :: str "color:").length).drop
                  ((a2.drop (lbrace :: str "color:").length).takeWhile
                    (fun u => u ≠ rbrace)).length).headD ' ' = rbrace
            · have hC2R : (b2.drop (lbrace :: str "color:").length).takeWhile
                  (fun u => u ≠ rbrace) ≠ [] ∧
                  ((b2.drop (lbrace :: str "color:").length).drop
                    ((b2.drop (lbrace :: str "color:").length).takeWhile
                      (fun u => u ≠ rbrace)).length).headD ' ' = rbrace := by
                obtain ⟨c4, c5⟩ := hC2
                refine ⟨?_, ?_⟩
                · intro e
                  rw [e] at hlenC
                  exact c4 (List.length_eq_zero.mp (by simpa using hlenC))
                · rw [hduR, ← sim_headD hdropP ' ', ← hduL]; exact c5
              rw [if_pos hC2, if_pos hC2R]
              obtain ⟨c4, c5⟩ := hC2
              obtain ⟨d4, d5⟩ := hC2R
              rw [hduL] at c5
              rw [hduR] at d5
              obtain ⟨sl2, hsl⟩ : ∃ v, (a2.drop (lbrace :: str "color:").length).dropWhile
                  (fun u => u ≠ rbrace) = rbrace :: v := by
                rcases dropWhile_ne_shape rbrace (a2.drop (lbrace :: str "color:").length)
                  with hsh | ⟨v, hv⟩
                · rw [hsh] at c5; cases c5
                · exact ⟨_, hv⟩
              obtain ⟨sr2, hsr⟩ : ∃ v, (b2.drop (lbrace :: str "color:").length).dropWhile
                  (fun u => u ≠ rbrace) = rbrace :: v := by
                rcases dropWhile_ne_shape rbrace (b2.drop (lbrace :: str "color:").length)
                  with hsh | ⟨v, hv⟩
                · rw [hsh] at d5; cases d5
                · exact ⟨_, hv⟩
              have hs : Sim A B sl2 sr2 := by
                rw [hsl, hsr] at hdropP
                exact sim_cons_inv (by decide) hdropP
              refine Or.inr ⟨[], [], _, _, _, _, sl2, sr2, ?_, ?_, .nil, htake, hcolP, hs⟩
              · rw [hduL, hsl]; rfl
              · rw [hduR, hsr]; rfl
            · have hC2R : ¬ ((b2.drop (lbrace :: str "color:").length).takeWhile
                  (fun u => u ≠ rbrace) ≠ [] ∧
                  ((b2.drop (lbrace :: str "color:").length).drop
                    ((b2.drop (lbrace :: str "color:").length).takeWhile
                      (fun u => u ≠ rbrace)).length).headD ' ' = rbrace) := by
                intro hR
                apply hC2
                obtain ⟨c4, c5⟩ := hR
                refine ⟨?_, ?_⟩
                · intro e
                  rw [e] at hlenC
                  exact c4 (List.length_eq_zero.mp (by simpa using hlenC.symm))
                · rw [hduL, sim_headD hdropP ' ', ← hduR]; exact c5
              rw [if_neg hC2, if_neg hC2R]
              have hrec := ih [] [] a b (by simp at hn ⊢; omega) rfl rfl rfl hab
              simp only [List.nil_append] at hrec
              rcases hrec with ⟨e1, e2⟩ | ⟨pL, pR, tL2, tR2, colL2, colR2, sL2, sR2,
                e1, e2, s1, s2, s3, s4⟩
              · rw [e1, e2]; exact Or.inl ⟨rfl, rfl⟩
              · rw [e1, e2]
                exact Or.inr ⟨'[' :: pL, '[' :: pR, tL2, tR2, colL2, colR2, sL2, sR2, rfl, rfl,
                  .cons '[' s1, s2, s3, s4⟩
          · have hC1R : ¬ (b.takeWhile (fun u => u ≠ ']') ≠ [] ∧
                (b.drop (b.takeWhile (fun u => u ≠ ']')).length).headD ' ' = ']' ∧
                (lbrace :: str "color:").isPrefixOf
                  ((b.drop (b.takeWhile (fun u => u ≠ ']')).length).drop 1) = true) := by
              intro hR
              apply hC1
              obtain ⟨c1, c2, c3⟩ := hR
              rw [hdropR] at c2 c3
              obtain ⟨b2, hb2⟩ : ∃ v, b.dropWhile (fun u => u ≠ ']') = ']' :: v := by
                rcases dropWhile_ne_shape ']' b with hsh | ⟨v, hv⟩
                · rw [hsh] at c2; cases c2
                · exact ⟨_, hv⟩
              rw [hb2] at c3
              obtain ⟨a2, ha2⟩ : ∃ v, a.dropWhile (fun u => u ≠ ']') = ']' :: v := by
                rcases dropWhile_ne_shape ']' a with hsh | ⟨v, hv⟩
                · exfalso
                  have := sim_length hok hdropS
                  rw [hsh, hb2] at this
                  simp at this
                · exact ⟨_, hv⟩
              have hab2 : Sim A B a2 b2 := by
                rw [ha2, hb2] at hdropS
                exact sim_cons_inv (by decide) hdropS
              obtain ⟨heq2, _⟩ := sim_isPrefix hok (lbrace :: str "color:") (by decide) hab2
              refine ⟨?_, by rw [hdropL, ha2]; rfl, ?_⟩
              · intro e
                rw [e] at hlenT
                exact c1 (List.length_eq_zero.mp (by simpa using hlenT.symm))
              · rw [hdropL, ha2]
                simp only [List.drop_succ_cons, List.drop_zero]
                rw [heq2]
                simpa using c3
            rw [if_neg hC1, if_neg hC1R]
            have hrec := ih [] [] a b (by simp at hn ⊢; omega) rfl rfl rfl hab
            simp only [List.nil_append] at hrec
            rcases hrec with ⟨e1, e2⟩ | ⟨pL, pR, tL2, tR2, colL2, colR2, sL2, sR2,
              e1, e2, s1, s2, s3, s4⟩
            · rw [e1, e2]; exact Or.inl ⟨rfl, rfl⟩
            · rw [e1, e2]
              exact Or.inr ⟨'[' :: pL, '[' :: pR, tL2, tR2, colL2, colR2, sL2, sR2, rfl, rfl,
                .cons '[' s1, s2, s3, s4⟩
        · simp only [matchCSpan, if_neg hc, List.append_eq]
          have hrec := ih [] [] a b (by simp at hn ⊢; omega) rfl rfl rfl hab
          simp only [List.nil_append] at hrec
          rcases hrec with ⟨e1, e2⟩ | ⟨pL, pR, tL2, tR2, colL2, colR2, sL2, sR2,
            e1, e2, s1, s2, s3, s4⟩
          · rw [e1, e2]; exact Or.inl ⟨rfl, rfl⟩
          · rw [e1, e2]
            exact Or.inr ⟨c :: pL, c :: pR, tL2, tR2, colL2, colR2, sL2, sR2, rfl, rfl,
              .cons c s1, s2, s3, s4⟩

/-- The colored-bold matcher behaves identically on the two sides of a
`Sim` relation; on success the content captures are related and the color
capture may start exactly at a substituted literal. -/
lemma matchCStrong_simT {A B : StyleConfig} (hok : cfgSimOk A B = true) :
    ∀ n xs ys l r, (xs ++ l).length ≤ n → xs.length = ys.length →
    inertStr xs = true → inertStr ys = true → Sim A B l r →
    (matchCStrong (xs ++ l) = none ∧ matchCStrong (ys ++ r) = none) ∨
    (∃ pL pR gL gR colL colR sL sR,
      matchCStrong (xs ++ l) = some (xs ++ pL, gL, colL, sL) ∧
      matchCStrong (ys ++ r) = some (ys ++ pR, gR, colR, sR) ∧
      Sim A B pL pR ∧ Sim A B gL gR ∧ SimP A B colL colR ∧ Sim A B sL sR) := by
  intro n
  induction n with
  | zero =>
    intro xs ys l r hn hlen hxs hys h
    have h1 : xs = [] := by
      cases xs with
      | nil => rfl
      | cons a t => simp at hn
    have h2 : l = [] := by
      cases l with
      | nil => rfl
      | cons a t => rw [h1] at hn; simp at hn
    have h3 : ys = [] := by rw [h1] at hlen; exact List.length_eq_zero.mp hlen.symm
    have h4 : r = [] := by rw [h2] at h; exact sim_nil_inv h
    subst h1; subst h2; subst h3; subst h4
    exact Or.inl ⟨rfl, rfl⟩
  | succ n ih =>
    intro xs ys l r hn hlen hxs hys h
    cases xs with
    | cons cx xt =>
      obtain ⟨cy, yt, hy0⟩ : ∃ cy yt, ys = cy :: yt := by
        cases ys with
        | nil => simp at hlen
        | cons u v => exact ⟨u, v, rfl⟩
      subst hy0
      have hcx : inertChar cx = true := by
        rw [inertStr, List.all_cons, Bool.and_eq_true] at hxs; exact hxs.1
      have hcy : inertChar cy = true := by
        rw [inertStr, List.all_cons, Bool.and_eq_true] at hys; exact hys.1
      have hxt : inertStr xt = true := by
        rw [inertStr, List.all_cons, Bool.and_eq_true] at hxs; exact hxs.2
      have hyt : inertStr yt = true := by
        rw [inertStr, List.all_cons, Bool.and_eq_true] at hys; exact hys.2
      have hne1 : ¬ (cx = '*' ∧ (xt ++ l).headD ' ' = '*') :=
        fun hp => inert_ne hcx (by decide) hp.1
      have hne2 : ¬ (cy = '*' ∧ (yt ++ r).headD ' ' = '*') :=
        fun hp => inert_ne hcy (by decide) hp.1
      simp only [List.cons_append, matchCStrong, if_neg hne1, if_neg hne2, List.append_eq]
      have hrec := ih xt yt l r (by simp at hn ⊢; omega)
        (by simpa using hlen) hxt hyt h
      rcases hrec with ⟨e1, e2⟩ | ⟨pL, pR, gL, gR, colL, colR, sL, sR, e1, e2, s1, s2, s3, s4⟩
      · rw [e1, e2]; exact Or.inl ⟨rfl, rfl⟩
      · rw [e1, e2]
        refine Or.inr ⟨pL, pR, gL, gR, colL, colR, sL, sR, ?_, ?_, s1, s2, s3, s4⟩
        · simp
        · simp
    | nil =>
      have hys0 : ys = [] := List.length_eq_zero.mp (by simpa using hlen.symm)
      subst hys0
      simp only [List.nil_append] at hn ⊢
      cases h with
      | nil => exact Or.inl ⟨rfl, rfl⟩
      | @subst c x y a b hg hxy hab =>
        obtain ⟨plen, pxi, pyi⟩ := simPairs_ok hok hxy
        have hcg : c ≠ '*' := fun e => by rw [e] at hg; cases hg
        have hne1 : ¬ (c = '*' ∧ (x ++ a).headD ' ' = '*') := fun hp => hcg hp.1
        have hne2 : ¬ (c = '*' ∧ (y ++ b).headD ' ' = '*') := fun hp => hcg hp.1
        simp only [matchCStrong, if_neg hne1, if_neg hne2, List.append_eq]
        have hrec := ih x y a b (by simp at hn ⊢; omega) plen pxi pyi hab
        rcases hrec with ⟨e1, e2⟩ | ⟨pL, pR, gL, gR, colL, colR, sL, sR, e1, e2, s1, s2, s3, s4⟩
        · rw [e1, e2]; exact Or.inl ⟨rfl, rfl⟩
        · rw [e1, e2]
          refine Or.inr ⟨c :: (x ++ pL), c :: (y ++ pR), gL, gR, colL, colR, sL, sR, ?_, ?_,
            .subst c x y hg hxy s1, s2, s3, s4⟩
          · simp
          · simp
      | @cons c a b hab =>
        by_cases hcond : c = '*' ∧ a.headD ' ' = '*'
        · have hcondR : c = '*' ∧ b.headD ' ' = '*' := by
            rw [← sim_headD hab ' ']; exact hcond
          simp only [matchCStrong, if_pos hcond, if_pos hcondR, List.append_eq]
          obtain ⟨hc, hhd⟩ := hcond
          have ha2 : a = '*' :: a.tail := headD_eq_cons hhd (by decide)
          have hb2 : b = '*' :: b.tail := headD_eq_cons hcondR.2 (by decide)
          have hab2 : Sim A B a.tail b.tail := by
            rw [ha2, hb2] at hab
            exact sim_cons_inv (by decide) hab
          have hdL : a.drop 1 = a.tail := by rw [ha2]; rfl
          have hdR : b.drop 1 = b.tail := by rw [hb2]; rfl
          rw [hdL, hdR]
          have hscan := cstrScan_simT hok n [] [] a.tail b.tail
            (by rw [ha2] at hn; simp at hn ⊢; omega) rfl rfl rfl hab2
          simp only [List.nil_append] at hscan
          rcases hscan with ⟨e1, e2⟩ | ⟨gL, gR, colL, colR, sL, sR, e1, e2, s1, s2, s3⟩
          · rw [e1, e2]
            have hrec := ih [] [] a b (by simp at hn ⊢; omega) rfl rfl rfl hab
            simp only [List.nil_append] at hrec
            rcases hrec with ⟨f1, f2⟩ | ⟨pL, pR, gL, gR, colL, colR, sL, sR,
              f1, f2, s1, s2, s3, s4⟩
            · rw [f1, f2]; exact Or.inl ⟨rfl, rfl⟩
            · rw [f1, f2]
              exact Or.inr ⟨c :: pL, c :: pR, gL, gR, colL, colR, sL, sR, rfl, rfl,
                .cons c s1, s2, s3, s4⟩
          · rw [e1, e2]
            exact Or.inr ⟨[], [], gL, gR, colL, colR, sL, sR, rfl, rfl, .nil, s1, s2, s3⟩
        · have hcondR : ¬ (c = '*' ∧ b.headD ' ' = '*') := by
            rw [← sim_headD hab ' ']; exact hcond
          simp only [matchCStrong, if_neg hcond, if_neg hcondR, List.append_eq]
          have hrec := ih [] [] a b (by simp at hn ⊢; omega) rfl rfl rfl hab
          simp only [List.nil_append] at hrec
          rcases hrec with ⟨f1, f2⟩ | ⟨pL, pR, gL, gR, colL, colR, sL, sR,
            f1, f2, s1, s2, s3, s4⟩
          · rw [f1, f2]; exact Or.inl ⟨rfl, rfl⟩
          · rw [f1, f2]
            exact Or.inr ⟨c :: pL, c :: pR, gL, gR, colL, colR, sL, sR, rfl, rfl,
              .cons c s1, s2, s3, s4⟩

/-- Append a template literal ending in a guard character, followed by a
pair of corresponding style literals. -/
lemma sim_fld {A B : StyleConfig} {l r : Str} (s0 : String) (c : Char) (x y : Str)
    (hg : simGuard c = true) (hxy : (x, y) ∈ cfgSimPairs A B) (h : Sim A B l r)
    {s : Str} (hs : s = str s0 ++ [c]) :
    Sim A B (s ++ (x ++ l)) (s ++ (y ++ r)) := by
  subst hs
  simp only [List.append_assoc]
  exact sim_append (sim_refl (str s0)) (Sim.subst c x y hg hxy h)

/-- Append a template literal ending in a guard character, followed by a
`SimP` capture. -/
lemma sim_fldP {A B : StyleConfig} {l r colL colR : Str} (s0 : String) (c : Char)
    (hg : simGuard c = true) (hcol : SimP A B colL colR) (h : Sim A B l r)
    {s : Str} (hs : s = str s0 ++ [c]) :
    Sim A B (s ++ (colL ++ l)) (s ++ (colR ++ r)) := by
  subst hs
  rcases hcol with hcol | ⟨x, y, c0L, c0R, hxy, hsim, rfl, rfl⟩
  · exact sim_append (sim_refl (str s0 ++ [c])) (sim_append hcol h)
  · simp only [List.append_assoc]
    exact sim_append (sim_refl (str s0))
      (Sim.subst c x y hg hxy
        (sim_append hsim h : Sim A B (c0L ++ l) (c0R ++ r)))

/-- The inline-code opening tags of two configurations are related. -/
lemma sim_codeOpenTag {A B : StyleConfig} : Sim A B (codeOpenTag A) (codeOpenTag B) := by
  rw [codeOpenTag, codeOpenTag]
  simp only [List.append_assoc]
  exact sim_fld "<code style=\"background-color" ':' _ _ (by decide)
    (by simp [cfgSimPairs, cfgFields])
    (sim_fld ";padding:2px 6px;border-radius:3px;font-family:SF Mono,Monaco,monospace;font-size:0.9em;color"
      ':' _ _ (by decide) (by simp [cfgSimPairs, cfgFields]) (sim_refl _) (by decide))
    (by decide)

/-- The inline-code pass output under two configurations. -/
lemma sim_subCodeGo {A B : StyleConfig} :
    ∀ fuel l, Sim A B (subCodeGo A fuel l) (subCodeGo B fuel l)
  | 0, l => sim_refl l
  | fuel + 1, l => by
    simp only [subCodeGo]
    cases hm : matchCode l with
    | none => exact sim_refl l
    | some t =>
      obtain ⟨p, g, rest⟩ := t
      exact sim_append (sim_append (sim_append (sim_append (sim_refl p) sim_codeOpenTag)
        (sim_refl g)) (sim_refl (str "</code>"))) (sim_subCodeGo fuel rest)

/-- The link anchors of two configurations, over related captures. -/
lemma sim_aTag {A B : StyleConfig} {t t' u u' : Str} (ht : Sim A B t t')
    (hu : Sim A B u u') : Sim A B (aTag A t u) (aTag B t' u') := by
  rw [aTag, aTag]
  simp only [List.append_assoc]
  refine sim_append (sim_refl (str "<a href=\"")) (sim_append hu ?_)
  refine sim_fld "\" style=\"color" ':' _ _ (by decide) (by simp [cfgSimPairs, cfgFields])
    ?_ (by decide)
  refine sim_fld ";text-decoration:none;font-weight:500;border-bottom:1px solid" ' ' _ _
    (by decide) (by simp [cfgSimPairs, cfgFields]) ?_ (by decide)
  exact sim_append (sim_refl (str ";\">")) (sim_append ht (sim_refl (str "</a>")))

/-- The `#`-anchor test agrees on `Sim`-related captures. -/
lemma sim_hash_prefix {A B : StyleConfig} {u u' : Str} (h : Sim A B u u') :
    (str "#").isPrefixOf u = (str "#").isPrefixOf u' := by
  have e : (str "#") = ['#'] := rfl
  rw [e]
  cases h with
  | nil => rfl
  | cons c h => rw [List.isPrefixOf_cons₂, List.isPrefixOf_cons₂]; simp
  | subst c x y hg hxy h => rw [List.isPrefixOf_cons₂, List.isPrefixOf_cons₂]; simp

/-- The link pass over related inputs. -/
lemma sim_subLinkGo {A B : StyleConfig} (hok : cfgSimOk A B = true) :
    ∀ fuel {l r}, Sim A B l r → Sim A B (subLinkGo A fuel l) (subLinkGo B fuel r)
  | 0, l, r, h => h
  | fuel + 1, l, r, h => by
    simp only [subLinkGo]
    have hm := matchLink_simT hok l.length [] [] l r (by simp) rfl rfl rfl h
    simp only [List.nil_append] at hm
    rcases hm with ⟨e1, e2⟩ | ⟨pL, pR, tL, tR, uL, uR, sL, sR, e1, e2, s1, s2, s3, s4⟩
    · rw [e1, e2]; exact h
    · rw [e1, e2]
      simp only []
      by_cases hh : (str "#").isPrefixOf uL
      · rw [if_pos hh, if_pos (by rw [← sim_hash_prefix s3]; exact hh)]
        exact sim_append (sim_append s1 s2) (sim_subLinkGo hok fuel s4)
      · rw [if_neg hh, if_neg (by rw [← sim_hash_prefix s3]; exact hh)]
        exact sim_append (sim_append s1 (sim_aTag s2 s3)) (sim_subLinkGo hok fuel s4)

/-- The colored-bold pass over related inputs. -/
lemma sim_subCStrongGo {A B : StyleConfig} (hok : cfgSimOk A B = true) :
    ∀ fuel {l r}, Sim A B l r → Sim A B (subCStrongGo fuel l) (subCStrongGo fuel r)
  | 0, l, r, h => h
  | fuel + 1, l, r, h => by
    simp only [subCStrongGo]
    have hm := matchCStrong_simT hok l.length [] [] l r (by simp) rfl rfl rfl h
    simp only [List.nil_append] at hm
    rcases hm with ⟨e1, e2⟩ | ⟨pL, pR, gL, gR, colL, colR, sL, sR, e1, e2, s1, s2, s3, s4⟩
    · rw [e1, e2]; exact h
    · rw [e1, e2]
      simp only [List.append_assoc]
      refine sim_append s1 ?_
      refine sim_fldP "<strong style=\"color" ':' (by decide) s3 ?_ (by decide)
      exact sim_append (sim_refl (str ";\">")) (sim_append s2
        (sim_append (sim_refl (str "</strong>")) (sim_subCStrongGo hok fuel s4)))

/-- The colored-span pass over related inputs. -/
lemma sim_subCSpanGo {A B : StyleConfig} (hok : cfgSimOk A B = true) :
    ∀ fuel {l r}, Sim A B l r → Sim A B (subCSpanGo fuel l) (subCSpanGo fuel r)
  | 0, l, r, h => h
  | fuel + 1, l, r, h => by
    simp only [subCSpanGo]
    have hm := matchCSpan_simT hok l.length [] [] l r (by simp) rfl rfl rfl h
    simp only [List.nil_append] at hm
    rcases hm with ⟨e1, e2⟩ | ⟨pL, pR, tL, tR, colL, colR, sL, sR, e1, e2, s1, s2, s3, s4⟩
    · rw [e1, e2]; exact h
    · rw [e1, e2]
      simp only [List.append_assoc]
      refine sim_append s1 ?_
      refine sim_fldP "<span style=\"color" ':' (by decide) s3 ?_ (by decide)
      exact sim_append (sim_refl (str ";\">")) (sim_append s2
        (sim_append (sim_refl (str "</span>")) (sim_subCSpanGo hok fuel s4)))

/-- The complete inline formatter produces related outputs on the same
text under two configurations. -/
lemma sim_inline {A B : StyleConfig} (hok : cfgSimOk A B = true) (text : Str) :
    Sim A B (inline_format A text) (inline_format B text) := by
  rw [inline_format, inline_format]
  have h1 : Sim A B
      (subCode A (subItal (subBold (restoreApos (escape_html (htmlUnescape (unescapeMd text)))))))
      (subCode B (subItal (subBold (restoreApos (escape_html (htmlUnescape (unescapeMd text))))))) :=
    sim_subCodeGo _ _
  have h2 : Sim A B
      (subLink A (subCode A (subItal (subBold (restoreApos (escape_html (htmlUnescape (unescapeMd text))))))))
      (subLink B (subCode B (subItal (subBold (restoreApos (escape_html (htmlUnescape (unescapeMd text)))))))) := by
    rw [subLink, subLink, ← sim_length hok h1]
    exact sim_subLinkGo hok _ h1
  have h3 : Sim A B
      (subCStrong (subLink A (subCode A (subItal (subBold (restoreApos (escape_html (htmlUnescape (unescapeMd text)))))))))
      (subCStrong (subLink B (subCode B (subItal (subBold (restoreApos (escape_html (htmlUnescape (unescapeMd text))))))))) := by
    rw [subCStrong, subCStrong, ← sim_length hok h2]
    exact sim_subCStrongGo hok _ h2
  have h4 : Sim A B
      (subCSpan (subCStrong (subLink A (subCode A (subItal (subBold (restoreApos (escape_html (htmlUnescape (unescapeMd text))))))))))
      (subCSpan (subCStrong (subLink B (subCode B (subItal (subBold (restoreApos (escape_html (htmlUnescape (unescapeMd text)))))))))) := by
    rw [subCSpan, subCSpan, ← sim_length hok h3]
    exact sim_subCSpanGo hok _ h3
  exact h4

/-- Skipping a newline-free prefix in the newline replacement. -/
lemma replaceGo_nl_skip (rep : Str) :
    ∀ (x : Str) (k : Nat) (l : Str), ('\n' ∉ x) →
    replaceGo '\n' [] rep (x.length + k) (x ++ l) = x ++ replaceGo '\n' [] rep k l := by
  intro x
  induction x with
  | nil => intro k l _; simp
  | cons c xt ih =>
    intro k l hx
    have hc : c ≠ '\n' := fun e => hx (by rw [e]; exact List.mem_cons_self _ _)
    have hpre : ¬ (('\n' :: ([] : Str)).isPrefixOf (c :: (xt ++ l)) = true) := by
      rw [List.isPrefixOf_cons₂]
      simp [Ne.symm hc]
    rw [show (c :: xt).length + k = ((xt.length + k) + 1) from by simp; omega]
    rw [List.cons_append, replaceGo, if_neg hpre,
      ih k l (fun hm => hx (List.mem_cons_of_mem c hm))]
    rfl

/-- The paragraph newline replacement preserves `Sim`. -/
lemma sim_replaceGo_nl {A B : StyleConfig} (hok : cfgSimOk A B = true) :
    ∀ fuel, ∀ {l r : Str}, l.length ≤ fuel → Sim A B l r →
    Sim A B (replaceGo '\n' [] (str "<br>") fuel l) (replaceGo '\n' [] (str "<br>") fuel r) := by
  intro fuel
  induction fuel using Nat.strong_induction_on with
  | _ fuel ih =>
    intro l r hlen h
    cases fuel with
    | zero =>
      have e1 : replaceGo '\n' [] (str "<br>") 0 l = l := by cases l <;> rfl
      have e2 : replaceGo '\n' [] (str "<br>") 0 r = r := by cases r <;> rfl
      rw [e1, e2]; exact h
    | succ f =>
      cases h with
      | nil => exact .nil
      | @cons c a b hab =>
        by_cases hc : c = '\n'
        · subst hc
          have hpre : ('\n' :: ([] : Str)).isPrefixOf ('\n' :: a) = true := by
            rw [List.isPrefixOf_cons₂]; simp
          rw [replaceGo, if_pos hpre, replaceGo, if_pos (by rw [List.isPrefixOf_cons₂]; simp)]
          simp only [List.length_nil, List.drop_zero]
          exact sim_append (sim_refl (str "<br>"))
            (ih f (Nat.lt_succ_self f) (by simp at hlen; omega) hab)
        · have hpre : ¬ (('\n' :: ([] : Str)).isPrefixOf (c :: a) = true) := by
            rw [List.isPrefixOf_cons₂]
            simp [Ne.symm hc]
          have hpre2 : ¬ (('\n' :: ([] : Str)).isPrefixOf (c :: b) = true) := by
            rw [List.isPrefixOf_cons₂]
            simp [Ne.symm hc]
          rw [replaceGo, if_neg hpre, replaceGo, if_neg hpre2]
          exact .cons c (ih f (Nat.lt_succ_self f) (by simp at hlen; omega) hab)
      | @subst c x y a b hg hxy hab =>
        obtain ⟨plen, pxi, pyi⟩ := simPairs_ok hok hxy
        have hc : c ≠ '\n' := fun e => by rw [e] at hg; cases hg
        have hxn : '\n' ∉ x := by
          intro hm
          rw [inertStr, List.all_eq_true] at pxi
          exact absurd rfl (inert_ne (pxi _ hm) (by decide))
        have hyn : '\n' ∉ y := by
          intro hm
          rw [inertStr, List.all_eq_true] at pyi
          exact absurd rfl (inert_ne (pyi _ hm) (by decide))
        have hpre : ¬ (('\n' :: ([] : Str)).isPrefixOf (c :: (x ++ a)) = true) := by
          rw [List.isPrefixOf_cons₂]
          simp [Ne.symm hc]
        have hpre2 : ¬ (('\n' :: ([] : Str)).isPrefixOf (c :: (y ++ b)) = true) := by
          rw [List.isPrefixOf_cons₂]
          simp [Ne.symm hc]
        rw [replaceGo, if_neg hpre, replaceGo, if_neg hpre2]
        have hxf : x.length ≤ f := by simp at hlen; omega
        have hf1 : f = x.length + (f - x.length) := by omega
        have hf2 : f = y.length + (f - x.length) := by rw [← plen]; omega
        rw [show replaceGo '\n' [] (str "<br>") f (x ++ a) =
            replaceGo '\n' [] (str "<br>") (x.length + (f - x.length)) (x ++ a) from by
          rw [← hf1]]
        rw [show replaceGo '\n' [] (str "<br>") f (y ++ b) =
            replaceGo '\n' [] (str "<br>") (y.length + (f - x.length)) (y ++ b) from by
          rw [← hf2]]
        rw [replaceGo_nl_skip _ x _ a hxn, replaceGo_nl_skip _ y _ b hyn]
        exact .subst c x y hg hxy
          (ih (f - x.length) (by omega) (by simp at hlen; omega) hab)

/-- `pyReplace` of newlines by `<br>` preserves `Sim`. -/
lemma sim_pyReplace_nl {A B : StyleConfig} (hok : cfgSimOk A B = true) {l r : Str}
    (h : Sim A B l r) :
    Sim A B (pyReplace (str "\n") (str "<br>") l) (pyReplace (str "\n") (str "<br>") r) := by
  have e1 : pyReplace (str "\n") (str "<br>") l =
      replaceGo '\n' [] (str "<br>") l.length l := rfl
  have e2 : pyReplace (str "\n") (str "<br>") r =
      replaceGo '\n' [] (str "<br>") r.length r := rfl
  rw [e1, e2, ← sim_length hok h]
  exact sim_replaceGo_nl hok l.length le_rfl h

/-- Lists of equal length agree on emptiness. -/
lemma isEmpty_eq_of_length {α β : Type} {l : List α} {r : List β}
    (h : l.length = r.length) : l.isEmpty = r.isEmpty := by
  cases l <;> cases r <;> simp_all

/-- The code-block renderer under two configurations. -/
lemma sim_format_code_block {A B : StyleConfig} (code lang : Str) :
    Sim A B (format_code_block A code lang) (format_code_block B code lang) := by
  rw [format_code_block, format_code_block]
  by_cases hE : (dropTrailingBlank (pySplit '\n' code)).isEmpty = true
  · rw [if_pos hE, if_pos hE]
    exact .nil
  · rw [if_neg hE, if_neg hE]
    simp only [List.append_assoc]
    refine sim_append (sim_refl (str "<table width=\"100%\" cellpadding=\"0\" cellspacing=\"0\" border=\"0\" style=\"margin:16px 0;\">")) ?_
    refine sim_fld "<tr><td style=\"background-color" ':' _ _ (by decide)
      (by simp [cfgSimPairs, cfgFields]) ?_ (by decide)
    refine sim_fld ";border:1px solid" ' ' _ _ (by decide)
      (by simp [cfgSimPairs, cfgFields]) ?_ (by decide)
    refine sim_append (sim_refl (str ";padding:16px;border-radius:8px;\">")) ?_
    refine sim_fld "<pre style=\"margin:0;padding:0;font-family:SF Mono,Monaco,monospace,Consolas,Courier New;font-size:13px;line-height:1.7;color"
      ':' _ _ (by decide) (by simp [cfgSimPairs, cfgFields]) ?_ (by decide)
    exact sim_append (sim_refl (str ";white-space:pre-wrap;word-wrap:break-word;\">"))
      (sim_append (sim_refl _) (sim_refl (str "</pre></td></tr></table>")))

/-- The heading renderer under two configurations. -/
lemma sim_convert_heading {A B : StyleConfig} (hok : cfgSimOk A B = true)
    (text : Str) (level : Nat) :
    Sim A B (convert_heading A text level) (convert_heading B text level) := by
  rw [convert_heading, convert_heading]
  have ht := sim_inline hok text
  split_ifs
  · simp only [List.append_assoc]
    refine sim_append (sim_refl (str "<table width=\"100%\" cellpadding=\"0\" cellspacing=\"0\" border=\"0\" style=\"margin:28px 0 20px;\">")) ?_
    refine sim_append (sim_refl (str "<tr><td align=\"center\">")) ?_
    refine sim_fld "<h1 style=\"font-size:26px;font-weight:bold;color" ':' _ _ (by decide)
      (by simp [cfgSimPairs, cfgFields]) ?_ (by decide)
    exact sim_append (sim_refl (str ";margin:0;padding:0;line-height:1.4;\">"))
      (sim_append ht (sim_append (sim_refl (str "</h1>"))
        (sim_refl (str "</td></tr></table>"))))
  · simp only [List.append_assoc]
    refine sim_append (sim_refl (str "<table width=\"100%\" cellpadding=\"0\" cellspacing=\"0\" border=\"0\" style=\"margin:24px 0 16px;\">")) ?_
    refine sim_fld "<tr><td align=\"center\" style=\"border-bottom:2px solid" ' ' _ _
      (by decide) (by simp [cfgSimPairs, cfgFields]) ?_ (by decide)
    refine sim_append (sim_refl (str ";padding-bottom:8px;\">")) ?_
    refine sim_fld "<span style=\"background" ':' _ _ (by decide)
      (by simp [cfgSimPairs, cfgFields]) ?_ (by decide)
    refine sim_fld ";color:#FFFFFF;padding:6px 20px;font-size" ':' _ _ (by decide)
      (by simp [cfgSimPairs, cfgFields]) ?_ (by decide)
    exact sim_append (sim_refl (str ";font-weight:bold;\">"))
      (sim_append ht (sim_append (sim_refl (str "</span>"))
        (sim_refl (str "</td></tr></table>"))))
  · simp only [List.append_assoc]
    refine sim_fld "<table width=\"100%\" cellpadding=\"8\" cellspacing=\"0\" border=\"0\" bgcolor=" '"' _ _
      (by decide) (by simp [cfgSimPairs, cfgFields]) ?_ (by decide)
    refine sim_append (sim_refl (str "\" style=\"margin:18px 0 12px;\">")) ?_
    refine sim_fld "<tr><td style=\"border-left:4px solid" ' ' _ _ (by decide)
      (by simp [cfgSimPairs, cfgFields]) ?_ (by decide)
    refine sim_fld ";font-size" ':' _ _ (by decide)
      (by simp [cfgSimPairs, cfgFields]) ?_ (by decide)
    refine sim_fld ";font-weight:bold;color" ':' _ _ (by decide)
      (by simp [cfgSimPairs, cfgFields]) ?_ (by decide)
    exact sim_append (sim_refl (str ";\">"))
      (sim_append ht (sim_refl (str "</td></tr></table>")))
  · simp only [List.append_assoc]
    refine sim_append (sim_refl (str "<h")) ?_
    refine sim_append (sim_refl (natToStr level)) ?_
    refine sim_append (sim_refl (str " style=\"font-size:")) ?_
    refine sim_append (sim_refl (natToStr (max 14 (18 - (level - 4) * 2)))) ?_
    refine sim_fld "px;font-weight:bold;margin:14px 0 8px;color" ':' _ _ (by decide)
      (by simp [cfgSimPairs, cfgFields]) ?_ (by decide)
    exact sim_append (sim_refl (str ";\">"))
      (sim_append ht (sim_append (sim_refl (str "</h"))
        (sim_append (sim_refl (natToStr level)) (sim_refl (str ">")))))

/-- The paragraph renderer under two configurations. -/
lemma sim_convert_paragraph {A B : StyleConfig} (hok : cfgSimOk A B = true)
    (text : Str) (isRef : Bool) :
    Sim A B (convert_paragraph A text isRef) (convert_paragraph B text isRef) := by
  rw [convert_paragraph, convert_paragraph]
  have ht := sim_pyReplace_nl hok (sim_inline hok text)
  simp only [List.append_assoc]
  refine sim_append (sim_refl (str "<p style=\"")) ?_
  refine sim_fld "margin:16px 0;line-height" ':' _ _ (by decide)
    (by simp [cfgSimPairs, cfgFields]) ?_ (by decide)
  refine sim_fld ";font-size" ':' _ _ (by decide)
    (by simp [cfgSimPairs, cfgFields]) ?_ (by decide)
  refine sim_fld ";color" ':' _ _ (by decide)
    (by simp [cfgSimPairs, cfgFields]) ?_ (by decide)
  refine sim_append (sim_refl (str ";letter-spacing:0.3px;text-align:justify;")) ?_
  refine sim_append (sim_refl (if isRef then str "font-size:0.85em;color:#888888;" else [])) ?_
  exact sim_append (sim_refl (str "\">")) (sim_append ht (sim_refl (str "</p>")))

/-- The horizontal-rule renderer under two configurations. -/
lemma sim_convert_horizontal_rule {A B : StyleConfig} :
    Sim A B (convert_horizontal_rule A) (convert_horizontal_rule B) := by
  rw [convert_horizontal_rule, convert_horizontal_rule]
  simp only [List.append_assoc]
  refine sim_append (sim_refl (str "<table width=\"100%\" cellpadding=\"0\" cellspacing=\"0\" border=\"0\" style=\"margin:28px 0;\">")) ?_
  refine sim_fld "<tr><td style=\"border-top:1px solid" ' ' _ _ (by decide)
    (by simp [cfgSimPairs, cfgFields]) ?_ (by decide)
  exact sim_append (sim_refl (str ";height:0;font-size:0;line-height:0;\"></td></tr>"))
    (sim_refl (str "</table>"))

/-- The blockquote renderer under two configurations. -/
lemma sim_convert_blockquote {A B : StyleConfig} (hok : cfgSimOk A B = true)
    (text : Str) (isRef : Bool) :
    Sim A B (convert_blockquote A text isRef) (convert_blockquote B text isRef) := by
  rw [convert_blockquote, convert_blockquote]
  have ht := sim_inline hok text
  simp only [List.append_assoc]
  refine sim_append (sim_refl (str "<table width=\"100%\" cellpadding=\"0\" cellspacing=\"0\" border=\"0\" style=\"margin:16px 0;\">")) ?_
  refine sim_fld "<tr><td style=\"background-color" ':' _ _ (by decide)
    (by simp [cfgSimPairs, cfgFields]) ?_ (by decide)
  refine sim_fld ";padding:16px 20px;border-left:4px solid" ' ' _ _ (by decide)
    (by simp [cfgSimPairs, cfgFields]) ?_ (by decide)
  refine sim_append (sim_refl (str ";border-radius:0 8px 8px 0;\">")) ?_
  refine sim_fld "<p style=\"color" ':' _ _ (by decide)
    (by simp [cfgSimPairs, cfgFields]) ?_ (by decide)
  exact sim_append (sim_refl (str ";font-size:15px;line-height:1.8;margin:0;font-style:italic;\">"))
    (sim_append ht (sim_refl (str "</p></td></tr></table>")))

/-- The list wrapper under two configurations, over related inner html. -/
lemma sim_listTagWrap {A B : StyleConfig} (o isRef : Bool) {inner inner' : Str}
    (h : Sim A B inner inner') :
    Sim A B (listTagWrap A o isRef inner) (listTagWrap B o isRef inner') := by
  have he : ∀ (cfg : StyleConfig) (o isRef : Bool) (inn : Str), listTagWrap cfg o isRef inn =
      str "<" ++ ((if o then str "ol" else str "ul") ++
        (str " style=\"" ++ (str "margin:16px 0;padding-left:28px;color:" ++
          (cfg.paragraph_color ++ (str ";" ++
            ((if isRef then str "font-size:0.85em;color:#888888;" else []) ++
              (str "\">" ++ (inn ++ (str "</" ++
                ((if o then str "ol" else str "ul") ++ str ">")))))))))) := by
    intro cfg o isRef inn
    rw [listTagWrap]
    simp only [List.append_assoc]
  rw [he A o isRef inner, he B o isRef inner']
  refine sim_append (sim_refl (str "<")) ?_
  refine sim_append (sim_refl (if o then str "ol" else str "ul")) ?_
  refine sim_append (sim_refl (str " style=\"")) ?_
  refine sim_fld "margin:16px 0;padding-left:28px;color" ':' _ _ (by decide)
    (by simp [cfgSimPairs, cfgFields]) ?_ (by decide)
  refine sim_append (sim_refl (str ";")) ?_
  refine sim_append (sim_refl (if isRef then str "font-size:0.85em;color:#888888;" else [])) ?_
  refine sim_append (sim_refl (str "\">")) ?_
  exact sim_append h (sim_append (sim_refl (str "</"))
    (sim_append (sim_refl (if o then str "ol" else str "ul")) (sim_refl (str ">"))))

/-- The list items renderer under two configurations. -/
lemma sim_listItemsGo {A B : StyleConfig} (hok : cfgSimOk A B = true) (isRef : Bool) :
    ∀ entries : LEntries,
      Sim A B (listItemsGo A isRef entries) (listItemsGo B isRef entries) := by
  intro entries
  induction entries with
  | nil => exact .nil
  | cons t ch chOrd rest ihch ihrest =>
    rw [listItemsGo, listItemsGo]
    split
    · exact sim_append (sim_append (sim_append
        (sim_refl (str "<li style=\"margin:10px 0;line-height:1.8;font-size:15px;\">"))
        (sim_inline hok t)) (sim_refl (str "</li>"))) ihrest
    · exact sim_append (sim_append (sim_append
        (sim_refl (str "<li style=\"margin:10px 0;line-height:1.8;font-size:15px;\">"))
        (sim_append (sim_inline hok t) (sim_listTagWrap (chOrd.getD false) isRef ihch)))
        (sim_refl (str "</li>"))) ihrest

/-- The list renderer under two configurations. -/
lemma sim_convert_list {A B : StyleConfig} (hok : cfgSimOk A B = true)
    (entries : LEntries) (o isRef : Bool) :
    Sim A B (convert_list A entries o isRef) (convert_list B entries o isRef) := by
  rw [convert_list, convert_list]
  exact sim_listTagWrap o isRef (sim_listItemsGo hok isRef entries)

/-- The table cell renderer under two configurations. -/
lemma sim_tableCellHtml {A B : StyleConfig} (hok : cfgSimOk A B = true)
    (aligns : List Str) (isHeader : Bool) (rowBg : Str) (colIdx : Nat) (cell : Str) :
    Sim A B (tableCellHtml A aligns isHeader rowBg colIdx cell)
      (tableCellHtml B aligns isHeader rowBg colIdx cell) := by
  rw [tableCellHtml, tableCellHtml]
  have hcell := sim_inline hok cell
  split
  · simp only [List.append_assoc]
    refine sim_append (sim_refl (str "<th style=\"")) ?_
    refine sim_append (sim_refl (str "padding:12px 16px;")) ?_
    refine sim_fld "border:1px solid" ' ' _ _ (by decide)
      (by simp [cfgSimPairs, cfgFields]) ?_ (by decide)
    refine sim_append (sim_refl (str ";")) ?_
    refine sim_append (sim_refl (str "text-align:")) ?_
    refine sim_append (sim_refl (aligns.getD colIdx (str "left"))) ?_
    refine sim_append (sim_refl (str ";")) ?_
    refine sim_fld "background-color" ':' _ _ (by decide)
      (by simp [cfgSimPairs, cfgFields]) ?_ (by decide)
    refine sim_fld ";font-weight:bold;color" ':' _ _ (by decide)
      (by simp [cfgSimPairs, cfgFields]) ?_ (by decide)
    exact sim_append (sim_refl (str ";font-size:15px;\">"))
      (sim_append hcell (sim_refl (str "</th>")))
  · simp only [List.append_assoc]
    refine sim_append (sim_refl (str "<td style=\"")) ?_
    refine sim_append (sim_refl (str "padding:12px 16px;")) ?_
    refine sim_fld "border:1px solid" ' ' _ _ (by decide)
      (by simp [cfgSimPairs, cfgFields]) ?_ (by decide)
    refine sim_append (sim_refl (str ";")) ?_
    refine sim_append (sim_refl (str "text-align:")) ?_
    refine sim_append (sim_refl (aligns.getD colIdx (str "left"))) ?_
    refine sim_append (sim_refl (str ";")) ?_
    refine sim_append (sim_refl (str "background-color:")) ?_
    refine sim_append (sim_refl rowBg) ?_
    refine sim_fld ";color" ':' _ _ (by decide)
      (by simp [cfgSimPairs, cfgFields]) ?_ (by decide)
    exact sim_append (sim_refl (str ";font-size:14px;line-height:1.6;\">"))
      (sim_append hcell (sim_refl (str "</td>")))

/-- The table row cells renderer under two configurations. -/
lemma sim_tableRowCells {A B : StyleConfig} (hok : cfgSimOk A B = true)
    (aligns : List Str) (isHeader : Bool) (rowBg : Str) :
    ∀ (cells : List Str) (colIdx : Nat),
      Sim A B (tableRowCells A aligns isHeader rowBg colIdx cells)
        (tableRowCells B aligns isHeader rowBg colIdx cells) := by
  intro cells
  induction cells with
  | nil => intro colIdx; exact .nil
  | cons c rest ih =>
    intro colIdx
    rw [tableRowCells, tableRowCells]
    exact sim_append (sim_tableCellHtml hok aligns isHeader rowBg colIdx c) (ih (colIdx + 1))

/-- The table row loop under two configurations: header and body parts are
related. -/
lemma sim_tableRowsHtml {A B : StyleConfig} (hok : cfgSimOk A B = true)
    (aligns : List Str) :
    ∀ (rows : List (List Str × Bool)) (idx : Nat),
      Sim A B (tableRowsHtml A aligns rows idx).1 (tableRowsHtml B aligns rows idx).1 ∧
      Sim A B (tableRowsHtml A aligns rows idx).2 (tableRowsHtml B aligns rows idx).2 := by
  intro rows
  induction rows with
  | nil => intro idx; exact ⟨.nil, .nil⟩
  | cons row rest ih =>
    intro idx
    obtain ⟨cells, isHeader⟩ := row
    obtain ⟨ih1, ih2⟩ := ih (idx + 1)
    have hrow : Sim A B
        (str "<tr>" ++ tableRowCells A aligns isHeader
          (if idx % 2 = 0 then str "#FFFFFF" else str "#F8F9FA") 0 cells ++ str "</tr>")
        (str "<tr>" ++ tableRowCells B aligns isHeader
          (if idx % 2 = 0 then str "#FFFFFF" else str "#F8F9FA") 0 cells ++ str "</tr>") :=
      sim_append (sim_append (sim_refl (str "<tr>"))
        (sim_tableRowCells hok aligns isHeader _ cells 0)) (sim_refl (str "</tr>"))
    rw [tableRowsHtml, tableRowsHtml]
    cases hrecL : tableRowsHtml A aligns rest (idx + 1) with
    | mk hhL bhL =>
      cases hrecR : tableRowsHtml B aligns rest (idx + 1) with
      | mk hhR bhR =>
        rw [hrecL] at ih1 ih2
        rw [hrecR] at ih1 ih2
        dsimp only at ih1 ih2 ⊢
        have hE : hhL.isEmpty = hhR.isEmpty :=
          isEmpty_eq_of_length (sim_length hok ih1)
        by_cases hH : isHeader = true
        · rw [if_pos hH, if_pos hH]
          dsimp only
          constructor
          · by_cases hEL : hhL.isEmpty = true
            · rw [if_pos hEL, if_pos (show List.isEmpty hhR = true from by
                rw [← hE]; exact hEL)]
              exact hrow
            · rw [if_neg hEL, if_neg (show ¬ List.isEmpty hhR = true from by
                rw [← hE]; exact hEL)]
              exact ih1
          · exact ih2
        · rw [if_neg hH, if_neg hH]
          exact ⟨ih1, sim_append hrow ih2⟩

/-- The table renderer under two configurations. -/
lemma sim_convert_table {A B : StyleConfig} (hok : cfgSimOk A B = true)
    (rows : List (List Str × Bool)) (aligns : List Str) (isRef : Bool) :
    Sim A B (convert_table A rows aligns isRef) (convert_table B rows aligns isRef) := by
  rw [convert_table, convert_table]
  by_cases hrows : rows.isEmpty = true
  · rw [if_pos hrows, if_pos hrows]
    exact .nil
  · rw [if_neg hrows, if_neg hrows]
    obtain ⟨h1, h2⟩ := sim_tableRowsHtml hok aligns rows 0
    cases hrecL : tableRowsHtml A aligns rows 0 with
    | mk hhL bhL =>
      cases hrecR : tableRowsHtml B aligns rows 0 with
      | mk hhR bhR =>
        rw [hrecL] at h1 h2
        rw [hrecR] at h1 h2
        dsimp only at h1 h2
        dsimp only
        have hEh : hhL.isEmpty = hhR.isEmpty := isEmpty_eq_of_length (sim_length hok h1)
        have hEb : bhL.isEmpty = bhR.isEmpty := isEmpty_eq_of_length (sim_length hok h2)
        have hthead : Sim A B (if hhL.isEmpty then [] else str "<thead>" ++ hhL ++ str "</thead>")
            (if hhR.isEmpty then [] else str "<thead>" ++ hhR ++ str "</thead>") := by
          by_cases hE : hhL.isEmpty = true
          · rw [if_pos hE, if_pos (by rw [← hEh]; exact hE)]
            exact .nil
          · rw [if_neg hE, if_neg (by rw [← hEh]; exact hE)]
            exact sim_append (sim_append (sim_refl (str "<thead>")) h1)
              (sim_refl (str "</thead>"))
        have htbody : Sim A B (if bhL.isEmpty then [] else str "<tbody>" ++ bhL ++ str "</tbody>")
            (if bhR.isEmpty then [] else str "<tbody>" ++ bhR ++ str "</tbody>") := by
          by_cases hE : bhL.isEmpty = true
          · rw [if_pos hE, if_pos (by rw [← hEb]; exact hE)]
            exact .nil
          · rw [if_neg hE, if_neg (by rw [← hEb]; exact hE)]
            exact sim_append (sim_append (sim_refl (str "<tbody>")) h2)
              (sim_refl (str "</tbody>"))
        simp only [List.append_assoc]
        refine sim_append (sim_refl (str "<table width=\"100%\" cellpadding=\"0\" cellspacing=\"0\" border=\"0\" style=\"margin:20px 0;\">")) ?_
        refine sim_fld "<tr><td style=\"border-radius:8px;overflow:hidden;border:1px solid" ' '
          _ _ (by decide) (by simp [cfgSimPairs, cfgFields]) ?_ (by decide)
        refine sim_append (sim_refl (str ";\">")) ?_
        refine sim_append (sim_refl (str "<table style=\"width:100%;border-collapse:collapse;margin:20px 0;font-size:14px;\">")) ?_
        refine sim_append hthead ?_
        refine sim_append htbody ?_
        exact sim_append (sim_refl (str "</table>")) (sim_refl (str "</td></tr></table>"))

/-- The card wrapper under two configurations, over related card html. -/
lemma sim_cardWrap {A B : StyleConfig} (isRef : Bool) {cardHtml cardHtml' : Str}
    (hcard : Sim A B cardHtml cardHtml') :
    Sim A B (cardWrap A isRef cardHtml) (cardWrap B isRef cardHtml') := by
  rw [cardWrap, cardWrap]
  simp only [List.append_assoc]
  refine sim_fld "<table width=\"100%\" cellpadding=\"12\" cellspacing=\"0\" border=\"0\" bgcolor=" '"'
    _ _ (by decide) (by simp [cfgSimPairs, cfgFields]) ?_ (by decide)
  refine sim_append (sim_refl (str "\">")) ?_
  refine sim_fld "<tr><td style=\"border:1px solid" ' ' _ _ (by decide)
    (by simp [cfgSimPairs, cfgFields]) ?_ (by decide)
  refine sim_append (sim_refl (if isRef then str ";line-height:1.9;font-size:0.85em;color:#888888;\">"
    else str ";line-height:1.9;\">")) ?_
  exact sim_append hcard (sim_refl (str "</td></tr></table>"))

/-- One card item under two configurations: skipped together, or rendered
to related html. -/
lemma sim_cardItem {A B : StyleConfig} (hok : cfgSimOk A B = true) (isRef : Bool)
    (t : Tok) :
    (cardItemHtml A isRef t = none ∧ cardItemHtml B isRef t = none) ∨
    (∃ o o', cardItemHtml A isRef t = some o ∧ cardItemHtml B isRef t = some o' ∧
      Sim A B o o') := by
  cases t with
  | heading text lvl =>
    exact Or.inr ⟨_, _, rfl, rfl, sim_convert_heading hok text lvl⟩
  | paragraph text =>
    rw [cardItemHtml, cardItemHtml]
    by_cases hp : (pyStrip text).isEmpty = true
    · rw [if_pos hp, if_pos hp]
      exact Or.inl ⟨rfl, rfl⟩
    · rw [if_neg hp, if_neg hp]
      exact Or.inr ⟨_, _, rfl, rfl, sim_convert_paragraph hok text isRef⟩
  | code c lang =>
    exact Or.inr ⟨_, _, rfl, rfl, sim_format_code_block c lang⟩
  | image src alt ttl =>
    exact Or.inr ⟨_, _, rfl, rfl, sim_refl _⟩
  | glist entries o =>
    rw [cardItemHtml, cardItemHtml]
    by_cases hp : entries.isNil = true
    · rw [if_pos hp, if_pos hp]
      exact Or.inl ⟨rfl, rfl⟩
    · rw [if_neg hp, if_neg hp]
      exact Or.inr ⟨_, _, rfl, rfl, sim_convert_list hok entries o isRef⟩
  | gtable rows aligns =>
    rw [cardItemHtml, cardItemHtml]
    by_cases hp : rows.isEmpty = true
    · rw [if_pos hp, if_pos hp]
      exact Or.inl ⟨rfl, rfl⟩
    · rw [if_neg hp, if_neg hp]
      exact Or.inr ⟨_, _, rfl, rfl, sim_convert_table hok rows aligns isRef⟩
  | horizontal_rule =>
    exact Or.inr ⟨_, _, rfl, rfl, sim_convert_horizontal_rule⟩
  | blockquote text =>
    exact Or.inr ⟨_, _, rfl, rfl, sim_convert_blockquote hok text isRef⟩
  | list_item text ind o => exact Or.inl ⟨rfl, rfl⟩
  | table_row cells => exact Or.inl ⟨rfl, rfl⟩
  | table_separator a => exact Or.inl ⟨rfl, rfl⟩

/-- One non-card item under two configurations. -/
lemma sim_nonCardItem {A B : StyleConfig} (hok : cfgSimOk A B = true) (isRef : Bool)
    (t : Tok) :
    Sim A B (nonCardItemHtml A isRef t) (nonCardItemHtml B isRef t) := by
  cases t with
  | paragraph text => exact sim_convert_paragraph hok text isRef
  | code c lang => exact sim_format_code_block c lang
  | image src alt ttl => exact sim_refl _
  | glist entries o => exact sim_convert_list hok entries o isRef
  | gtable rows aligns => exact sim_convert_table hok rows aligns isRef
  | horizontal_rule => exact sim_convert_horizontal_rule
  | blockquote text => exact sim_convert_blockquote hok text isRef
  | heading text lvl => exact .nil
  | list_item text ind o => exact .nil
  | table_row cells => exact .nil
  | table_separator a => exact .nil

/-- The card item lists of two configurations have equal length and
related joins. -/
lemma sim_cardFilter {A B : StyleConfig} (hok : cfgSimOk A B = true) (isRef : Bool) :
    ∀ toks : List Tok,
      (toks.filterMap (cardItemHtml A isRef)).length =
        (toks.filterMap (cardItemHtml B isRef)).length ∧
      Sim A B (toks.filterMap (cardItemHtml A isRef)).join
        (toks.filterMap (cardItemHtml B isRef)).join := by
  intro toks
  induction toks with
  | nil =>
    refine ⟨by simp, ?_⟩
    simp only [List.filterMap_nil, List.join_nil]
    exact .nil
  | cons t rest ih =>
    rcases sim_cardItem hok isRef t with ⟨e1, e2⟩ | ⟨o, o', e1, e2, so⟩
    · simp only [List.filterMap_cons, e1, e2]
      exact ih
    · simp only [List.filterMap_cons, e1, e2, List.length_cons, List.join_cons]
      exact ⟨by rw [ih.1], sim_append so ih.2⟩

/-- The card block of a section under two configurations. -/
lemma sim_cardBlock {A B : StyleConfig} (hok : cfgSimOk A B = true) (isRef : Bool)
    (toks : List Tok) :
    Sim A B
      (if (toks.filterMap (cardItemHtml A isRef)).isEmpty then []
       else cardWrap A isRef (toks.filterMap (cardItemHtml A isRef)).join)
      (if (toks.filterMap (cardItemHtml B isRef)).isEmpty then []
       else cardWrap B isRef (toks.filterMap (cardItemHtml B isRef)).join) := by
  obtain ⟨hlen, hjoin⟩ := sim_cardFilter hok isRef toks
  have hE : (toks.filterMap (cardItemHtml A isRef)).isEmpty =
      (toks.filterMap (cardItemHtml B isRef)).isEmpty := isEmpty_eq_of_length hlen
  by_cases hp : (toks.filterMap (cardItemHtml A isRef)).isEmpty = true
  · rw [if_pos hp, if_pos (by rw [← hE]; exact hp)]
    exact .nil
  · rw [if_neg hp, if_neg (by rw [← hE]; exact hp)]
    exact sim_cardWrap isRef hjoin

/-- The non-card item join of a section under two configurations. -/
lemma sim_nonCardJoin {A B : StyleConfig} (hok : cfgSimOk A B = true) (isRef : Bool)
    (toks : List Tok) :
    Sim A B ((toks.map (nonCardItemHtml A isRef)).join)
      ((toks.map (nonCardItemHtml B isRef)).join) := by
  induction toks with
  | nil => exact .nil
  | cons t rest ih =>
    simp only [List.map_cons, List.join_cons]
    exact sim_append (sim_nonCardItem hok isRef t) ih

/-- The section renderer under two configurations. -/
lemma sim_sectionHtml {A B : StyleConfig} (hok : cfgSimOk A B = true) (s : Sec) :
    Sim A B (sectionHtml A s) (sectionHtml B s) := by
  rw [sectionHtml, sectionHtml]
  have htitle : Sim A B
      (if ¬ s.title.isEmpty ∧ 0 < s.level then convert_heading A s.title s.level else [])
      (if ¬ s.title.isEmpty ∧ 0 < s.level then convert_heading B s.title s.level else []) := by
    by_cases hT : ¬ s.title.isEmpty ∧ 0 < s.level
    · rw [if_pos hT, if_pos hT]
      exact sim_convert_heading hok s.title s.level
    · rw [if_neg hT, if_neg hT]
      exact .nil
  by_cases hS : (s.level = 2 ∨ s.level = 3) ∧ ¬ s.items.isEmpty
  · rw [if_pos hS, if_pos hS]
    exact sim_append htitle (sim_cardBlock hok _ s.items)
  · rw [if_neg hS, if_neg hS]
    exact sim_append htitle (sim_nonCardJoin hok _ s.items)

/-- The body renderer under two configurations. -/
lemma sim_convert_body {A B : StyleConfig} (hok : cfgSimOk A B = true) (body : Str) :
    Sim A B (convert_body A body) (convert_body B body) := by
  rw [convert_body, convert_body]
  have hsecs : ∀ secs : List Sec,
      Sim A B ((secs.map (sectionHtml A)).join) ((secs.map (sectionHtml B)).join) := by
    intro secs
    induction secs with
    | nil => exact .nil
    | cons s rest ih =>
      simp only [List.map_cons, List.join_cons]
      exact sim_append (sim_sectionHtml hok s) ih
  exact hsecs _

/-- The document assembler under two configurations, over related body
html. -/
lemma sim_generate_html {A B : StyleConfig} (hok : cfgSimOk A B = true)
    (title date : Str) (tags : List Str) {bodyHtml bodyHtml' : Str}
    (hbody : Sim A B bodyHtml bodyHtml') (source : Str) :
    Sim A B (generate_html A title date tags bodyHtml source)
      (generate_html B title date tags bodyHtml' source) := by
  rw [generate_html, generate_html]
  have hheader : Sim A B
      (if title.isEmpty then []
       else
         str "<table width=\"100%\" cellpadding=\"20\" cellspacing=\"0\" border=\"0\" " ++
           str "style=\"margin-bottom:16px;background-color:" ++ A.header_bg_color ++
           str ";\">" ++
           str "<tr><td style=\"color:" ++ A.header_text_color ++
           str ";font-size:" ++ A.header_font_size ++ str ";font-weight:bold;\">" ++
           escape_html title ++
           str "</td></tr></table>")
      (if title.isEmpty then []
       else
         str "<table width=\"100%\" cellpadding=\"20\" cellspacing=\"0\" border=\"0\" " ++
           str "style=\"margin-bottom:16px;background-color:" ++ B.header_bg_color ++
           str ";\">" ++
           str "<tr><td style=\"color:" ++ B.header_text_color ++
           str ";font-size:" ++ B.header_font_size ++ str ";font-weight:bold;\">" ++
           escape_html title ++
           str "</td></tr></table>") := by
    by_cases hT : title.isEmpty = true
    · rw [if_pos hT, if_pos hT]
      exact .nil
    · rw [if_neg hT, if_neg hT]
      simp only [List.append_assoc]
      refine sim_append (sim_refl (str "<table width=\"100%\" cellpadding=\"20\" cellspacing=\"0\" border=\"0\" ")) ?_
      refine sim_fld "style=\"margin-bottom:16px;background-color" ':' _ _ (by decide)
        (by simp [cfgSimPairs, cfgFields]) ?_ (by decide)
      refine sim_append (sim_refl (str ";\">")) ?_
      refine sim_fld "<tr><td style=\"color" ':' _ _ (by decide)
        (by simp [cfgSimPairs, cfgFields]) ?_ (by decide)
      refine sim_fld ";font-size" ':' _ _ (by decide)
        (by simp [cfgSimPairs, cfgFields]) ?_ (by decide)
      exact sim_append (sim_refl (str ";font-weight:bold;\">"))
        (sim_append (sim_refl (escape_html title)) (sim_refl (str "</td></tr></table>")))
  have hmeta : Sim A B
      (if date.isEmpty ∧ tags.isEmpty then []
       else
         let metaParts :=
           (if date.isEmpty then [] else [escape_html date]) ++
           (if tags.isEmpty then []
            else [pyJoin (str " ") (tags.map (fun t => str "#" ++ escape_html t))])
         if metaParts.isEmpty then []
         else
           str "<table width=\"100%\" cellpadding=\"0\" cellspacing=\"0\" border=\"0\" style=\"margin-bottom:16px;\">" ++
             str "<tr><td style=\"color:" ++ A.meta_text_color ++ str ";font-size:" ++
             A.meta_font_size ++ str ";padding:0 4px;\">" ++
             pyJoin (str " | ") metaParts ++
             str "</td></tr></table>")
      (if date.isEmpty ∧ tags.isEmpty then []
       else
         let metaParts :=
           (if date.isEmpty then [] else [escape_html date]) ++
           (if tags.isEmpty then []
            else [pyJoin (str " ") (tags.map (fun t => str "#" ++ escape_html t))])
         if metaParts.isEmpty then []
         else
           str "<table width=\"100%\" cellpadding=\"0\" cellspacing=\"0\" border=\"0\" style=\"margin-bottom:16px;\">" ++
             str "<tr><td style=\"color:" ++ B.meta_text_color ++ str ";font-size:" ++
             B.meta_font_size ++ str ";padding:0 4px;\">" ++
             pyJoin (str " | ") metaParts ++
             str "</td></tr></table>") := by
    by_cases hdt : date.isEmpty ∧ tags.isEmpty
    · rw [if_pos hdt, if_pos hdt]
      exact .nil
    · rw [if_neg hdt, if_neg hdt]
      show Sim A B
        (if ((if date.isEmpty then [] else [escape_html date]) ++
            (if tags.isEmpty then []
             else [pyJoin (str " ") (tags.map (fun t => str "#" ++ escape_html t))])).isEmpty
         then []
         else
           str "<table width=\"100%\" cellpadding=\"0\" cellspacing=\"0\" border=\"0\" style=\"margin-bottom:16px;\">" ++
             str "<tr><td style=\"color:" ++ A.meta_text_color ++ str ";font-size:" ++
             A.meta_font_size ++ str ";padding:0 4px;\">" ++
             pyJoin (str " | ") ((if date.isEmpty then [] else [escape_html date]) ++
               (if tags.isEmpty then []
                else [pyJoin (str " ") (tags.map (fun t => str "#" ++ escape_html t))])) ++
             str "</td></tr></table>")
        (if ((if date.isEmpty then [] else [escape_html date]) ++
            (if tags.isEmpty then []
             else [pyJoin (str " ") (tags.map (fun t => str "#" ++ escape_html t))])).isEmpty
         then []
         else
           str "<table width=\"100%\" cellpadding=\"0\" cellspacing=\"0\" border=\"0\" style=\"margin-bottom:16px;\">" ++
             str "<tr><td style=\"color:" ++ B.meta_text_color ++ str ";font-size:" ++
             B.meta_font_size ++ str ";padding:0 4px;\">" ++
             pyJoin (str " | ") ((if date.isEmpty then [] else [escape_html date]) ++
               (if tags.isEmpty then []
                else [pyJoin (str " ") (tags.map (fun t => str "#" ++ escape_html t))])) ++
             str "</td></tr></table>")
      by_cases hm : ((if date.isEmpty then [] else [escape_html date]) ++
          (if tags.isEmpty then []
           else [pyJoin (str " ") (tags.map (fun t => str "#" ++ escape_html t))])).isEmpty = true
      · rw [if_pos hm, if_pos hm]
        exact .nil
      · rw [if_neg hm, if_neg hm]
        simp only [List.append_assoc]
        refine sim_append (sim_refl (str "<table width=\"100%\" cellpadding=\"0\" cellspacing=\"0\" border=\"0\" style=\"margin-bottom:16px;\">")) ?_
        refine sim_fld "<tr><td style=\"color" ':' _ _ (by decide)
          (by simp [cfgSimPairs, cfgFields]) ?_ (by decide)
        refine sim_fld ";font-size" ':' _ _ (by decide)
          (by simp [cfgSimPairs, cfgFields]) ?_ (by decide)
        refine sim_append (sim_refl (str ";padding:0 4px;\">")) ?_
        exact sim_append (sim_refl _) (sim_refl (str "</td></tr></table>"))
  have hsource : Sim A B
      (if source.isEmpty then []
       else
         str "<table width=\"100%\" cellpadding=\"16\" cellspacing=\"0\" border=\"0\" style=\"margin-top:24px;\">" ++
           str "<tr><td align=\"center\" style=\"border-top:1px solid #eeeeee;color:" ++
           A.source_text_color ++ str ";font-size:" ++ A.source_font_size ++ str ";\">" ++
           str "来源: <a href=\"" ++ escape_html source ++ str "\" style=\"color:" ++
           A.source_text_color ++ str ";\">" ++
           escape_html source ++ str "</a>" ++
           str "</td></tr></table>")
      (if source.isEmpty then []
       else
         str "<table width=\"100%\" cellpadding=\"16\" cellspacing=\"0\" border=\"0\" style=\"margin-top:24px;\">" ++
           str "<tr><td align=\"center\" style=\"border-top:1px solid #eeeeee;color:" ++
           B.source_text_color ++ str ";font-size:" ++ B.source_font_size ++ str ";\">" ++
           str "来源: <a href=\"" ++ escape_html source ++ str "\" style=\"color:" ++
           B.source_text_color ++ str ";\">" ++
           escape_html source ++ str "</a>" ++
           str "</td></tr></table>") := by
    by_cases hT : source.isEmpty = true
    · rw [if_pos hT, if_pos hT]
      exact .nil
    · rw [if_neg hT, if_neg hT]
      simp only [List.append_assoc]
      refine sim_append (sim_refl (str "<table width=\"100%\" cellpadding=\"16\" cellspacing=\"0\" border=\"0\" style=\"margin-top:24px;\">")) ?_
      refine sim_fld "<tr><td align=\"center\" style=\"border-top:1px solid #eeeeee;color" ':'
        _ _ (by decide) (by simp [cfgSimPairs, cfgFields]) ?_ (by decide)
      refine sim_fld ";font-size" ':' _ _ (by decide)
        (by simp [cfgSimPairs, cfgFields]) ?_ (by decide)
      refine sim_append (sim_refl (str ";\">")) ?_
      refine sim_append (sim_refl (str "来源: <a href=\"")) ?_
      refine sim_append (sim_refl (escape_html source)) ?_
      refine sim_fld "\" style=\"color" ':' _ _ (by decide)
        (by simp [cfgSimPairs, cfgFields]) ?_ (by decide)
      refine sim_append (sim_refl (str ";\">")) ?_
      exact sim_append (sim_refl (escape_html source))
        (sim_append (sim_refl (str "</a>")) (sim_refl (str "</td></tr></table>")))
  exact sim_append (sim_append (sim_append hheader hmeta) hbody) hsource

/-- Whole-document conversion under two configurations. -/
lemma sim_convert {A B : StyleConfig} (hok : cfgSimOk A B = true)
    (md title source : Str) :
    Sim A B (convert A md title source) (convert B md title source) := by
  rw [convert, convert]
  exact sim_generate_html hok _ _ _ (sim_convert_body hok _) _

/-! ### Tag-name skeleton of an HTML string -/

/-- A character that may be part of a tag name as scanned after a `<`
(letters, digits, and the closing slash). -/
def nameChar (c : Char) : Bool := c.isAlpha || c.isDigit || c = '/'

/-- Fuelled worker for the tag-name scanner: each `<` emits the run of
name characters that follows it. -/
def tagSeqGo : Nat → Str → List Str
  | 0, _ => []
  | _ + 1, [] => []
  | fuel + 1, c :: l =>
    if c = '<' then l.takeWhile nameChar :: tagSeqGo fuel (l.dropWhile nameChar)
    else tagSeqGo fuel l

/-- The sequence of tag names introduced by `<` in a string; a closing tag
contributes its name with a leading slash. -/
def tagSeq (l : Str) : List Str := tagSeqGo l.length l

/-- `dropWhile` never lengthens a list. -/
lemma dropWhile_len_le (p : Char → Bool) : ∀ l : Str,
    (l.dropWhile p).length ≤ l.length := by
  intro l
  induction l with
  | nil => exact Nat.le_refl _
  | cons c rest ih =>
    by_cases hc : p c = true
    · rw [List.dropWhile_cons_of_pos hc]
      exact Nat.le_succ_of_le ih
    · rw [List.dropWhile_cons_of_neg hc]

/-- The tag scanner is independent of the fuel once it covers the length. -/
lemma tagSeqGo_congr : ∀ (f g : Nat) (l : Str), l.length ≤ f → l.length ≤ g →
    tagSeqGo f l = tagSeqGo g l := by
  intro f
  induction f with
  | zero =>
    intro g l hf _
    have hl : l = [] := List.eq_nil_of_length_eq_zero (Nat.le_zero.mp hf)
    subst hl
    cases g <;> rfl
  | succ f ih =>
    intro g l hf hg
    cases l with
    | nil => cases g <;> rfl
    | cons c t =>
      cases g with
      | zero => exact absurd hg (by simp)
      | succ g =>
        simp only [tagSeqGo]
        by_cases hc : c = '<'
        · rw [if_pos hc, if_pos hc]
          have ht : t.length ≤ f := by
            simp only [List.length_cons] at hf; omega
          have ht' : t.length ≤ g := by
            simp only [List.length_cons] at hg; omega
          rw [ih g (t.dropWhile nameChar)
            (Nat.le_trans (dropWhile_len_le _ t) ht)
            (Nat.le_trans (dropWhile_len_le _ t) ht')]
        · rw [if_neg hc, if_neg hc]
          exact ih g t (by simp only [List.length_cons] at hf; omega)
            (by simp only [List.length_cons] at hg; omega)

/-- `tagSeq` skips a character other than `<`. -/
lemma tagSeq_cons_ne {c : Char} (l : Str) (hc : ¬ c = '<') :
    tagSeq (c :: l) = tagSeq l := by
  show tagSeqGo (l.length + 1) (c :: l) = tagSeq l
  simp only [tagSeqGo, if_neg hc]
  rfl

/-- `tagSeq` at a `<`: emit the following run of name characters. -/
lemma tagSeq_cons_lt (l : Str) :
    tagSeq ('<' :: l) =
      l.takeWhile nameChar :: tagSeq (l.dropWhile nameChar) := by
  show tagSeqGo (l.length + 1) ('<' :: l) = _
  simp only [tagSeqGo, if_true]
  rw [tagSeqGo_congr l.length (l.dropWhile nameChar).length
    (l.dropWhile nameChar) (dropWhile_len_le _ l) (Nat.le_refl _)]
  rfl

/-- `tagSeq` ignores a prefix containing no `<`. -/
lemma tagSeq_append_noLt : ∀ {x : Str} (l : Str), '<' ∉ x →
    tagSeq (x ++ l) = tagSeq l := by
  intro x
  induction x with
  | nil => intro l _; rfl
  | cons c t ih =>
    intro l hx
    have hc : ¬ c = '<' := fun e => hx (by rw [← e]; exact List.mem_cons_self c t)
    rw [List.cons_append, tagSeq_cons_ne _ hc]
    exact ih l (fun hm => hx (List.mem_cons_of_mem c hm))

/-- An inert literal contains no `<`. -/
lemma inert_noLt {x : Str} (hx : inertStr x = true) : '<' ∉ x := by
  intro hm
  rw [inertStr, List.all_eq_true] at hx
  exact inert_ne (hx '<' hm) (by decide) rfl

/-- Guard characters are not name characters. -/
lemma guard_not_name {c : Char} (hg : simGuard c = true) : nameChar c = false := by
  simp only [simGuard, Bool.or_eq_true, decide_eq_true_eq] at hg
  rcases hg with (h | h) | h <;> (subst h; decide)

/-- `takeWhile nameChar` is a literal on `Sim`-related strings, and
`dropWhile nameChar` preserves `Sim`. -/
lemma sim_takeWhile_name {A B : StyleConfig}
    {l r : Str} (h : Sim A B l r) :
    l.takeWhile nameChar = r.takeWhile nameChar ∧
    Sim A B (l.dropWhile nameChar) (r.dropWhile nameChar) := by
  induction h with
  | nil => exact ⟨rfl, .nil⟩
  | @cons c a b h ih =>
    by_cases hc : nameChar c = true
    · rw [List.takeWhile_cons_of_pos hc, List.takeWhile_cons_of_pos hc,
        List.dropWhile_cons_of_pos hc, List.dropWhile_cons_of_pos hc]
      exact ⟨by rw [ih.1], ih.2⟩
    · rw [List.takeWhile_cons_of_neg hc, List.takeWhile_cons_of_neg hc,
        List.dropWhile_cons_of_neg hc, List.dropWhile_cons_of_neg hc]
      exact ⟨rfl, .cons c h⟩
  | @subst c x y a b hg hxy h ih =>
    have hc : nameChar c = false := guard_not_name hg
    rw [List.takeWhile_cons_of_neg (by simp [hc]),
      List.takeWhile_cons_of_neg (by simp [hc]),
      List.dropWhile_cons_of_neg (by simp [hc]),
      List.dropWhile_cons_of_neg (by simp [hc])]
    exact ⟨rfl, .subst c x y hg hxy h⟩

/-- `Sim`-related strings have identical tag-name skeletons (strong
induction on a length bound). -/
lemma sim_tagSeq_bound {A B : StyleConfig} (hok : cfgSimOk A B = true) :
    ∀ (n : Nat) {l r : Str}, l.length ≤ n → Sim A B l r → tagSeq l = tagSeq r := by
  intro n
  induction n with
  | zero =>
    intro l r hn h
    have hl : l = [] := List.eq_nil_of_length_eq_zero (Nat.le_zero.mp hn)
    subst hl
    rw [sim_nil_inv h]
  | succ n ih =>
    intro l r hn h
    cases h with
    | nil => rfl
    | @cons c a b hab =>
      by_cases hc : c = '<'
      · subst hc
        rw [tagSeq_cons_lt, tagSeq_cons_lt]
        obtain ⟨e1, e2⟩ := sim_takeWhile_name hab
        rw [e1]
        rw [ih (Nat.le_trans (dropWhile_len_le _ a)
          (by simp only [List.length_cons] at hn; omega)) e2]
      · rw [tagSeq_cons_ne _ hc, tagSeq_cons_ne _ hc]
        exact ih (by simp only [List.length_cons] at hn; omega) hab
    | @subst c x y a b hg hxy hab =>
      obtain ⟨hlen, hxi, hyi⟩ := simPairs_ok hok hxy
      have hc : ¬ c = '<' := by
        intro e; rw [e] at hg; exact absurd hg (by decide)
      rw [tagSeq_cons_ne _ hc, tagSeq_cons_ne _ hc,
        tagSeq_append_noLt _ (inert_noLt hxi), tagSeq_append_noLt _ (inert_noLt hyi)]
      exact ih (by
        simp only [List.length_cons, List.length_append] at hn
        omega) hab

/-- `Sim`-related strings have identical tag-name skeletons. -/
lemma sim_tagSeq {A B : StyleConfig} (hok : cfgSimOk A B = true) {l r : Str}
    (h : Sim A B l r) : tagSeq l = tagSeq r :=
  sim_tagSeq_bound hok l.length (Nat.le_refl _) h

/-- Any two registered style configurations are related by well-formed
substitution pairs. -/
lemma registered_simOk : ∀ pa ∈ STYLES, ∀ pb ∈ STYLES,
    cfgSimOk pa.2 pb.2 = true := by
  intro pa ha pb hb
  simp only [STYLES, List.mem_cons, List.not_mem_nil, or_false] at ha hb
  rcases ha with rfl | rfl | rfl | rfl <;>
    rcases hb with rfl | rfl | rfl | rfl <;> decide

/-- C8: rendering the same document under any two registered styles
produces outputs that are `Sim`-related — character for character
identical except at interpolated style values, each of which sits
directly after a template guard character (`:`, space or `"`), has equal
length on both sides, and consists of inert characters (no HTML
delimiters) — and consequently the two outputs have identical tag-name
skeletons: switching styles changes only colors/sizes, never the HTML
structure. -/
theorem C8_style_isolation (pa pb : Str × StyleConfig)
    (ha : pa ∈ STYLES) (hb : pb ∈ STYLES) (md title source : Str) :
    Sim pa.2 pb.2 (convert pa.2 md title source) (convert pb.2 md title source) ∧
    tagSeq (convert pa.2 md title source) = tagSeq (convert pb.2 md title source) := by
  have hok := registered_simOk pa ha pb hb
  have hs := sim_convert hok md title source
  exact ⟨hs, sim_tagSeq hok hs⟩

/-- Witness for C8 at two concrete registered styles and a concrete
document. -/
theorem C8_witness :
    (str "academic_gray", academicGray) ∈ STYLES ∧
    (str "festival", festival) ∈ STYLES ∧
    (Sim academicGray festival
        (convert academicGray (str "# Hi") (str "t") (str "s"))
        (convert festival (str "# Hi") (str "t") (str "s")) ∧
      tagSeq (convert academicGray (str "# Hi") (str "t") (str "s")) =
        tagSeq (convert festival (str "# Hi") (str "t") (str "s"))) :=
  ⟨by simp [STYLES], by simp [STYLES],
    C8_style_isolation (str "academic_gray", academicGray) (str "festival", festival)
      (by simp [STYLES]) (by simp [STYLES]) (str "# Hi") (str "t") (str "s")⟩


end Md2WeChat
